import Mathlib

/-!
# Secret synthesis of the 1Password operator

A shallow embedding of `pkg/kubernetessecrets/kubernetes_secrets_builder.go`,
`pkg/template/template.go`, `pkg/template/imagepullsecret.go` and of the item
model of `pkg/onepassword/model`, followed by theorems about the name and key
sanitizers, the three-tier payload cascade of `BuildKubernetesSecretData`, the
registry-credential document, the template context, the reconciler
`CreateKubernetesSecretFromItem`, the conversion `FromConnectItem` and
`ProcessTemplate` over a model of the library `text/template` on text and
chains of fields.

Conventions of the embedding.

* A Go `string` is a Lean `String`, i.e. a sequence of Unicode code points: the
  strings handled here come from API objects and are valid UTF-8.  `len` is the
  length of the UTF-8 encoding (`goLen`).
* A Go `[]byte` is a `List UInt8`; `[]byte(s)` is the UTF-8 encoding of `s`.
* A Go `map[string]V` is an association list with pairwise distinct keys
  (`GoMap V`); `m[k] = v` is `GoMap.set`, `m[k]` is `GoMap.get`.  Where the code
  tests `m[k] == nil`, every value stored in `m` before is non-nil, so the test
  is `GoMap.get m k = none`.
* A Go `(T, error)` result is an `Except String T`.  The errors of the
  reconciler, which are compared and wrapped, are values of `GoError`.
* The store client is a record of functions over an explicit state of the
  store; an invocation of the reconciler returns its error, the store calls it
  issued and the state it leaves (`Outcome`).
* Where Go ranges over a map, the order of the visit is a parameter of the
  definition, or the order of the association list.
* Logging has no effect on the results and is left out.
-/

namespace OnePasswordOperator

/-! ## Strings -/

/-- Go `len(s)`: the number of bytes of the UTF-8 encoding of the text. -/
def goLen : List Char → Nat
  | [] => 0
  | c :: cs => c.utf8Size + goLen cs

/-- Character class `[a-z]`. -/
def isLowerLetter (c : Char) : Bool := 97 ≤ c.toNat && c.toNat ≤ 122

/-- Character class `[A-Z]`. -/
def isUpperLetter (c : Char) : Bool := 65 ≤ c.toNat && c.toNat ≤ 90

/-- Character class `[0-9]`. -/
def isDigit (c : Char) : Bool := 48 ≤ c.toNat && c.toNat ≤ 57

/-- Character class `[a-z0-9]`. -/
def isLowerAlnum (c : Char) : Bool := isLowerLetter c || isDigit c

/-- `kubeValidate.DNS1123SubdomainMaxLength`. -/
def DNS1123SubdomainMaxLength : Nat := 253

/-- States of the automaton of the anchored expression
`^[a-z0-9]([-a-z0-9]*[a-z0-9])?(\.[a-z0-9]([-a-z0-9]*[a-z0-9])?)*$`:
`labelStart` expects the first character of a label, `afterAlnum` has just read
an alphanumeric (the only accepting state), `afterDash` has just read a `-`
inside a label. -/
inductive SubdomainState where
  | labelStart
  | afterAlnum
  | afterDash
deriving DecidableEq, Repr

/-- Run of the automaton of `dns1123SubdomainRegexp` from a state. -/
def dns1123SubdomainRun : SubdomainState → List Char → Bool
  | .afterAlnum, [] => true
  | _, [] => false
  | .labelStart, c :: cs =>
    if isLowerAlnum c then dns1123SubdomainRun .afterAlnum cs else false
  | .afterAlnum, c :: cs =>
    if isLowerAlnum c then dns1123SubdomainRun .afterAlnum cs
    else if c = '-' then dns1123SubdomainRun .afterDash cs
    else if c = '.' then dns1123SubdomainRun .labelStart cs
    else false
  | .afterDash, c :: cs =>
    if isLowerAlnum c then dns1123SubdomainRun .afterAlnum cs
    else if c = '-' then dns1123SubdomainRun .afterDash cs
    else false

/-- Regular expression `dns1123SubdomainRegexp.MatchString`. -/
def dns1123SubdomainMatch (s : List Char) : Bool :=
  dns1123SubdomainRun .labelStart s

/-- The library function `kubeValidate.IsDNS1123Subdomain`: the list of
violations of the DNS-1123 subdomain rule, empty when the value is valid. -/
def IsDNS1123Subdomain (value : String) : List String :=
  (if goLen value.data > DNS1123SubdomainMaxLength then
      ["must be no more than 253 characters"] else []) ++
  (if !dns1123SubdomainMatch value.data then
      ["a lowercase RFC 1123 subdomain must consist of lower case alphanumeric characters, '-' or '.', and must start and end with an alphanumeric character"]
    else [])

/-- Character class `[-._a-zA-Z0-9]` of `configMapKeyFmt`, which is also the
complement of the class of `invalidDataChars`. -/
def isDataKeyChar (c : Char) : Bool :=
  isLowerLetter c || isUpperLetter c || isDigit c || c == '-' || c == '.' || c == '_'

/-- Regular expression `^[-._a-zA-Z0-9]+$` of `configMapKeyRegexp.MatchString`. -/
def configMapKeyMatch (s : List Char) : Bool :=
  !s.isEmpty && s.all isDataKeyChar

/-- The library function `hasChDirPrefix`. -/
def hasChDirPrefix (value : String) : List String :=
  if value = "." then ["must not be '.'"]
  else if value = ".." then ["must not be '..'"]
  else if ['.', '.'].isPrefixOf value.data then ["must not start with '..'"]
  else []

/-- The library function `kubeValidate.IsConfigMapKey`: the list of violations
of the data-key rule, empty when the value is a valid key. -/
def IsConfigMapKey (value : String) : List String :=
  (if goLen value.data > DNS1123SubdomainMaxLength then
      ["must be no more than 253 characters"] else []) ++
  (if !configMapKeyMatch value.data then
      ["a valid config key must consist of alphanumeric characters, '-', '_' or '.'"]
    else []) ++
  hasChDirPrefix value

/-- The library function `unicode.ToLower` as far as its result is visible
after `invalidDNS1123Chars` has been applied: ASCII capitals are lowered, and
the two non-ASCII code points whose lower case is ASCII are mapped to it
(U+0130 to `i`, U+212A to `k`).  Every other non-ASCII code point lowers to a
non-ASCII code point; it is kept as it is, since both are replaced alike by the
expression `[^a-z0-9-.]+` that `createValidSecretName` applies next. -/
def toLowerRune (c : Char) : Char :=
  if isUpperLetter c then Char.ofNat (c.toNat + 32)
  else if c.toNat = 0x130 then 'i'
  else if c.toNat = 0x212A then 'k'
  else c

/-- The library function `strings.ToLower`, on the code points of the text. -/
def toLower (s : List Char) : List Char := s.map toLowerRune

/-- Character class `[^a-z0-9-.]` of `invalidDNS1123Chars`. -/
def invalidDNS1123Char (c : Char) : Bool :=
  !(isLowerAlnum c || c == '-' || c == '.')

/-- Character class `[^a-zA-Z0-9-._]` of `invalidDataChars` and of
`invalidStartEndChars`. -/
def invalidDataChar (c : Char) : Bool := !isDataKeyChar c

/-- `re.ReplaceAllString(s, repl)` for an expression `[cls]+`: scanning from the
left, every maximal run of characters of the class is replaced by one copy of
`repl`.  The flag tells whether the previous character belonged to a run, whose
replacement has then been emitted already. -/
def replaceAllRuns (cls : Char → Bool) (repl : List Char) : Bool → List Char → List Char
  | _, [] => []
  | inRun, c :: cs =>
    if cls c then
      (if inRun then [] else repl) ++ replaceAllRuns cls repl true cs
    else c :: replaceAllRuns cls repl false cs

/-- `re.ReplaceAllString(s, "")` for an expression `(^[cls]+|[cls]+$)`.  The
first alternative matches at offset 0 only and takes the whole leading run
(flag `true`: still inside it).  Afterwards a match can only come from the
second alternative, which needs the run starting at the current offset to reach
the end of the text; the leftmost such offset is the start of the trailing
run. -/
def deleteStartEndRuns (cls : Char → Bool) : Bool → List Char → List Char
  | _, [] => []
  | true, c :: cs =>
    if cls c then deleteStartEndRuns cls true cs
    else c :: deleteStartEndRuns cls false cs
  | false, c :: cs =>
    if cls c && cs.all cls then []
    else c :: deleteStartEndRuns cls false cs

/-- Go slice expression `result[0:n]` applied when `len(result) > n`.  At both
places where the code slices, `result` has just been rewritten by an expression
that leaves ASCII characters only, so byte offsets and character offsets
agree (`goLen_eq_length_of_ascii`). -/
def truncateTo (n : Nat) (result : List Char) : List Char :=
  if goLen result > n then result.take n else result

/-- The library function `strings.Trim(s, cutset)`: leading and trailing
characters of the cutset are removed. -/
def trimCutset (cutset : List Char) (s : List Char) : List Char :=
  ((s.dropWhile (fun c => cutset.elem c)).reverse.dropWhile
      (fun c => cutset.elem c)).reverse

/-! ## `kubernetes_secrets_builder.go`: sanitizers -/

/-- Source function `createValidSecretName`. -/
def createValidSecretName (value : String) : String :=
  let result := toLower value.data
  let result := replaceAllRuns invalidDNS1123Char ['-'] false result
  let result := truncateTo DNS1123SubdomainMaxLength result
  -- first and last character MUST be alphanumeric
  ⟨trimCutset ['-', '.'] result⟩

/-- Source function `formatSecretName`: rewrites a value to be a valid Secret
name. -/
def formatSecretName (value : String) : String :=
  if (IsDNS1123Subdomain value).length = 0 then value
  else createValidSecretName value

/-- Source function `createValidSecretDataName`. -/
def createValidSecretDataName (value : String) : String :=
  let result := deleteStartEndRuns invalidDataChar true value.data
  let result := replaceAllRuns invalidDataChar ['-'] false result
  ⟨truncateTo DNS1123SubdomainMaxLength result⟩

/-- Source function `formatSecretDataName`: rewrites a value to be a valid
Secret data key. -/
def formatSecretDataName (value : String) : String :=
  if (IsConfigMapKey value).length = 0 then value
  else createValidSecretDataName value

/-! ## Byte slices and maps -/

/-- Go `[]byte`. -/
abbrev Bytes := List UInt8

/-- Go conversion `[]byte(s)`: the UTF-8 encoding of the text. -/
def stringToBytes (s : String) : Bytes :=
  s.data.flatMap String.utf8EncodeChar

/-- Go `map[string]V`: an association list; the operations below keep its keys
pairwise distinct. -/
abbrev GoMap (V : Type) := List (String × V)

/-- Go `m[k]` with the comma-ok result: `none` when the key is absent. -/
def GoMap.get {V : Type} : GoMap V → String → Option V
  | [], _ => none
  | (k', v) :: rest, k => if k' = k then some v else GoMap.get rest k

/-- Go `m[k] = v`: overwrites the entry of `k` if there is one, adds one
otherwise. -/
def GoMap.set {V : Type} : GoMap V → String → V → GoMap V
  | [], k, v => [(k, v)]
  | (k', v') :: rest, k, v =>
    if k' = k then (k, v) :: rest else (k', v') :: GoMap.set rest k v

/-- The keys of a map. -/
def GoMap.keys {V : Type} (m : GoMap V) : List String := m.map Prod.fst

/-- Go `m[k]` on a `map[string]string`: the empty string when the key is
absent. -/
def GoMap.getString (m : GoMap String) (k : String) : String :=
  (GoMap.get m k).getD ""

/-! ## `pkg/onepassword/model` -/

/-- Source type `ItemField`. -/
structure ItemField where
  ID : String
  Label : String
  Value : String
  SectionID : String
  FieldType : String
deriving DecidableEq, Repr

/-- Source type `ItemSection`. -/
structure ItemSection where
  ID : String
  Title : String
deriving DecidableEq, Repr

/-- Modelled from the spec: the type `File` of `pkg/onepassword/model` (its file
is not among the sources): "ID, Name, Size, lazy Content loader (may fail
independently of metadata)".  `content` is what `file.Content()` returns when
the payload is built: an error, a nil slice (`none`) or the bytes. -/
structure File where
  ID : String
  Name : String
  Size : Int
  content : Except String (Option Bytes)

/-- Source method `File.Content`, see `File`. -/
def File.Content (file : File) : Except String (Option Bytes) := file.content

/-- Source type `Item`; `CreatedAt` is a time stamp, kept as a number. -/
structure Item where
  ID : String
  VaultID : String
  Version : Int
  Tags : List String
  Fields : List ItemField
  Sections : List ItemSection
  Files : List File
  CreatedAt : Int

/-! ## `api/v1` -/

/-- Modelled from the spec: the type `SecretTemplate` of `api/v1` (not among the
sources): "ordered mapping from output-key-name to template-string".  `Data` is
a Go map, `none` when nil; the order of the list is the order in which `range`
visits the map, which Go leaves unspecified. -/
structure SecretTemplate where
  Data : Option (GoMap String)
deriving DecidableEq, Repr

/-- Modelled from the spec: the type `ImagePullSecretConfig` of `api/v1` (not
among the sources): "four field-label references (RegistryField, UsernameField,
PasswordField, EmailField)". -/
structure ImagePullSecretConfig where
  RegistryField : String
  UsernameField : String
  PasswordField : String
  EmailField : String
deriving DecidableEq, Repr

/-! ## `pkg/template/template.go` -/

/-- Source type `TemplateContext`. -/
structure TemplateContext where
  Fields : GoMap String
  Sections : GoMap (GoMap String)
  FieldsByID : GoMap String
deriving DecidableEq, Repr

/-- First loop of `BuildTemplateContext`: the map from section ID to section
title, and a bucket for the title of every declared section. -/
def buildSectionMaps (sections : List ItemSection) :
    GoMap String × GoMap (GoMap String) :=
  sections.foldl
    (fun acc sec =>
      let sectionMap := GoMap.set acc.1 sec.ID sec.Title
      let buckets :=
        if GoMap.get acc.2 sec.Title = none then GoMap.set acc.2 sec.Title []
        else acc.2
      (sectionMap, buckets))
    ([], [])

/-- Go `ctx.Sections[title][label] = value`, after the bucket of `title` has
been created when it was nil. -/
def setInSection (buckets : GoMap (GoMap String)) (title label value : String) :
    GoMap (GoMap String) :=
  let buckets :=
    if GoMap.get buckets title = none then GoMap.set buckets title [] else buckets
  GoMap.set buckets title (GoMap.set ((GoMap.get buckets title).getD []) label value)

/-- Body of the second loop of `BuildTemplateContext`, for one field. -/
def addFieldToContext (sectionMap : GoMap String) (ctx : TemplateContext)
    (field : ItemField) : TemplateContext :=
  let fields := GoMap.set ctx.Fields field.Label field.Value
  let fieldsByID := GoMap.set ctx.FieldsByID field.ID field.Value
  let sections :=
    if field.SectionID ≠ "" then
      let sectionTitle := GoMap.getString sectionMap field.SectionID
      -- Section ID exists but not in sections array, use ID as fallback
      let sectionTitle := if sectionTitle = "" then field.SectionID else sectionTitle
      setInSection ctx.Sections sectionTitle field.Label field.Value
    else
      setInSection ctx.Sections "" field.Label field.Value
  { Fields := fields, Sections := sections, FieldsByID := fieldsByID }

/-- Source function `BuildTemplateContext`. -/
def BuildTemplateContext (item : Item) : TemplateContext :=
  let maps := buildSectionMaps item.Sections
  item.Fields.foldl (addFieldToContext maps.1)
    { Fields := [], Sections := maps.2, FieldsByID := [] }

/-- The library `text/template` as `ProcessTemplate` uses it: `Parse` is
`template.New("secret").Parse`, `Execute` is `t.Execute` into a fresh buffer,
returning the buffer's bytes. -/
structure TextTemplate where
  Template : Type
  Parse : String → Except String Template
  Execute : Template → TemplateContext → Except String Bytes

/-- Source function `ProcessTemplate`. -/
def ProcessTemplate (lib : TextTemplate) (tmpl : String) (ctx : TemplateContext) :
    Except String Bytes :=
  match lib.Parse tmpl with
  | .error err => .error ("failed to parse template: " ++ err)
  | .ok t =>
    match lib.Execute t ctx with
    | .error err => .error ("failed to execute template: " ++ err)
    | .ok buf => .ok buf

/-! ## `pkg/template/imagepullsecret.go` -/

/-- Alphabet of `base64.StdEncoding`. -/
def base64Alphabet : List Char :=
  "ABCDEFGHIJKLMNOPQRSTUVWXYZabcdefghijklmnopqrstuvwxyz0123456789+/".data

/-- The character of a 6-bit value in `base64.StdEncoding`. -/
def base64Digit (n : Nat) : Char := base64Alphabet.getD n '='

/-- The library function `base64.StdEncoding.EncodeToString`: three bytes give
four characters, the last group is padded with `=`. -/
def base64Encode : Bytes → List Char
  | [] => []
  | [a] =>
    let n := a.toNat * 65536
    [base64Digit (n / 262144), base64Digit (n / 4096 % 64), '=', '=']
  | [a, b] =>
    let n := a.toNat * 65536 + b.toNat * 256
    [base64Digit (n / 262144), base64Digit (n / 4096 % 64), base64Digit (n / 64 % 64), '=']
  | a :: b :: c :: rest =>
    let n := a.toNat * 65536 + b.toNat * 256 + c.toNat
    base64Digit (n / 262144) :: base64Digit (n / 4096 % 64) :: base64Digit (n / 64 % 64) ::
      base64Digit (n % 64) :: base64Encode rest

/-- Hexadecimal digit as `encoding/json` writes it. -/
def hexDigit (n : Nat) : Char := "0123456789abcdef".data.getD n '0'

/-- How `encoding/json` writes one code point inside a string, with HTML
escaping on as in `json.Marshal`. -/
def jsonEscapeRune (c : Char) : List Char :=
  let n := c.toNat
  if n = 34 then [Char.ofNat 92, Char.ofNat 34]
  else if n = 92 then [Char.ofNat 92, Char.ofNat 92]
  else if n = 8 then [Char.ofNat 92, 'b']
  else if n = 12 then [Char.ofNat 92, 'f']
  else if n = 10 then [Char.ofNat 92, 'n']
  else if n = 13 then [Char.ofNat 92, 'r']
  else if n = 9 then [Char.ofNat 92, 't']
  else if n < 32 ∨ n = 60 ∨ n = 62 ∨ n = 38 then
    [Char.ofNat 92, 'u', '0', '0', hexDigit (n / 16), hexDigit (n % 16)]
  else if n = 0x2028 ∨ n = 0x2029 then
    [Char.ofNat 92, 'u', '2', '0', '2', hexDigit (n % 16)]
  else [c]

/-- A JSON string literal as `encoding/json` writes it. -/
def jsonString (s : String) : String :=
  ⟨Char.ofNat 34 :: s.data.flatMap jsonEscapeRune ++ [Char.ofNat 34]⟩

/-- A JSON object with the given members, in the given order. -/
def jsonObject (members : List (String × String)) : String :=
  "\x7b" ++ ",".intercalate (members.map (fun kv => jsonString kv.1 ++ ":" ++ kv.2)) ++ "\x7d"

/-- Source type `DockerConfigEntry`. -/
structure DockerConfigEntry where
  Username : String
  Password : String
  Email : String
  Auth : String
deriving DecidableEq, Repr

/-- Source type `DockerConfigJSON`; `Auths` is a Go map. -/
structure DockerConfigJSON where
  Auths : GoMap DockerConfigEntry
deriving DecidableEq, Repr

/-- `json.Marshal` of a `DockerConfigEntry`: the four members in declaration
order, each left out when empty (`omitempty`). -/
def marshalDockerConfigEntry (entry : DockerConfigEntry) : String :=
  jsonObject
    (([("username", entry.Username), ("password", entry.Password), ("email", entry.Email),
        ("auth", entry.Auth)].filter (fun kv => kv.2 ≠ "")).map
      (fun kv => (kv.1, jsonString kv.2)))

/-- `json.Marshal` of a `DockerConfigJSON` whose `Auths` has at most one entry
(maps with more entries, which `BuildDockerConfigJSON` never builds, would be
written with their keys sorted). -/
def marshalDockerConfigJSON (config : DockerConfigJSON) : Bytes :=
  stringToBytes
    (jsonObject [("auths",
      jsonObject (config.Auths.map (fun kv => (kv.1, marshalDockerConfigEntry kv.2))))])

/-- Source function `BuildDockerConfigJSON`. -/
def BuildDockerConfigJSON (registry username password email : String) :
    Except String Bytes :=
  if registry = "" then .error "registry cannot be empty"
  else if username = "" then .error "username cannot be empty"
  else if password = "" then .error "password cannot be empty"
  else
    -- Create base64-encoded auth string
    let authString := username ++ ":" ++ password
    let auth : String := ⟨base64Encode (stringToBytes authString)⟩
    let entry : DockerConfigEntry :=
      { Username := username, Password := password, Email := "", Auth := auth }
    let entry := if email ≠ "" then { entry with Email := email } else entry
    let config : DockerConfigJSON := { Auths := GoMap.set [] registry entry }
    .ok (marshalDockerConfigJSON config)

/-! ## `kubernetes_secrets_builder.go`: payload -/

/-- The field lookup map of the image-pull strategy: label to value, a later
field overwriting an earlier one with the same label. -/
def buildFieldMap (fields : List ItemField) : GoMap String :=
  fields.foldl (fun fieldMap field => GoMap.set fieldMap field.Label field.Value) []

/-- Priority 1 of `BuildKubernetesSecretData`, with a non-nil configuration:
`some` payload when the strategy returns, `none` when the build of the
document fails and the code falls through. -/
def imagePullSecretData (item : Item) (imagePullSecret : ImagePullSecretConfig)
    (secretData : GoMap Bytes) : Option (GoMap Bytes) :=
  let fieldMap := buildFieldMap item.Fields
  let registry := GoMap.getString fieldMap imagePullSecret.RegistryField
  let username := GoMap.getString fieldMap imagePullSecret.UsernameField
  let password := GoMap.getString fieldMap imagePullSecret.PasswordField
  let email := GoMap.getString fieldMap imagePullSecret.EmailField
  match BuildDockerConfigJSON registry username password email with
  | .error _ => none
  | .ok dockerConfigJSON => some (GoMap.set secretData ".dockerconfigjson" dockerConfigJSON)

/-- Priority 2 of `BuildKubernetesSecretData`, the loop over the pairs of a
non-nil `secretTemplate.Data`: a pair whose template fails is skipped. -/
def templateSecretData (lib : TextTemplate) (item : Item) (data : GoMap String)
    (secretData : GoMap Bytes) : GoMap Bytes :=
  let ctx := BuildTemplateContext item
  data.foldl
    (fun secretData kv =>
      match ProcessTemplate lib kv.2 ctx with
      | .error _ => secretData
      | .ok processed => GoMap.set secretData (formatSecretDataName kv.1) processed)
    secretData

/-- Priority 3 of `BuildKubernetesSecretData`, first loop: all fields are mapped
to secret keys. -/
def fieldSecretData (fields : List ItemField) (secretData : GoMap Bytes) : GoMap Bytes :=
  fields.foldl
    (fun secretData field =>
      GoMap.set secretData (formatSecretDataName field.Label) (stringToBytes field.Value))
    secretData

/-- Priority 3 of `BuildKubernetesSecretData`, second loop: unpopulated keys are
populated from files. -/
def fileSecretData (files : List File) (secretData : GoMap Bytes) : GoMap Bytes :=
  files.foldl
    (fun secretData file =>
      match file.Content with
      | .error _ => secretData
      | .ok none => secretData
      | .ok (some content) =>
        let key := file.Name
        if (GoMap.get secretData key).isNone then GoMap.set secretData key content
        else secretData)
    secretData

/-- Source function `BuildKubernetesSecretData`; `lib` is the template
library that `ProcessTemplate` calls. -/
def BuildKubernetesSecretData (lib : TextTemplate) (item : Item)
    (secretTemplate : Option SecretTemplate)
    (imagePullSecret : Option ImagePullSecretConfig) : GoMap Bytes :=
  let secretData : GoMap Bytes := []
  -- Priority 1: Image Pull Secret handling
  match imagePullSecret.bind (fun cfg => imagePullSecretData item cfg secretData) with
  | some result => result
  | none =>
    -- Priority 2: Template processing
    match secretTemplate.bind (fun t => t.Data) with
    | some data => templateSecretData lib item data secretData
    | none =>
      -- Priority 3: Default behavior
      fileSecretData item.Files (fieldSecretData item.Fields secretData)

/-- The library type `metav1.OwnerReference`. -/
structure OwnerReference where
  APIVersion : String
  Kind : String
  Name : String
  UID : String
  Controller : Option Bool
  BlockOwnerDeletion : Option Bool
deriving DecidableEq, Repr

/-- The library type `corev1.Secret`, with the attributes the builder sets;
`Annotations` and `Labels` are Go maps, `none` when nil; `Type_` is the
attribute `Type`. -/
structure Secret where
  Name : String
  Namespace : String
  Annotations : Option (GoMap String)
  Labels : Option (GoMap String)
  OwnerReferences : List OwnerReference
  Data : GoMap Bytes
  Type_ : String
deriving DecidableEq, Repr

/-- Source function `BuildKubernetesSecretFromOnePasswordItem`. -/
def BuildKubernetesSecretFromOnePasswordItem (lib : TextTemplate)
    (name namespaceName : String) (annotations labels : Option (GoMap String))
    (secretType : String) (item : Item) (ownerRef : Option OwnerReference)
    (secretTemplate : Option SecretTemplate)
    (imagePullSecret : Option ImagePullSecretConfig) : Secret :=
  let ownerRefs : List OwnerReference :=
    match ownerRef with
    | some ref => [ref]
    | none => []
  { Name := formatSecretName name
    Namespace := namespaceName
    Annotations := annotations
    Labels := labels
    OwnerReferences := ownerRefs
    Data := BuildKubernetesSecretData lib item secretTemplate imagePullSecret
    Type_ := secretType }

/-! ## Reference definition of the data-key sanitizer -/

/-- Reference for `invalidDataChars.ReplaceAllString(s, "-")`, after the
specification: "replacing each remaining maximal run of such characters with a
single `-`".  A run is taken whole with `dropWhile`. -/
def collapseRuns (bad : Char → Bool) : List Char → List Char
  | [] => []
  | c :: cs =>
    if bad c then '-' :: collapseRuns bad (cs.dropWhile bad)
    else c :: collapseRuns bad cs
termination_by s => s.length
decreasing_by
  all_goals simp_wf
  exact Nat.lt_succ_of_le (List.dropWhile_sublist bad).length_le

/-- Reference for `invalidStartEndChars.ReplaceAllString(s, "")`, after the
specification: "deleting the maximal leading run and the maximal trailing run of
characters outside that set". -/
def stripEndRuns (bad : Char → Bool) (s : List Char) : List Char :=
  ((s.dropWhile bad).reverse.dropWhile bad).reverse

/-- Reference definition of `formatSecretDataName`, after the specification: a
value made only of alphanumerics, `-`, `_` and `.` and at most 253 characters
long is returned as it is; otherwise the leading and the trailing run of other
characters are deleted, each remaining run of them is replaced by a single `-`,
and the first 253 bytes are kept (the text is ASCII at that point, one byte per
character). -/
def formatSecretDataNameSpec (value : String) : String :=
  if value.data.all isDataKeyChar && decide (value.data.length ≤ 253) then value
  else ⟨(collapseRuns invalidDataChar (stripEndRuns invalidDataChar value.data)).take 253⟩

/-! ## Last-wins lookup and sample inputs -/

/-- The last-wins value of a label, after the specification: the value of the
last field, in field order, that carries the label, and the empty string when
no field carries it. -/
def lastFieldValue (fields : List ItemField) (label : String) : String :=
  match fields.reverse.find? (fun f => f.Label = label) with
  | some f => f.Value
  | none => ""

/-- A stand-in for `text/template` on the templates of the examples: a text
without `{` has no action and renders as itself, as in the library; any other
text is rejected when parsed, as the library rejects the unclosed action
`{{`. -/
def literalTemplates : TextTemplate where
  Template := String
  Parse := fun tmpl =>
    if tmpl.data.elem (Char.ofNat 123) then .error "unclosed action" else .ok tmpl
  Execute := fun t _ => .ok (stringToBytes t)

/-- An item with the given fields and files and nothing else. -/
def itemOf (fields : List ItemField) (files : List File) : Item :=
  { ID := "item-1", VaultID := "vault-1", Version := 1, Tags := [], Fields := fields,
    Sections := [], Files := files, CreatedAt := 0 }

/-- A field with a label and a value, outside any section. -/
def fieldOf (label value : String) : ItemField :=
  { ID := "", Label := label, Value := value, SectionID := "", FieldType := "STRING" }

/-- The image-pull configuration naming the labels `registry`, `username`,
`password` and `email`. -/
def plainImagePullConfig : ImagePullSecretConfig :=
  { RegistryField := "registry", UsernameField := "username", PasswordField := "password",
    EmailField := "email" }

/-! ## Buckets of the template context -/

/-- The key of the bucket of `ctx.Sections` in which the second loop of
`BuildTemplateContext` places a field: the title that `sectionMap` gives for the
field's section ID, the section ID itself when that title is empty, and the
empty key for a field without section ID. -/
def sectionBucket (sectionMap : GoMap String) (field : ItemField) : String :=
  if field.SectionID ≠ "" then
    let sectionTitle := GoMap.getString sectionMap field.SectionID
    if sectionTitle = "" then field.SectionID else sectionTitle
  else ""

/-- Go `ctx.Sections[title][label]` with the comma-ok result: `none` when the
bucket or the label is absent. -/
def bucketGet (buckets : GoMap (GoMap String)) (title label : String) : Option String :=
  (GoMap.get buckets title).bind (fun bucket => GoMap.get bucket label)

/-- An item with the given fields and sections and nothing else. -/
def sectionedItemOf (fields : List ItemField) (sections : List ItemSection) : Item :=
  { ID := "item-1", VaultID := "vault-1", Version := 1, Tags := [], Fields := fields,
    Sections := sections, Files := [], CreatedAt := 0 }

/-- A field with a label and a value in the section of the given ID. -/
def fieldIn (sectionID label value : String) : ItemField :=
  { ID := "", Label := label, Value := value, SectionID := sectionID, FieldType := "STRING" }

/-! ## `kubernetes_secrets_builder.go`: the reconciler -/

/-- Source constant `OnepasswordPrefix`. -/
def OnepasswordPrefix : String := "operator.1password.io"

/-- Source constant `NameAnnotation`. -/
def NameAnnotation : String := OnepasswordPrefix ++ "/item-name"

/-- Source constant `VersionAnnotation`. -/
def VersionAnnotation : String := OnepasswordPrefix ++ "/item-version"

/-- Source constant `ItemPathAnnotation`. -/
def ItemPathAnnotation : String := OnepasswordPrefix ++ "/item-path"

/-- Source constant `RestartDeploymentsAnnotation`. -/
def RestartDeploymentsAnnotation : String := OnepasswordPrefix ++ "/auto-restart"

/-- The library constant `corev1.SecretTypeOpaque`. -/
def SecretTypeOpaque : String := "Opaque"

/-- Modelled from the spec: the function `utils.StringToBool` (its file is not
among the sources): the restart flag "must parse as a boolean string".  The
boolean strings are those of Go's `strconv.ParseBool`. -/
def StringToBool (str : String) : Except String Bool :=
  if str ∈ ["1", "t", "T", "TRUE", "true", "True"] then .ok true
  else if str ∈ ["0", "f", "F", "FALSE", "false", "False"] then .ok false
  else .error ("strconv.ParseBool: parsing " ++ str ++ ": invalid syntax")

/-- An error returned by the store client; `NotFound` is what
`apierrors.IsNotFound` reports about it. -/
structure StoreError where
  NotFound : Bool
  Message : String
deriving DecidableEq, Repr

/-- The Go `error` values that `CreateKubernetesSecretFromItem` returns: the
package variable `ErrCannotUpdateSecretType`, an error made by `fmt.Errorf`
without `%w`, an error made by `fmt.Errorf` with the message followed by
`: %w`, and an error of the store client as it is. -/
inductive GoError where
  | ErrCannotUpdateSecretType
  | errorf (msg : String)
  | wrap (msg : String) (err : GoError)
  | store (err : StoreError)
deriving DecidableEq, Repr

deriving instance DecidableEq for Except

/-- A call of the store client, with its arguments and its result. -/
inductive StoreCall where
  | get (namespaceName name : String) (result : Except StoreError Secret)
  | create (secret : Secret) (result : Option StoreError)
  | update (secret : Secret) (result : Option StoreError)
deriving DecidableEq

/-- The library interface `kubernetesClient.Client` as the reconciler uses it,
over an explicit state of the store: `Get` reads the object of a namespaced
name, `Create` and `Update` return their error, if any, and the next state. -/
structure KubeClient where
  State : Type
  Get : State → String → String → Except StoreError Secret
  Create : State → Secret → Option StoreError × State
  Update : State → Secret → Option StoreError × State

/-- What an invocation of the reconciler leaves: the returned error (`none` for
nil), the store calls it issued, in order, and the state of the store. -/
structure Outcome (State : Type) where
  err : Option GoError
  calls : List StoreCall
  state : State

/-- The library function `reflect.DeepEqual` on two `map[string]string` that
are both non-nil: the same keys with the same values. -/
def mapsEqual (a b : GoMap String) : Bool :=
  (GoMap.keys a).all (fun k => decide (GoMap.get a k = GoMap.get b k)) &&
    (GoMap.keys b).all (fun k => decide (GoMap.get b k = GoMap.get a k))

/-- The library function `reflect.DeepEqual` on two `map[string]string`: a nil
map equals a nil map only, two non-nil maps are compared entry by entry. -/
def DeepEqual : Option (GoMap String) → Option (GoMap String) → Bool
  | none, none => true
  | some a, some b => mapsEqual a b
  | _, _ => false

/-- Lines 48 to 63 of `CreateKubernetesSecretFromItem`: the annotations of the
Secret, or the error returned when the restart flag does not parse. -/
def secretAnnotationsOf (secretName : String) (item : Item) (autoRestart : String)
    (secretAnnotations : Option (GoMap String)) : Except GoError (GoMap String) :=
  let itemVersion := toString item.Version
  let secretAnnotations := secretAnnotations.getD []
  let secretAnnotations := GoMap.set secretAnnotations VersionAnnotation itemVersion
  let secretAnnotations := GoMap.set secretAnnotations ItemPathAnnotation
    ("vaults/" ++ item.VaultID ++ "/items/" ++ item.ID)
  if autoRestart ≠ "" then
    match StringToBool autoRestart with
    | .error _ =>
      .error (.errorf ("error parsing " ++ RestartDeploymentsAnnotation ++
        " annotation on Secret " ++ secretName ++
        ". Must be true or false. Defaulting to false"))
    | .ok _ => .ok (GoMap.set secretAnnotations RestartDeploymentsAnnotation autoRestart)
  else .ok secretAnnotations

/-- Source function `CreateKubernetesSecretFromItem`, on a store client
`kubeClient` in the state `store`. -/
def CreateKubernetesSecretFromItem (lib : TextTemplate) (kubeClient : KubeClient)
    (store : kubeClient.State) (secretName namespaceName : String) (item : Item)
    (autoRestart : String) (labels secretAnnotations : Option (GoMap String))
    (secretType : String) (ownerRef : Option OwnerReference)
    (secretTemplate : Option SecretTemplate)
    (imagePullSecret : Option ImagePullSecretConfig) : Outcome kubeClient.State :=
  match secretAnnotationsOf secretName item autoRestart secretAnnotations with
  | .error err => { err := some err, calls := [], state := store }
  | .ok secretAnnotations =>
    -- "Opaque" and "" secret types are treated the same by Kubernetes.
    let secret := BuildKubernetesSecretFromOnePasswordItem lib secretName namespaceName
      (some secretAnnotations) labels secretType item ownerRef secretTemplate imagePullSecret
    let fetched := kubeClient.Get store secret.Namespace secret.Name
    match fetched with
    | .error err =>
      if err.NotFound then
        let created := kubeClient.Create store secret
        { err := created.1.map GoError.store
          calls := [.get secret.Namespace secret.Name fetched, .create secret created.1]
          state := created.2 }
      else
        { err := some (.store err)
          calls := [.get secret.Namespace secret.Name fetched]
          state := store }
    | .ok currentSecret =>
      -- Check if the secret types are being changed on the update.
      let wantSecretType := if secretType = "" then SecretTypeOpaque else secretType
      let currentSecretType :=
        if currentSecret.Type_ = "" then SecretTypeOpaque else currentSecret.Type_
      if currentSecretType ≠ wantSecretType then
        { err := some .ErrCannotUpdateSecretType
          calls := [.get secret.Namespace secret.Name fetched]
          state := store }
      else if !DeepEqual currentSecret.Annotations (some secretAnnotations) ||
          !DeepEqual currentSecret.Labels labels then
        let currentSecret :=
          { currentSecret with
            Annotations := some secretAnnotations, Labels := labels, Data := secret.Data }
        let updated := kubeClient.Update store currentSecret
        { err := updated.1.map (fun e => .wrap "kubernetes secret update failed" (.store e))
          calls := [.get secret.Namespace secret.Name fetched, .update currentSecret updated.1]
          state := updated.2 }
      else
        { err := none
          calls := [.get secret.Namespace secret.Name fetched]
          state := store }

/-- The type of a Secret after the empty type has been mapped to the default
type `Opaque`, as the specification compares types. -/
def defaultedType (secretType : String) : String :=
  if secretType = "" then "Opaque" else secretType

/-- A store that keeps the objects it is given: `Get` finds the object of a
namespaced name or reports NotFound, `Create` adds an object unless one of the
same namespaced name exists, `Update` replaces the object of the same
namespaced name. -/
def memoryStore : KubeClient where
  State := List Secret
  Get := fun objects namespaceName name =>
    match objects.find? (fun o => o.Namespace = namespaceName ∧ o.Name = name) with
    | some o => .ok o
    | none => .error { NotFound := true, Message := "secrets \"" ++ name ++ "\" not found" }
  Create := fun objects secret =>
    if objects.any (fun o => o.Namespace = secret.Namespace ∧ o.Name = secret.Name) then
      (some { NotFound := false, Message := "secrets \"" ++ secret.Name ++ "\" already exists" },
        objects)
    else (none, objects ++ [secret])
  Update := fun objects secret =>
    if objects.any (fun o => o.Namespace = secret.Namespace ∧ o.Name = secret.Name) then
      (none, objects.map (fun o =>
        if o.Namespace = secret.Namespace ∧ o.Name = secret.Name then secret else o))
    else
      (some { NotFound := true, Message := "secrets \"" ++ secret.Name ++ "\" not found" },
        objects)

/-- A persisted Secret named `db` in the namespace `default`, with the given
type and labels, an annotation and a data key of its own. -/
def storedSecret (secretType : String) (labels : Option (GoMap String)) : Secret :=
  { Name := "db", Namespace := "default",
    Annotations := some [("example.com/owner", "team-a")], Labels := labels,
    OwnerReferences := [], Data := [("stale", [1])], Type_ := secretType }

/-! ## Decoding of JSON documents -/

/-- A JSON value of the fragment that the registry-credential document uses:
strings and objects, an object being the list of its members in the order of
the document. -/
inductive Json where
  | str (s : String)
  | obj (members : List (String × Json))

/-- The value of a hexadecimal digit. -/
def hexValue (c : Char) : Option Nat :=
  let n := c.toNat
  if 48 ≤ n ∧ n ≤ 57 then some (n - 48)
  else if 97 ≤ n ∧ n ≤ 102 then some (n - 87)
  else if 65 ≤ n ∧ n ≤ 70 then some (n - 55)
  else none

/-- The value of four hexadecimal digits. -/
def hex4 (a b c d : Char) : Option Nat :=
  match hexValue a, hexValue b, hexValue c, hexValue d with
  | some x, some y, some z, some w => some (((x * 16 + y) * 16 + z) * 16 + w)
  | _, _, _, _ => none

/-- The character that a one-letter escape of a JSON string stands for. -/
def unescapeRune (e : Char) : Option Char :=
  let n := e.toNat
  if n = 34 ∨ n = 92 ∨ n = 47 then some e
  else if e = 'b' then some (Char.ofNat 8)
  else if e = 'f' then some (Char.ofNat 12)
  else if e = 'n' then some (Char.ofNat 10)
  else if e = 'r' then some (Char.ofNat 13)
  else if e = 't' then some (Char.ofNat 9)
  else none

/-- The library `encoding/json` reading the rest of a string literal, after its
opening quote: the decoded text and what follows the closing quote.  `acc` holds
the characters decoded so far, last first, and `pending` a high surrogate that
the previous `\u` escape gave.  A high surrogate directly followed by a `\u`
escape of a low surrogate gives the code point of the pair; any other surrogate
gives U+FFFD.  A raw control character is an error. -/
def scanString : Option Nat → List Char → List Char → Option (String × List Char)
  | _, _, [] => none
  | pending, acc, c :: rest =>
    let flushed := if pending.isSome then Char.ofNat 0xFFFD :: acc else acc
    if c.toNat = 34 then some (⟨flushed.reverse⟩, rest)
    else if c.toNat = 92 then
      match rest with
      | [] => none
      | e :: rest1 =>
        if e = 'u' then
          match rest1 with
          | h1 :: h2 :: h3 :: h4 :: rest2 =>
            match hex4 h1 h2 h3 h4 with
            | none => none
            | some w =>
              if pending.isSome ∧ 0xDC00 ≤ w ∧ w < 0xE000 then
                scanString none
                  (Char.ofNat (0x10000 + (pending.getD 0 - 0xD800) * 0x400 + (w - 0xDC00)) :: acc)
                  rest2
              else if 0xD800 ≤ w ∧ w < 0xDC00 then scanString (some w) flushed rest2
              else if 0xDC00 ≤ w ∧ w < 0xE000 then
                scanString none (Char.ofNat 0xFFFD :: flushed) rest2
              else scanString none (Char.ofNat w :: flushed) rest2
          | _ => none
        else
          match unescapeRune e with
          | some ch => scanString none (ch :: flushed) rest1
          | none => none
    else if c.toNat < 32 then none
    else scanString none (c :: flushed) rest

/-- JSON white space. -/
def jsonIsSpace (c : Char) : Bool :=
  c.toNat = 32 || c.toNat = 9 || c.toNat = 10 || c.toNat = 13

/-- White space before a token is skipped. -/
def skipSpace (s : List Char) : List Char := s.dropWhile jsonIsSpace

/-- The library `encoding/json` decoding a value (`members = none`) or the
members of an object after its opening brace or after a comma
(`members = some acc`, with the members read so far), on the fragment of
strings and objects: the value and the rest of the text.  The first argument
bounds the number of nested calls; every call consumes a character, so the
length of the text is enough. -/
def parseAt : Nat → Option (List (String × Json)) → List Char → Option (Json × List Char)
  | 0, _, _ => none
  | fuel + 1, none, s =>
    match skipSpace s with
    | [] => none
    | c :: rest =>
      if c.toNat = 34 then
        match scanString none [] rest with
        | some (text, rest1) => some (.str text, rest1)
        | none => none
      else if c.toNat = 123 then
        match skipSpace rest with
        | [] => none
        | d :: rest1 =>
          if d.toNat = 125 then some (.obj [], rest1)
          else parseAt fuel (some []) (d :: rest1)
      else none
  | fuel + 1, some acc, s =>
    match skipSpace s with
    | [] => none
    | c :: rest =>
      if c.toNat = 34 then
        match scanString none [] rest with
        | none => none
        | some (key, rest1) =>
          match skipSpace rest1 with
          | [] => none
          | colon :: rest2 =>
            if colon.toNat = 58 then
              match parseAt fuel none rest2 with
              | none => none
              | some (value, rest3) =>
                match skipSpace rest3 with
                | [] => none
                | d :: rest4 =>
                  if d.toNat = 44 then parseAt fuel (some (acc ++ [(key, value)])) rest4
                  else if d.toNat = 125 then some (.obj (acc ++ [(key, value)]), rest4)
                  else none
            else none
      else none

/-- The library `encoding/json` decoding a document of the fragment of strings
and objects: one value, with nothing but white space after it. -/
def jsonDecode (text : String) : Option Json :=
  match parseAt (text.data.length + 1) none text.data with
  | some (value, rest) => if (skipSpace rest).isEmpty then some value else none
  | none => none

/-- The text of the document of `BuildDockerConfigJSON`, whose UTF-8 encoding
`marshalDockerConfigJSON` returns. -/
def dockerConfigJSONText (config : DockerConfigJSON) : String :=
  jsonObject [("auths",
    jsonObject (config.Auths.map (fun kv => (kv.1, marshalDockerConfigEntry kv.2))))]

/-! ## Stores of the reconciler's claims -/

/-- A persisted Secret named `db` in the namespace `default` whose annotations
are the ones the reconciler computes for the item `item-1` of the vault
`vault-1` at version 1, with the given labels and a data key of its own. -/
def syncedSecret (secretType : String) (labels : Option (GoMap String)) : Secret :=
  { Name := "db", Namespace := "default",
    Annotations := some [( VersionAnnotation, "1"),
      ( ItemPathAnnotation, "vaults/vault-1/items/item-1")],
    Labels := labels, OwnerReferences := [], Data := [("stale", [1])], Type_ := secretType }

/-- A store without state whose three calls give fixed results. -/
def scriptedStore (fetched : Except StoreError Secret) (created updated : Option StoreError) :
    KubeClient where
  State := Unit
  Get := fun _ _ _ => fetched
  Create := fun st _ => (created, st)
  Update := fun st _ => (updated, st)

/-- A store that hands back what `Create` and `Update` are given unchanged: the
object that `Get` returns has the namespaced name that was asked for, and after
a successful `Create` or `Update` of an object, `Get` of its namespaced name
returns that very object, a map with no entries as a map with no entries. -/
def Faithful (client : KubeClient) : Prop :=
  (∀ st namespaceName name s, client.Get st namespaceName name = .ok s →
    s.Namespace = namespaceName ∧ s.Name = name) ∧
  (∀ st s, (client.Create st s).1 = none →
    client.Get (client.Create st s).2 s.Namespace s.Name = .ok s) ∧
  (∀ st s, (client.Update st s).1 = none →
    client.Get (client.Update st s).2 s.Namespace s.Name = .ok s)

/-- What the API server makes of a map of annotations or labels: the maps are
written with `omitempty`, so a map with no entries is not kept and is read back
as an absent map. -/
def storedMap (m : Option (GoMap String)) : Option (GoMap String) :=
  match m with
  | some [] => none
  | other => other

/-- The object that the API server keeps for an object it is given: maps with
no entries are absent and the empty type is the default type `Opaque`. -/
def storedObject (s : Secret) : Secret :=
  { s with
    Annotations := storedMap s.Annotations, Labels := storedMap s.Labels,
    Type_ := defaultedType s.Type_ }

/-- A store that keeps objects as the API server does: like `memoryStore`, but
what it keeps and hands back for an object is its `storedObject`. -/
def apiStore : KubeClient where
  State := List Secret
  Get := fun objects namespaceName name =>
    match objects.find? (fun o => o.Namespace = namespaceName ∧ o.Name = name) with
    | some o => .ok o
    | none => .error { NotFound := true, Message := "secrets \"" ++ name ++ "\" not found" }
  Create := fun objects secret =>
    if objects.any (fun o => o.Namespace = secret.Namespace ∧ o.Name = secret.Name) then
      (some { NotFound := false, Message := "secrets \"" ++ secret.Name ++ "\" already exists" },
        objects)
    else (none, objects ++ [storedObject secret])
  Update := fun objects secret =>
    if objects.any (fun o => o.Namespace = secret.Namespace ∧ o.Name = secret.Name) then
      (none, objects.map (fun o =>
        if o.Namespace = secret.Namespace ∧ o.Name = secret.Name then storedObject secret
        else o))
    else
      (some { NotFound := true, Message := "secrets \"" ++ secret.Name ++ "\" not found" },
        objects)

/-- The object `got` is what a store hands back for the object `given`: its
type is the given one up to the default type, and its annotations and its
labels are the given maps, or absent where the given map has no entries.  The
data and the owner references are not constrained. -/
def PersistedAs (given got : Secret) : Prop :=
  defaultedType got.Type_ = defaultedType given.Type_ ∧
  (got.Annotations = given.Annotations ∨ got.Annotations = storedMap given.Annotations) ∧
  (got.Labels = given.Labels ∨ got.Labels = storedMap given.Labels)

/-- A store that persists what `Create` and `Update` are given: the object that
`Get` returns has the namespaced name that was asked for, and after a
successful `Create` or `Update` of an object, `Get` of its namespaced name
returns an object that is `PersistedAs` the given one.  The API server and the
stores that hand objects back unchanged are such stores. -/
def Persists (client : KubeClient) : Prop :=
  (∀ st namespaceName name s, client.Get st namespaceName name = .ok s →
    s.Namespace = namespaceName ∧ s.Name = name) ∧
  (∀ st s, (client.Create st s).1 = none →
    ∃ got, client.Get (client.Create st s).2 s.Namespace s.Name = .ok got ∧
      PersistedAs s got) ∧
  (∀ st s, (client.Update st s).1 = none →
    ∃ got, client.Get (client.Update st s).2 s.Namespace s.Name = .ok got ∧
      PersistedAs s got)

/-! ## Conversion of a Connect item -/

/-- The library type `connect.ItemSection`, as far as `FromConnectItem` reads
it. -/
structure ConnectItemSection where
  ID : String
  Label : String
deriving DecidableEq, Repr

/-- The library type `connect.ItemField`, as far as `FromConnectItem` reads it;
`Section` is a pointer, `none` when nil, and `Type_` the text of the field
type. -/
structure ConnectItemField where
  ID : String
  Label : String
  Value : String
  Section : Option ConnectItemSection
  Type_ : String
deriving DecidableEq, Repr

/-- The library type `connect.File`, as far as `FromConnectItem` reads it. -/
structure ConnectFile where
  ID : String
  Name : String
  Size : Int
deriving DecidableEq, Repr

/-- The library type `connect.Item`, as far as `FromConnectItem` reads it;
`VaultID` stands for `item.Vault.ID`, and the elements of `Fields` and `Files`
are the values that the pointers of the slices point to. -/
structure ConnectItem where
  ID : String
  VaultID : String
  Version : Int
  Tags : List String
  Fields : List ConnectItemField
  Files : List ConnectFile
  CreatedAt : Int
deriving DecidableEq, Repr

/-- The zero value `Item{}` that the callers of `FromConnectItem` start
from. -/
def zeroItem : Item :=
  { ID := "", VaultID := "", Version := 0, Tags := [], Fields := [], Sections := [],
    Files := [], CreatedAt := 0 }

/-- One round of the first loop of `FromConnectItem`: a field with a section
whose ID the map does not hold yet adds the entry of that section. -/
def sectionMapStep (sectionMap : GoMap ItemSection) (field : ConnectItemField) :
    GoMap ItemSection :=
  match field.Section with
  | some sec =>
    let sectionID := sec.ID
    match GoMap.get sectionMap sectionID with
    | none => GoMap.set sectionMap sectionID { ID := sec.ID, Title := sec.Label }
    | some _ => sectionMap
  | none => sectionMap

/-- The first loop of `FromConnectItem`: the map `sectionMap` from section ID
to section, built from the sections the fields refer to. -/
def connectSectionMap (fields : List ConnectItemField) : GoMap ItemSection :=
  fields.foldl sectionMapStep []

/-- Source method `Item.FromConnectItem` on the receiver `i`.  `rangeOrder` is
the order in which `range` visits the entries of `sectionMap`, which Go leaves
unspecified, and `content` what `Content` returns for a file built from its
identifier, name and size alone. -/
def FromConnectItem (rangeOrder : GoMap ItemSection → GoMap ItemSection)
    (content : ConnectFile → Except String (Option Bytes)) (i : Item) (item : ConnectItem) :
    Item :=
  -- Build sections map from field references
  let sectionMap := connectSectionMap item.Fields
  { ID := item.ID
    VaultID := item.VaultID
    Version := item.Version
    Tags := i.Tags ++ item.Tags
    -- Convert map to slice
    Sections := (rangeOrder sectionMap).map (fun entry => entry.2)
    -- Preserve fields with section and type metadata
    Fields := i.Fields ++ item.Fields.map (fun field =>
      let sectionID :=
        match field.Section with
        | some sec => sec.ID
        | none => ""
      { ID := field.ID, Label := field.Label, Value := field.Value, SectionID := sectionID,
        FieldType := field.Type_ })
    Files := i.Files ++ item.Files.map (fun file =>
      { ID := file.ID, Name := file.Name, Size := file.Size, content := content file })
    CreatedAt := item.CreatedAt }

/-- The section of the first field that refers to the section ID `id`. -/
def firstSection (fields : List ConnectItemField) (id : String) : Option ConnectItemSection :=
  (fields.filterMap (fun field => field.Section)).find? (fun sec => decide (sec.ID = id))

/-- The section label of the first field that refers to the section ID `id`. -/
def firstSectionLabel (fields : List ConnectItemField) (id : String) : Option String :=
  (firstSection fields id).map (fun sec => sec.Label)

/-- A Connect field of the section with the given ID and label. -/
def connectFieldIn (sectionID sectionLabel id label value fieldType : String) :
    ConnectItemField :=
  { ID := id, Label := label, Value := value,
    Section := some { ID := sectionID, Label := sectionLabel }, Type_ := fieldType }

/-- A Connect item with the given fields and nothing else of interest. -/
def connectItemOf (fields : List ConnectItemField) : ConnectItem :=
  { ID := "test-item-id", VaultID := "test-vault-id", Version := 1, Tags := ["tag1"],
    Fields := fields, Files := [], CreatedAt := 0 }

/-! ## The library `text/template` on chains of fields -/

/-- The opening brace, of which the left delimiter of an action has two. -/
def leftBrace : Char := Char.ofNat 123

/-- The closing brace, of which the right delimiter of an action has two. -/
def rightBrace : Char := Char.ofNat 125

/-- The library lexer's `isSpace`: blank, tab, carriage return or line feed. -/
def isTemplateSpace (c : Char) : Bool :=
  c.toNat = 32 || c.toNat = 9 || c.toNat = 13 || c.toNat = 10

/-- The library lexer's `isAlphaNumeric`: an underscore, a letter or a digit.
`unicodeLetterOrDigit` stands for `unicode.IsLetter` and `unicode.IsDigit`
beyond ASCII. -/
def isAlphaNumeric (unicodeLetterOrDigit : Char → Bool) (c : Char) : Bool :=
  c = '_' ||
    (if c.toNat < 128 then isLowerLetter c || isUpperLetter c || isDigit c
     else unicodeLetterOrDigit c)

/-- A node of a parsed template: literal text, or an action that prints the
chain of fields `.top.key1.key2`. -/
inductive TemplateNode where
  | text (text : List Char)
  | field (top : String) (keys : List String)
deriving DecidableEq, Repr

/-- What the model of the library's parser says about an input: the result, an
error that the library reports, or `beyond` when the input uses a part of the
template language that the model does not cover (pipelines, function calls
such as `index`, variables, control structures, comments, trim markers); about
such an input the model says nothing. -/
inductive Parsed (α : Type) where
  | nodes (value : α)
  | failure (err : String)
  | beyond
deriving DecidableEq, Repr

/-- The library lexer's `lexText`: the text before the leftmost left delimiter
and what follows that delimiter, `none` when the input has no left
delimiter. -/
def splitAtLeftDelim : List Char → List Char × Option (List Char)
  | [] => ([], none)
  | c :: rest =>
    if c = leftBrace ∧ rest.head? = some leftBrace then ([], some rest.tail)
    else
      let found := splitAtLeftDelim rest
      (c :: found.1, found.2)

/-- The library lexer's `lexSpace`: the input after its leading spaces. -/
def skipSpaces : List Char → List Char
  | [] => []
  | c :: rest => if isTemplateSpace c then skipSpaces rest else c :: rest

/-- The library lexer's `lexField` run over a chain of fields, after the dot
that opens it: `chain` holds the identifiers read so far and `cur` the
characters of the current one, last first.  An identifier is a run of
alphanumerics, and it has to be followed by a terminator: a dot, which goes on
with the chain, or a space or the right delimiter, which end the chain; any
other character after an identifier that is no terminator is the lexer's error
`bad character`, and the end of the input its error `unclosed action`.  The
result is the chain and the input from the character that ended it.  A dot
that opens no identifier, a dot before a digit and the terminators of
pipelines and calls are beyond the model. -/
def lexFieldChain (unicodeLetterOrDigit : Char → Bool) (chain : List String)
    (cur : List Char) : List Char → Parsed (List String × List Char)
  | [] => .failure "unclosed action"
  | c :: rest =>
    if isAlphaNumeric unicodeLetterOrDigit c then
      lexFieldChain unicodeLetterOrDigit chain (c :: cur) rest
    else if cur = [] then .beyond
    else if c = '.' then
      if rest.head?.map isDigit = some true then .beyond
      else lexFieldChain unicodeLetterOrDigit (chain ++ [⟨cur.reverse⟩]) [] rest
    else if isTemplateSpace c ∨ (c = rightBrace ∧ rest.head? = some rightBrace) then
      .nodes (chain ++ [⟨cur.reverse⟩], c :: rest)
    else if c = ',' ∨ c = '|' ∨ c = ':' ∨ c = ')' ∨ c = '(' then .beyond
    else .failure "bad character"

/-- The library's lexer and parser on one action, after its left delimiter.
The model covers the action that consists of one chain of fields between
optional spaces: it returns the first identifier of the chain, the following
ones, and the input after the right delimiter.  Every other action is beyond
the model. -/
def parseAction (unicodeLetterOrDigit : Char → Bool) (input : List Char) :
    Parsed (String × List String × List Char) :=
  match skipSpaces input with
  | [] => .failure "unclosed action"
  | c :: rest =>
    if c = '.' ∧ rest.head?.map isDigit ≠ some true then
      match lexFieldChain unicodeLetterOrDigit [] [] rest with
      | .failure err => .failure err
      | .beyond => .beyond
      | .nodes (chain, rest) =>
        match chain, skipSpaces rest with
        | _, [] => .failure "unclosed action"
        | top :: keys, c1 :: c2 :: rest =>
          if c1 = rightBrace ∧ c2 = rightBrace then .nodes (top, keys, rest) else .beyond
        | _, _ => .beyond
    else .beyond

/-- The library's `Parse`: text up to the next left delimiter, the action
after it, and so on to the end of the input; a text node is made for a
non-empty text only.  Every round with an action consumes its two delimiters,
so the fuel `len + 1` that `goTemplates` gives is never used up. -/
def parseNodes (unicodeLetterOrDigit : Char → Bool) :
    Nat → List Char → Parsed (List TemplateNode)
  | 0, _ => .beyond
  | fuel + 1, input =>
    match splitAtLeftDelim input with
    | (text, none) => .nodes (if text = [] then [] else [.text text])
    | (text, some rest) =>
      match parseAction unicodeLetterOrDigit rest with
      | .failure err => .failure err
      | .beyond => .beyond
      | .nodes (top, keys, rest) =>
        match parseNodes unicodeLetterOrDigit fuel rest with
        | .failure err => .failure err
        | .beyond => .beyond
        | .nodes nodes =>
          .nodes ((if text = [] then [] else [.text text]) ++ .field top keys :: nodes)

/-- The values that a chain of fields on a `*TemplateContext` goes through:
the invalid value of the library (`reflect.Value{}`), a text, a
`map[string]string` and a `map[string]map[string]string`. -/
inductive TemplateValue where
  | invalid
  | text (s : String)
  | textMap (m : GoMap String)
  | sectionMap (m : GoMap (GoMap String))
deriving DecidableEq, Repr

/-- The library's `evalField` on a receiver below the context.  On a map the
name is a key: `ProcessTemplate` sets no `missingkey` option, so a key that the
map does not hold gives the invalid value.  On the invalid value the result is
the invalid value again, and a text has no fields. -/
def evalField (receiver : TemplateValue) (fieldName : String) : Except String TemplateValue :=
  match receiver with
  | .invalid => .ok .invalid
  | .text _ => .error ("can't evaluate field " ++ fieldName ++ " in type string")
  | .textMap m =>
    match GoMap.get m fieldName with
    | some value => .ok (.text value)
    | none => .ok .invalid
  | .sectionMap m =>
    match GoMap.get m fieldName with
    | some bucket => .ok (.textMap bucket)
    | none => .ok .invalid

/-- The library's `evalField` along the keys of a chain. -/
def evalKeys : TemplateValue → List String → Except String TemplateValue
  | receiver, [] => .ok receiver
  | receiver, key :: keys =>
    match evalField receiver key with
    | .error err => .error err
    | .ok value => evalKeys value keys

/-- The library's `evalFieldChain` on a `*TemplateContext`: the first
identifier has to be one of the three attributes of the context, the
following ones are evaluated on its value. -/
def evalFieldChain (ctx : TemplateContext) (top : String) (keys : List String) :
    Except String TemplateValue :=
  if top = "Fields" then evalKeys (.textMap ctx.Fields) keys
  else if top = "Sections" then evalKeys (.sectionMap ctx.Sections) keys
  else if top = "FieldsByID" then evalKeys (.textMap ctx.FieldsByID) keys
  else .error ("can't evaluate field " ++ top ++ " in type *template.TemplateContext")

/-- Go `a < b` on strings: the order of the UTF-8 encodings byte by byte, which
is the order of the code points one by one. -/
def stringLess : List Char → List Char → Bool
  | _, [] => false
  | [], _ :: _ => true
  | a :: as, b :: bs =>
    if a.toNat < b.toNat then true
    else if b.toNat < a.toNat then false
    else stringLess as bs

/-- An entry put in its place among entries in the order of their keys. -/
def insertByKey {V : Type} (entry : String × V) : GoMap V → GoMap V
  | [] => [entry]
  | e :: rest =>
    if stringLess entry.1.data e.1.data then entry :: e :: rest
    else e :: insertByKey entry rest

/-- The entries of a map in the order of their keys, in which `fmt` prints
them. -/
def sortByKey {V : Type} (m : GoMap V) : GoMap V :=
  m.foldr insertByKey []

/-- The library `fmt` printing a `map[string]string`. -/
def formatTextMap (m : GoMap String) : String :=
  "map[" ++ " ".intercalate ((sortByKey m).map (fun e => e.1 ++ ":" ++ e.2)) ++ "]"

/-- The library's `printValue`: the invalid value is printed as `<no value>`,
a text as it is and a map as `fmt` prints it. -/
def printValue : TemplateValue → String
  | .invalid => "<no value>"
  | .text s => s
  | .textMap m => formatTextMap m
  | .sectionMap m =>
    "map[" ++ " ".intercalate
      ((sortByKey m).map (fun e => e.1 ++ ":" ++ formatTextMap e.2)) ++ "]"

/-- The library's `Execute`: the text nodes as they are and the printed values
of the actions, in the order of the template; the first error ends the
execution. -/
def execNodes (ctx : TemplateContext) : List TemplateNode → Except String (List Char)
  | [] => .ok []
  | .text text :: nodes =>
    match execNodes ctx nodes with
    | .error err => .error err
    | .ok out => .ok (text ++ out)
  | .field top keys :: nodes =>
    match evalFieldChain ctx top keys with
    | .error err => .error err
    | .ok value =>
      match execNodes ctx nodes with
      | .error err => .error err
      | .ok out => .ok ((printValue value).data ++ out)

/-- The library `text/template` as far as it is modelled: templates made of
text and of actions that print a chain of fields are parsed and executed by
the definitions above, with the library's error messages shortened; what the
library does with any other template is the parameter `beyond`. -/
def goTemplates (unicodeLetterOrDigit : Char → Bool) (beyond : TextTemplate) :
    TextTemplate where
  Template := List TemplateNode ⊕ beyond.Template
  Parse := fun tmpl =>
    match parseNodes unicodeLetterOrDigit (tmpl.data.length + 1) tmpl.data with
    | .nodes nodes => .ok (.inl nodes)
    | .failure err => .error err
    | .beyond =>
      match beyond.Parse tmpl with
      | .error err => .error err
      | .ok t => .ok (.inr t)
  Execute := fun t ctx =>
    match t with
    | .inl nodes =>
      match execNodes ctx nodes with
      | .error err => .error err
      | .ok out => .ok (stringToBytes ⟨out⟩)
    | .inr t => beyond.Execute t ctx

/-! ## Templates of text and bare field references -/

/-- The bare field reference of a name, as the specification writes it. -/
def fieldReference (name : String) : String :=
  "\x7b\x7b .Fields." ++ name ++ " \x7d\x7d"

/-- The template that consists of the given pieces, each a literal text
followed by the bare reference of a field name, and of a last literal text. -/
def templateSource (pieces : List (String × String)) ( final : String) : String :=
  pieces.foldr (fun piece rest => piece.1 ++ fieldReference piece.2 ++ rest) final

/-- What stands for the reference of a name in a rendering: the value of
`Fields[name]`, and the text `<no value>` when `Fields` has no such key. -/
def referenceText (ctx : TemplateContext) (name : String) : String :=
  match GoMap.get ctx.Fields name with
  | some value => value
  | none => "<no value>"

/-- The literal text of a template with each reference replaced by its
`referenceText`. -/
def templateRendering (ctx : TemplateContext) (pieces : List (String × String))
    ( final : String) : String :=
  pieces.foldr (fun piece rest => piece.1 ++ referenceText ctx piece.2 ++ rest) final

/-- The rendering that replaces the reference of a key that `Fields` does not
hold by the empty text. -/
def templateRenderingEmpty (ctx : TemplateContext) (pieces : List (String × String))
    ( final : String) : String :=
  pieces.foldr (fun piece rest => piece.1 ++ GoMap.getString ctx.Fields piece.2 ++ rest) final

/-- Whether a text holds the left delimiter of an action. -/
def hasLeftDelim : List Char → Bool
  | [] => false
  | c :: rest => (c = leftBrace && rest.head? = some leftBrace) || hasLeftDelim rest

/-- Literal text in front of a reference: it holds no left delimiter and does
not end in an opening brace, which would join the delimiter after it. -/
def isLiteralBefore (text : String) : Bool :=
  !hasLeftDelim text.data && text.data.getLast? ≠ some leftBrace

/-- The name of a bare field reference: a non-empty run of underscores, letters
and digits that does not start with a digit from `0` to `9`. -/
def isFieldName (unicodeLetterOrDigit : Char → Bool) (name : String) : Bool :=
  name.data ≠ [] && name.data.all (isAlphaNumeric unicodeLetterOrDigit) &&
    name.data.head?.map isDigit ≠ some true

/-! ## Lemmas on strings -/

section StringLemmas

theorem utf8Size_of_ascii (c : Char) (h : c.toNat < 128) : c.utf8Size = 1 := by
  have h1 : c.val ≤ 127 := by
    have : c.val.toNat < 128 := h
    exact UInt32.le_def.mpr (by simpa using Nat.le_of_lt_succ this)
  simp [Char.utf8Size, h1]

theorem goLen_eq_length_of_ascii (s : List Char) (h : ∀ c ∈ s, c.toNat < 128) :
    goLen s = s.length := by
  induction s with
  | nil => rfl
  | cons c cs ih =>
    have hc := utf8Size_of_ascii c (h c (List.mem_cons_self _ _))
    have := ih (fun d hd => h d (List.mem_cons_of_mem _ hd))
    simp [goLen, hc, this, Nat.add_comm]

theorem length_le_goLen (s : List Char) : s.length ≤ goLen s := by
  induction s with
  | nil => simp [goLen]
  | cons c cs ih =>
    have := Char.utf8Size_pos c
    simp only [goLen, List.length_cons]
    omega

theorem toNat_of_not_invalidDNS1123Char (c : Char) (h : invalidDNS1123Char c = false) :
    (97 ≤ c.toNat ∧ c.toNat ≤ 122) ∨ (48 ≤ c.toNat ∧ c.toNat ≤ 57) ∨ c = '-' ∨ c = '.' := by
  simp only [invalidDNS1123Char, isLowerAlnum, isLowerLetter, isDigit, Bool.not_eq_false',
    Bool.or_eq_true, Bool.and_eq_true, decide_eq_true_eq, beq_iff_eq] at h
  tauto

theorem ascii_of_not_invalidDNS1123Char (c : Char) (h : invalidDNS1123Char c = false) :
    c.toNat < 128 := by
  rcases toNat_of_not_invalidDNS1123Char c h with h | h | h | h
  · omega
  · omega
  · subst h; decide
  · subst h; decide

theorem toNat_of_not_invalidDataChar (c : Char) (h : invalidDataChar c = false) :
    (97 ≤ c.toNat ∧ c.toNat ≤ 122) ∨ (65 ≤ c.toNat ∧ c.toNat ≤ 90) ∨
      (48 ≤ c.toNat ∧ c.toNat ≤ 57) ∨ c = '-' ∨ c = '.' ∨ c = '_' := by
  simp only [invalidDataChar, isDataKeyChar, isLowerLetter, isUpperLetter, isDigit,
    Bool.not_eq_false', Bool.or_eq_true, Bool.and_eq_true, decide_eq_true_eq, beq_iff_eq] at h
  tauto

theorem ascii_of_not_invalidDataChar (c : Char) (h : invalidDataChar c = false) :
    c.toNat < 128 := by
  rcases toNat_of_not_invalidDataChar c h with h | h | h | h | h | h
  · omega
  · omega
  · omega
  · subst h; decide
  · subst h; decide
  · subst h; decide

theorem toLowerRune_of_not_invalid (c : Char) (h : invalidDNS1123Char c = false) :
    toLowerRune c = c := by
  have hu : isUpperLetter c = false := by
    rcases toNat_of_not_invalidDNS1123Char c h with h | h | h | h
    · simp [isUpperLetter]; omega
    · simp [isUpperLetter]; omega
    · subst h; decide
    · subst h; decide
  have hn := ascii_of_not_invalidDNS1123Char c h
  have h1 : c.toNat ≠ 0x130 := by omega
  have h2 : c.toNat ≠ 0x212A := by omega
  simp [toLowerRune, hu, h1, h2]

theorem toLower_of_not_invalid (s : List Char) (h : ∀ c ∈ s, invalidDNS1123Char c = false) :
    toLower s = s := by
  induction s with
  | nil => rfl
  | cons c cs ih =>
    simp only [toLower, List.map_cons, List.cons.injEq]
    exact ⟨toLowerRune_of_not_invalid c (h c (List.mem_cons_self _ _)),
      ih (fun d hd => h d (List.mem_cons_of_mem _ hd))⟩

theorem replaceAllRuns_mem (cls : Char → Bool) (repl : List Char)
    (hrepl : ∀ c ∈ repl, cls c = false) (s : List Char) :
    ∀ (inRun : Bool), ∀ c ∈ replaceAllRuns cls repl inRun s, cls c = false := by
  induction s with
  | nil => intro inRun c hc; simp [replaceAllRuns] at hc
  | cons a as ih =>
    intro inRun c hc
    simp only [replaceAllRuns] at hc
    cases ha : cls a with
    | true =>
      rw [ha] at hc
      simp only [if_true, List.mem_append] at hc
      rcases hc with hc | hc
      · cases inRun
        · exact hrepl c (by simpa using hc)
        · simp at hc
      · exact ih true c hc
    | false =>
      rw [ha] at hc
      simp only [Bool.false_eq_true, if_false, List.mem_cons] at hc
      rcases hc with hc | hc
      · rw [hc]; exact ha
      · exact ih false c hc

theorem replaceAllRuns_of_valid (cls : Char → Bool) (repl : List Char) (s : List Char)
    (h : ∀ c ∈ s, cls c = false) :
    ∀ (inRun : Bool), replaceAllRuns cls repl inRun s = s := by
  induction s with
  | nil => intro inRun; simp [replaceAllRuns]
  | cons a as ih =>
    intro inRun
    have ha := h a (List.mem_cons_self _ _)
    simp only [replaceAllRuns, ha]
    simp [ih (fun d hd => h d (List.mem_cons_of_mem _ hd))]

theorem truncateTo_mem (n : Nat) (s : List Char) : ∀ c ∈ truncateTo n s, c ∈ s := by
  intro c hc
  unfold truncateTo at hc
  split at hc
  · exact List.mem_of_mem_take hc
  · exact hc

theorem truncateTo_length_le (n : Nat) (s : List Char) : (truncateTo n s).length ≤ n := by
  unfold truncateTo
  split
  · exact List.length_take_le _ _
  · have := length_le_goLen s
    omega

theorem truncateTo_of_le (n : Nat) (s : List Char) (h : goLen s ≤ n) : truncateTo n s = s := by
  unfold truncateTo
  rw [if_neg (by omega)]

theorem truncateTo_initial (n : Nat) (s : List Char) : truncateTo n s <+: s := by
  unfold truncateTo
  split
  · exact List.take_prefix _ _
  · exact List.prefix_refl _

theorem trimCutset_sublist (cutset s : List Char) : (trimCutset cutset s).Sublist s := by
  unfold trimCutset
  have h1 : ((s.dropWhile (fun c => cutset.elem c)).reverse.dropWhile
      (fun c => cutset.elem c)).reverse.Sublist (s.dropWhile (fun c => cutset.elem c)) := by
    have := (List.dropWhile_sublist (fun c => cutset.elem c)
      (l := (s.dropWhile (fun c => cutset.elem c)).reverse)).reverse
    simpa using this
  exact h1.trans (List.dropWhile_sublist _)

theorem dropWhile_eq_self_of_head (p : Char → Bool) (s : List Char)
    (h : ∀ c ∈ s.head?, p c = false) : s.dropWhile p = s := by
  cases s with
  | nil => rfl
  | cons a as =>
    have := h a (by simp)
    simp [List.dropWhile, this]

theorem head_dropWhile_not (p : Char → Bool) (s : List Char) :
    ∀ c ∈ (s.dropWhile p).head?, p c = false := by
  induction s with
  | nil => simp
  | cons a as ih =>
    intro c hc
    by_cases ha : p a = true
    · simp only [List.dropWhile, ha] at hc
      exact ih c hc
    · simp only [List.dropWhile, ha] at hc
      simp at hc
      subst hc
      simpa using ha

theorem head_reverse_dropWhile_reverse (p : Char → Bool) (s : List Char)
    (h : ∀ c ∈ s.head?, p c = false) :
    ∀ c ∈ ((s.reverse.dropWhile p).reverse).head?, p c = false := by
  intro c hc
  have hpre : (s.reverse.dropWhile p).reverse <+: s := by
    have := (List.dropWhile_suffix p (l := s.reverse))
    have := List.reverse_prefix.mpr this
    simpa using this
  obtain ⟨t, ht⟩ := hpre
  cases hu : (s.reverse.dropWhile p).reverse with
  | nil => rw [hu] at hc; simp at hc
  | cons a as =>
    rw [hu] at hc ht
    simp at hc
    subst hc
    apply h
    rw [← ht]
    simp

theorem trimCutset_head (cutset s : List Char) :
    ∀ c ∈ (trimCutset cutset s).head?, cutset.elem c = false :=
  head_reverse_dropWhile_reverse _ _ (head_dropWhile_not _ s)

theorem trimCutset_getLast (cutset s : List Char) :
    ∀ c ∈ (trimCutset cutset s).getLast?, cutset.elem c = false := by
  intro c hc
  unfold trimCutset at hc
  rw [List.getLast?_reverse] at hc
  exact head_dropWhile_not _ _ c hc

theorem trimCutset_of_ends (cutset s : List Char)
    (hh : ∀ c ∈ s.head?, cutset.elem c = false)
    (hl : ∀ c ∈ s.getLast?, cutset.elem c = false) : trimCutset cutset s = s := by
  unfold trimCutset
  rw [dropWhile_eq_self_of_head _ s hh]
  rw [dropWhile_eq_self_of_head _ s.reverse (by rw [List.head?_reverse]; exact hl)]
  simp

end StringLemmas

/-! ## The name sanitizer -/

section NameSanitizer

theorem createValidSecretName_chars (x : String) :
    ∀ c ∈ (createValidSecretName x).data, invalidDNS1123Char c = false := by
  intro c hc
  have h1 := (trimCutset_sublist _ _).subset hc
  have h2 := truncateTo_mem _ _ c h1
  exact replaceAllRuns_mem invalidDNS1123Char ['-'] (by decide) _ false c h2

theorem createValidSecretName_length (x : String) :
    (createValidSecretName x).data.length ≤ DNS1123SubdomainMaxLength := by
  have h1 := (trimCutset_sublist ['-', '.']
    (truncateTo DNS1123SubdomainMaxLength
      (replaceAllRuns invalidDNS1123Char ['-'] false (toLower x.data)))).length_le
  have h2 := truncateTo_length_le DNS1123SubdomainMaxLength
    (replaceAllRuns invalidDNS1123Char ['-'] false (toLower x.data))
  exact Nat.le_trans h1 h2

theorem createValidSecretName_head (x : String) :
    ∀ c ∈ (createValidSecretName x).data.head?, ['-', '.'].elem c = false :=
  trimCutset_head _ _

theorem createValidSecretName_getLast (x : String) :
    ∀ c ∈ (createValidSecretName x).data.getLast?, ['-', '.'].elem c = false :=
  trimCutset_getLast _ _

theorem createValidSecretName_fixed (y : String)
    (hchars : ∀ c ∈ y.data, invalidDNS1123Char c = false)
    (hlen : y.data.length ≤ DNS1123SubdomainMaxLength)
    (hhead : ∀ c ∈ y.data.head?, ['-', '.'].elem c = false)
    (hlast : ∀ c ∈ y.data.getLast?, ['-', '.'].elem c = false) :
    createValidSecretName y = y := by
  have hascii : ∀ c ∈ y.data, c.toNat < 128 :=
    fun c hc => ascii_of_not_invalidDNS1123Char c (hchars c hc)
  have hgo : goLen y.data ≤ DNS1123SubdomainMaxLength := by
    rw [goLen_eq_length_of_ascii _ hascii]; exact hlen
  unfold createValidSecretName
  simp only []
  rw [toLower_of_not_invalid _ hchars, replaceAllRuns_of_valid _ _ _ hchars,
    truncateTo_of_le _ _ hgo, trimCutset_of_ends _ _ hhead hlast]

end NameSanitizer

/-! ## The data-key sanitizer -/

section DataKeySanitizer

theorem replaceAllRuns_true_eq (bad : Char → Bool) (repl : List Char) (s : List Char) :
    replaceAllRuns bad repl true s = replaceAllRuns bad repl false (s.dropWhile bad) := by
  induction s with
  | nil => rfl
  | cons c cs ih =>
    cases hc : bad c with
    | true => simp [replaceAllRuns, List.dropWhile, hc, ih]
    | false => simp [replaceAllRuns, List.dropWhile, hc]

theorem replaceAllRuns_eq_collapseRuns_aux (bad : Char → Bool) :
    ∀ (n : Nat) (s : List Char), s.length ≤ n →
      replaceAllRuns bad ['-'] false s = collapseRuns bad s := by
  intro n
  induction n with
  | zero =>
    intro s hs
    have hnil : s = [] := List.length_eq_zero.mp (Nat.le_zero.mp hs)
    subst hnil
    simp [replaceAllRuns, collapseRuns]
  | succ n ih =>
    intro s hs
    cases s with
    | nil => simp [replaceAllRuns, collapseRuns]
    | cons c cs =>
      have hcs : cs.length ≤ n := by simpa using hs
      rw [collapseRuns]
      cases hc : bad c with
      | true =>
        have hlen : (cs.dropWhile bad).length ≤ n :=
          Nat.le_trans (List.dropWhile_sublist bad).length_le hcs
        simp only [replaceAllRuns, hc, if_true, Bool.false_eq_true, if_false,
          List.singleton_append, List.cons.injEq, true_and]
        rw [replaceAllRuns_true_eq]
        exact ih _ hlen
      | false =>
        simp only [replaceAllRuns, hc, Bool.false_eq_true, if_false, List.cons.injEq, true_and]
        exact ih _ hcs

theorem replaceAllRuns_eq_collapseRuns (bad : Char → Bool) (s : List Char) :
    replaceAllRuns bad ['-'] false s = collapseRuns bad s :=
  replaceAllRuns_eq_collapseRuns_aux bad s.length s (Nat.le_refl _)

theorem dropWhile_append_singleton (p : Char → Bool) (xs : List Char) (c : Char) :
    (xs ++ [c]).dropWhile p =
      if xs.all p then [c].dropWhile p else xs.dropWhile p ++ [c] := by
  induction xs with
  | nil => simp
  | cons a as ih =>
    cases ha : p a with
    | true => simp [List.dropWhile, ha, ih]
    | false => simp [List.dropWhile, ha]

theorem dropWhile_of_all (p : Char → Bool) (xs : List Char) (h : xs.all p = true) :
    xs.dropWhile p = [] := by
  induction xs with
  | nil => rfl
  | cons a as ih =>
    simp only [List.all_cons, Bool.and_eq_true] at h
    simp [List.dropWhile, h.1, ih h.2]

theorem reverse_dropWhile_reverse_cons (p : Char → Bool) (c : Char) (cs : List Char) :
    ((c :: cs).reverse.dropWhile p).reverse =
      if p c && cs.all p then [] else c :: (cs.reverse.dropWhile p).reverse := by
  rw [List.reverse_cons, dropWhile_append_singleton]
  have hall : cs.reverse.all p = cs.all p := by simp [List.all_eq]
  rw [hall]
  cases h : cs.all p with
  | true =>
    have hd := dropWhile_of_all p cs.reverse (by rw [hall]; exact h)
    cases hc : p c with
    | true => simp [List.dropWhile, hc]
    | false => simp [List.dropWhile, hc, hd]
  | false => simp

theorem deleteStartEndRuns_false (bad : Char → Bool) (s : List Char) :
    deleteStartEndRuns bad false s = (s.reverse.dropWhile bad).reverse := by
  induction s with
  | nil => rfl
  | cons c cs ih =>
    rw [reverse_dropWhile_reverse_cons, deleteStartEndRuns, ih]

theorem deleteStartEndRuns_true (bad : Char → Bool) (s : List Char) :
    deleteStartEndRuns bad true s = stripEndRuns bad s := by
  induction s with
  | nil => rfl
  | cons c cs ih =>
    cases hc : bad c with
    | true =>
      simp only [deleteStartEndRuns, hc, if_true, ih]
      simp [stripEndRuns, List.dropWhile, hc]
    | false =>
      simp only [deleteStartEndRuns, hc, Bool.false_eq_true, if_false]
      rw [deleteStartEndRuns_false]
      have := reverse_dropWhile_reverse_cons bad c cs
      simp only [hc, Bool.false_and, Bool.false_eq_true, if_false] at this
      simp only [stripEndRuns, List.dropWhile, hc]
      exact this.symm

theorem deleteStartEndRuns_of_valid (bad : Char → Bool) (s : List Char)
    (h : ∀ c ∈ s, bad c = false) : ∀ (b : Bool), deleteStartEndRuns bad b s = s := by
  induction s with
  | nil => intro b; cases b <;> rfl
  | cons c cs ih =>
    intro b
    have hc := h c (List.mem_cons_self _ _)
    have ih2 := ih (fun d hd => h d (List.mem_cons_of_mem _ hd)) false
    cases b <;> simp [deleteStartEndRuns, hc, ih2]

theorem deleteStartEndRuns_sublist (bad : Char → Bool) (s : List Char) :
    ∀ (b : Bool), (deleteStartEndRuns bad b s).Sublist s := by
  induction s with
  | nil => intro b; cases b <;> simp [deleteStartEndRuns]
  | cons c cs ih =>
    intro b
    cases b with
    | true =>
      simp only [deleteStartEndRuns]
      split
      · exact (ih true).trans (List.sublist_cons_self _ _)
      · exact (ih false).cons₂ c
    | false =>
      simp only [deleteStartEndRuns]
      split
      · exact List.nil_sublist _
      · exact (ih false).cons₂ c

theorem filter_replaceAllRuns_sublist (bad : Char → Bool) (s : List Char) :
    ∀ (b : Bool),
      ((replaceAllRuns bad ['-'] b s).filter (fun c => c ≠ '-')).Sublist s := by
  induction s with
  | nil => intro b; simp [replaceAllRuns]
  | cons c cs ih =>
    intro b
    simp only [replaceAllRuns]
    split
    · have h := ih true
      cases b
      · simpa using h.trans (List.sublist_cons_self _ _)
      · simpa using h.trans (List.sublist_cons_self _ _)
    · have h := ih false
      by_cases hd : c = '-'
      · simpa [List.filter_cons, hd] using h.trans (List.sublist_cons_self _ _)
      · simpa [List.filter_cons, hd] using h

theorem truncateTo_eq_take_of_ascii (n : Nat) (s : List Char)
    (h : ∀ c ∈ s, c.toNat < 128) : truncateTo n s = s.take n := by
  unfold truncateTo
  rw [goLen_eq_length_of_ascii s h]
  split
  · rfl
  · rw [List.take_of_length_le (by omega)]

theorem valid_of_isConfigMapKey (value : String) (h : (IsConfigMapKey value).length = 0) :
    value.data.all isDataKeyChar = true ∧ value.data.length ≤ 253 := by
  unfold IsConfigMapKey at h
  simp only [List.length_append, Nat.add_eq_zero_iff, List.length_eq_zero] at h
  obtain ⟨⟨h1, h2⟩, _⟩ := h
  constructor
  · by_cases hm : configMapKeyMatch value.data = true
    · simp only [configMapKeyMatch, Bool.and_eq_true] at hm
      exact hm.2
    · simp [hm] at h2
  · by_cases hl : goLen value.data > DNS1123SubdomainMaxLength
    · simp [hl] at h1
    · have := length_le_goLen value.data
      simp only [DNS1123SubdomainMaxLength] at hl
      omega

theorem createValidSecretDataName_of_valid (value : String)
    (hall : value.data.all isDataKeyChar = true) (hlen : value.data.length ≤ 253) :
    createValidSecretDataName value = value := by
  have hbad : ∀ c ∈ value.data, invalidDataChar c = false := by
    intro c hc
    have := List.all_eq_true.mp hall c hc
    simp [invalidDataChar, this]
  have hascii : ∀ c ∈ value.data, c.toNat < 128 :=
    fun c hc => ascii_of_not_invalidDataChar c (hbad c hc)
  unfold createValidSecretDataName
  simp only []
  rw [deleteStartEndRuns_of_valid _ _ hbad, replaceAllRuns_of_valid _ _ _ hbad,
    truncateTo_of_le _ _ (by rw [goLen_eq_length_of_ascii _ hascii]; exact hlen)]

theorem createValidSecretDataName_eq_spec (value : String) :
    createValidSecretDataName value =
      ⟨(collapseRuns invalidDataChar (stripEndRuns invalidDataChar value.data)).take 253⟩ := by
  have hascii : ∀ c ∈ replaceAllRuns invalidDataChar ['-'] false
      (deleteStartEndRuns invalidDataChar true value.data), c.toNat < 128 :=
    fun c hc => ascii_of_not_invalidDataChar c
      (replaceAllRuns_mem invalidDataChar ['-'] (by decide) _ false c hc)
  unfold createValidSecretDataName
  simp only []
  rw [truncateTo_eq_take_of_ascii _ _ hascii, replaceAllRuns_eq_collapseRuns,
    deleteStartEndRuns_true]
  rfl

theorem createValidSecretDataName_filter_sublist (value : String) :
    ((createValidSecretDataName value).data.filter (fun c => c ≠ '-')).Sublist value.data := by
  unfold createValidSecretDataName
  simp only []
  have h1 := (truncateTo_initial DNS1123SubdomainMaxLength
    (replaceAllRuns invalidDataChar ['-'] false
      (deleteStartEndRuns invalidDataChar true value.data))).sublist
  have h2 := h1.filter (fun c => c ≠ '-')
  exact (h2.trans (filter_replaceAllRuns_sublist _ _ false)).trans
    (deleteStartEndRuns_sublist _ _ true)

end DataKeySanitizer

/-! ## Maps -/

section MapLemmas

variable {V : Type}

theorem GoMap.get_set (m : GoMap V) (k : String) (v : V) (k' : String) :
    GoMap.get (GoMap.set m k v) k' = if k = k' then some v else GoMap.get m k' := by
  induction m with
  | nil => simp [GoMap.set, GoMap.get]
  | cons p rest ih =>
    obtain ⟨a, b⟩ := p
    by_cases h : a = k
    · subst h
      simp only [GoMap.set, if_true, GoMap.get]
      split <;> rfl
    · simp only [GoMap.set, h, if_false, GoMap.get, ih]
      by_cases h1 : a = k'
      · have h2 : ¬ k = k' := fun hk => h (h1.trans hk.symm)
        simp [h1, h2]
      · simp [h1]

theorem GoMap.get_set_self (m : GoMap V) (k : String) (v : V) :
    GoMap.get (GoMap.set m k v) k = some v := by
  rw [GoMap.get_set]; simp

theorem GoMap.get_set_of_ne (m : GoMap V) (k : String) (v : V) (k' : String) (h : k ≠ k') :
    GoMap.get (GoMap.set m k v) k' = GoMap.get m k' := by
  rw [GoMap.get_set]; simp [h]

theorem GoMap.mem_keys_iff (m : GoMap V) (k : String) :
    k ∈ GoMap.keys m ↔ ∃ v, GoMap.get m k = some v := by
  induction m with
  | nil => simp [GoMap.keys, GoMap.get]
  | cons p rest ih =>
    obtain ⟨a, b⟩ := p
    have ih2 : k ∈ List.map Prod.fst rest ↔ ∃ v, GoMap.get rest k = some v := ih
    by_cases h : a = k
    · subst h
      simp [GoMap.keys, GoMap.get]
    · have h2 : ¬ k = a := fun hk => h hk.symm
      simp only [GoMap.keys, List.map_cons, List.mem_cons, h2, false_or, GoMap.get, h, if_false]
      exact ih2

/-- Last-wins: after a loop of assignments `m[key a] = val a`, the entry of `k`
holds the value of the last element whose key is `k`. -/
theorem GoMap.get_foldl_set_last {α : Type} (key : α → String) (val : α → V)
    (pre post : List α) (g : α) (m0 : GoMap V) (k : String)
    (hg : key g = k) (hpost : ∀ h ∈ post, key h ≠ k) :
    GoMap.get ((pre ++ g :: post).foldl (fun m a => GoMap.set m (key a) (val a)) m0) k
      = some (val g) := by
  rw [List.foldl_append, List.foldl_cons]
  generalize hm : GoMap.set (List.foldl (fun m a => GoMap.set m (key a) (val a)) m0 pre)
    (key g) (val g) = m1
  have h1 : GoMap.get m1 k = some (val g) := by
    rw [← hm, hg, GoMap.get_set_self]
  clear hm
  induction post generalizing m1 with
  | nil => exact h1
  | cons a as ih =>
    rw [List.foldl_cons]
    apply ih (fun h hh => hpost h (List.mem_cons_of_mem _ hh))
    rw [GoMap.get_set_of_ne _ _ _ _ (hpost a (List.mem_cons_self _ _))]
    exact h1

/-- An element with a given key has a last occurrence of that key after it or
at it. -/
theorem exists_last_with_key {α : Type} (key : α → String) (l : List α) (k : String)
    (h : ∃ a ∈ l, key a = k) :
    ∃ pre g post, l = pre ++ g :: post ∧ key g = k ∧ ∀ b ∈ post, key b ≠ k := by
  induction l with
  | nil => obtain ⟨a, ha, _⟩ := h; simp at ha
  | cons a as ih =>
    by_cases hex : ∃ b ∈ as, key b = k
    · obtain ⟨pre, g, post, h1, h2, h3⟩ := ih hex
      exact ⟨a :: pre, g, post, by rw [h1]; rfl, h2, h3⟩
    · obtain ⟨b, hb, hk⟩ := h
      have hba : b = a := by
        rcases List.mem_cons.mp hb with hb | hb
        · exact hb
        · exact absurd ⟨b, hb, hk⟩ hex
      subst hba
      refine ⟨[], b, as, rfl, hk, ?_⟩
      intro c hc hck
      exact hex ⟨c, hc, hck⟩

/-- No key appears from nowhere: an entry of the map after a loop of
assignments was there before or is the key of an element. -/
theorem GoMap.get_foldl_set_source {α : Type} (key : α → String) (val : α → V)
    (l : List α) (m0 : GoMap V) (k : String) (v : V)
    (h : GoMap.get (l.foldl (fun m a => GoMap.set m (key a) (val a)) m0) k = some v) :
    GoMap.get m0 k = some v ∨ ∃ a ∈ l, key a = k := by
  induction l generalizing m0 with
  | nil => exact Or.inl h
  | cons a as ih =>
    rw [List.foldl_cons] at h
    rcases ih _ h with h1 | ⟨b, hb, hk⟩
    · rw [GoMap.get_set] at h1
      by_cases hak : key a = k
      · exact Or.inr ⟨a, List.mem_cons_self _ _, hak⟩
      · rw [if_neg hak] at h1
        exact Or.inl h1
    · exact Or.inr ⟨b, List.mem_cons_of_mem _ hb, hk⟩

/-- When no element has key `k`, the loop of assignments leaves the entry of `k`
as it was. -/
theorem GoMap.get_foldl_set_of_not_mem {α : Type} (key : α → String) (val : α → V)
    (l : List α) (m0 : GoMap V) (k : String) (h : ∀ a ∈ l, key a ≠ k) :
    GoMap.get (l.foldl (fun m a => GoMap.set m (key a) (val a)) m0) k = GoMap.get m0 k := by
  induction l generalizing m0 with
  | nil => rfl
  | cons a as ih =>
    rw [List.foldl_cons, ih _ (fun b hb => h b (List.mem_cons_of_mem _ hb)),
      GoMap.get_set_of_ne _ _ _ _ (h a (List.mem_cons_self _ _))]

end MapLemmas

/-! ## The payload cascade -/

section Payload

theorem getString_buildFieldMap (fields : List ItemField) (label : String) :
    GoMap.getString (buildFieldMap fields) label = lastFieldValue fields label := by
  unfold GoMap.getString buildFieldMap lastFieldValue
  by_cases hex : ∃ f ∈ fields, f.Label = label
  · obtain ⟨pre, g, post, h1, h2, h3⟩ := exists_last_with_key (fun f => f.Label) fields label hex
    have hget := GoMap.get_foldl_set_last (fun f : ItemField => f.Label) (fun f => f.Value)
      pre post g [] label h2 h3
    rw [h1, hget]
    have hfind : (pre ++ g :: post).reverse.find? (fun f => decide (f.Label = label)) = some g := by
      rw [List.reverse_append, List.reverse_cons, List.append_assoc, List.find?_append]
      have hnone : post.reverse.find? (fun f => decide (f.Label = label)) = none := by
        rw [List.find?_eq_none]
        intro x hx
        simpa using h3 x (List.mem_reverse.mp hx)
      rw [hnone]
      simp [List.find?_cons, h2]
    rw [hfind]
    rfl
  · have hne : ∀ f ∈ fields, f.Label ≠ label := fun f hf hl => hex ⟨f, hf, hl⟩
    rw [GoMap.get_foldl_set_of_not_mem (fun f : ItemField => f.Label) (fun f => f.Value)
      fields [] label hne]
    have hnone : fields.reverse.find? (fun f => decide (f.Label = label)) = none := by
      rw [List.find?_eq_none]
      intro x hx
      simpa using hne x (List.mem_reverse.mp hx)
    rw [hnone]
    rfl

theorem BuildDockerConfigJSON_ok (registry username password email : String)
    (hr : registry ≠ "") (hu : username ≠ "") (hp : password ≠ "") :
    ∃ doc, BuildDockerConfigJSON registry username password email = .ok doc := by
  simp [BuildDockerConfigJSON, hr, hu, hp]

theorem BuildDockerConfigJSON_error (registry username password email : String)
    (h : registry = "" ∨ username = "" ∨ password = "") :
    ∃ msg, BuildDockerConfigJSON registry username password email = .error msg := by
  unfold BuildDockerConfigJSON
  by_cases hr : registry = ""
  · exact ⟨_, if_pos hr⟩
  · rw [if_neg hr]
    by_cases hu : username = ""
    · exact ⟨_, if_pos hu⟩
    · rw [if_neg hu]
      by_cases hp : password = ""
      · exact ⟨_, if_pos hp⟩
      · rcases h with h | h | h
        · exact absurd h hr
        · exact absurd h hu
        · exact absurd h hp

theorem imagePullSecretData_eq (item : Item) (cfg : ImagePullSecretConfig)
    (secretData : GoMap Bytes) :
    imagePullSecretData item cfg secretData =
      match BuildDockerConfigJSON (lastFieldValue item.Fields cfg.RegistryField)
          (lastFieldValue item.Fields cfg.UsernameField)
          (lastFieldValue item.Fields cfg.PasswordField)
          (lastFieldValue item.Fields cfg.EmailField) with
      | .error _ => none
      | .ok dockerConfigJSON => some (GoMap.set secretData ".dockerconfigjson" dockerConfigJSON) := by
  unfold imagePullSecretData
  simp only [getString_buildFieldMap]

theorem templateSecretData_source (lib : TextTemplate) (item : Item) (data : GoMap String)
    (m0 : GoMap Bytes) (k : String) (v : Bytes)
    (h : GoMap.get (templateSecretData lib item data m0) k = some v) :
    GoMap.get m0 k = some v ∨
      ∃ kv ∈ data, formatSecretDataName kv.1 = k ∧
        ProcessTemplate lib kv.2 (BuildTemplateContext item) = .ok v := by
  unfold templateSecretData at h
  simp only [] at h
  induction data generalizing m0 with
  | nil => exact Or.inl h
  | cons a as ih =>
    rw [List.foldl_cons] at h
    rcases ih _ h with h1 | ⟨b, hb, hk, hv⟩
    · cases hres : ProcessTemplate lib a.2 (BuildTemplateContext item) with
      | error e =>
        rw [hres] at h1
        exact Or.inl h1
      | ok w =>
        rw [hres] at h1
        simp only [] at h1
        rw [GoMap.get_set] at h1
        by_cases hak : formatSecretDataName a.1 = k
        · rw [if_pos hak] at h1
          have hwv : w = v := Option.some.inj h1
          exact Or.inr ⟨a, List.mem_cons_self _ _, hak, by rw [hres, hwv]⟩
        · rw [if_neg hak] at h1
          exact Or.inl h1
    · exact Or.inr ⟨b, List.mem_cons_of_mem _ hb, hk, hv⟩

theorem templateSecretData_of_not_mem (lib : TextTemplate) (item : Item) (data : GoMap String)
    (m0 : GoMap Bytes) (k : String) (h : ∀ kv ∈ data, formatSecretDataName kv.1 ≠ k) :
    GoMap.get (templateSecretData lib item data m0) k = GoMap.get m0 k := by
  unfold templateSecretData
  simp only []
  induction data generalizing m0 with
  | nil => rfl
  | cons a as ih =>
    rw [List.foldl_cons, ih _ (fun b hb => h b (List.mem_cons_of_mem _ hb))]
    cases hres : ProcessTemplate lib a.2 (BuildTemplateContext item) with
    | error e => rfl
    | ok w => exact GoMap.get_set_of_ne _ _ _ _ (h a (List.mem_cons_self _ _))

theorem templateSecretData_of_ok (lib : TextTemplate) (item : Item) (data : GoMap String)
    (hnd : (data.map (fun kv => formatSecretDataName kv.1)).Nodup)
    (m0 : GoMap Bytes) (kv : String × String) (hkv : kv ∈ data) (v : Bytes)
    (hv : ProcessTemplate lib kv.2 (BuildTemplateContext item) = .ok v) :
    GoMap.get (templateSecretData lib item data m0) (formatSecretDataName kv.1) = some v := by
  induction data generalizing m0 with
  | nil => simp at hkv
  | cons a as ih =>
    rw [List.map_cons, List.nodup_cons] at hnd
    have hstep : ∀ m, templateSecretData lib item (a :: as) m =
        templateSecretData lib item as
          (match ProcessTemplate lib a.2 (BuildTemplateContext item) with
            | .error _ => m
            | .ok processed => GoMap.set m (formatSecretDataName a.1) processed) := by
      intro m; rfl
    rw [hstep]
    rcases List.mem_cons.mp hkv with h | h
    · subst h
      rw [templateSecretData_of_not_mem, hv]
      · exact GoMap.get_set_self _ _ _
      · intro b hb hbk
        exact hnd.1 (List.mem_map.mpr ⟨b, hb, hbk⟩)
    · exact ih hnd.2 _ h

theorem templateSecretData_all_fail (lib : TextTemplate) (item : Item) (data : GoMap String)
    (m0 : GoMap Bytes)
    (h : ∀ kv ∈ data, ∃ msg, ProcessTemplate lib kv.2 (BuildTemplateContext item) = .error msg) :
    templateSecretData lib item data m0 = m0 := by
  unfold templateSecretData
  simp only []
  induction data with
  | nil => rfl
  | cons a as ih =>
    obtain ⟨msg, hmsg⟩ := h a (List.mem_cons_self _ _)
    rw [List.foldl_cons, hmsg]
    exact ih (fun b hb => h b (List.mem_cons_of_mem _ hb))

theorem get_fileSecretData_of_some (files : List File) (sd : GoMap Bytes) (k : String)
    (v : Bytes) (h : GoMap.get sd k = some v) :
    GoMap.get (fileSecretData files sd) k = some v := by
  unfold fileSecretData
  induction files generalizing sd with
  | nil => exact h
  | cons file rest ih =>
    rw [List.foldl_cons]
    apply ih
    cases hc : file.Content with
    | error e => exact h
    | ok content =>
      cases content with
      | none => exact h
      | some bytes =>
        simp only []
        split
        · rename_i hnone
          have hne : file.Name ≠ k := by
            intro hk
            rw [hk, h] at hnone
            simp at hnone
          rw [GoMap.get_set_of_ne _ _ _ _ hne]
          exact h
        · exact h

theorem get_fileSecretData_source (files : List File) (sd : GoMap Bytes) (k : String)
    (v : Bytes) (h : GoMap.get (fileSecretData files sd) k = some v) :
    GoMap.get sd k = some v ∨ ∃ file ∈ files, file.Name = k := by
  unfold fileSecretData at h
  induction files generalizing sd with
  | nil => exact Or.inl h
  | cons file rest ih =>
    rw [List.foldl_cons] at h
    rcases ih _ h with h1 | ⟨g, hg, hk⟩
    · by_cases hname : file.Name = k
      · exact Or.inr ⟨file, List.mem_cons_self _ _, hname⟩
      · left
        cases hc : file.Content with
        | error e => rw [hc] at h1; exact h1
        | ok content =>
          rw [hc] at h1
          cases content with
          | none => exact h1
          | some bytes =>
            simp only [] at h1
            split at h1
            · rw [GoMap.get_set_of_ne _ _ _ _ hname] at h1
              exact h1
            · exact h1
    · exact Or.inr ⟨g, List.mem_cons_of_mem _ hg, hk⟩

theorem default_payload_eq (lib : TextTemplate) (item : Item) :
    BuildKubernetesSecretData lib item none none
      = fileSecretData item.Files (fieldSecretData item.Fields []) := rfl

theorem get_fieldSecretData_last (pre post : List ItemField) (g : ItemField) (k : String)
    (hg : formatSecretDataName g.Label = k)
    (hpost : ∀ h ∈ post, formatSecretDataName h.Label ≠ k) :
    GoMap.get (fieldSecretData (pre ++ g :: post) []) k = some (stringToBytes g.Value) := by
  unfold fieldSecretData
  exact GoMap.get_foldl_set_last (fun x : ItemField => formatSecretDataName x.Label)
    (fun x => stringToBytes x.Value) pre post g [] k hg hpost

theorem get_fieldSecretData_source (fields : List ItemField) (k : String) (v : Bytes)
    (h : GoMap.get (fieldSecretData fields []) k = some v) :
    ∃ f ∈ fields, formatSecretDataName f.Label = k := by
  unfold fieldSecretData at h
  rcases GoMap.get_foldl_set_source (fun x : ItemField => formatSecretDataName x.Label)
    (fun x => stringToBytes x.Value) fields [] k v h with h2 | h2
  · simp [GoMap.get] at h2
  · exact h2

end Payload

/-! ## Files in the default strategy -/

section Files

theorem get_fileSecretData_of_not_mem (files : List File) (sd : GoMap Bytes) (k : String)
    (h : ∀ file ∈ files, file.Name ≠ k) :
    GoMap.get (fileSecretData files sd) k = GoMap.get sd k := by
  unfold fileSecretData
  induction files generalizing sd with
  | nil => rfl
  | cons file rest ih =>
    rw [List.foldl_cons, ih _ (fun g hg => h g (List.mem_cons_of_mem _ hg))]
    have hne := h file (List.mem_cons_self _ _)
    cases hc : file.Content with
    | error e => rfl
    | ok content =>
      cases content with
      | none => rfl
      | some bytes =>
        simp only []
        split
        · exact GoMap.get_set_of_ne _ _ _ _ hne
        · rfl

theorem fileSecretData_cons (file : File) (rest : List File) (sd : GoMap Bytes) :
    fileSecretData (file :: rest) sd =
      fileSecretData rest
        (match file.Content with
          | .error _ => sd
          | .ok none => sd
          | .ok (some content) =>
            if (GoMap.get sd file.Name).isNone then GoMap.set sd file.Name content else sd) := rfl

theorem fileSecretData_append (pre post : List File) (sd : GoMap Bytes) :
    fileSecretData (pre ++ post) sd = fileSecretData post (fileSecretData pre sd) := by
  unfold fileSecretData
  rw [List.foldl_append]

theorem get_fileSecretData_inserted (files : List File) (sd : GoMap Bytes) (k : String)
    (v : Bytes) (hnone : GoMap.get sd k = none)
    (h : GoMap.get (fileSecretData files sd) k = some v) :
    ∃ file ∈ files, file.Name = k ∧ file.Content = .ok (some v) := by
  induction files generalizing sd with
  | nil =>
    have h2 : GoMap.get sd k = some v := h
    rw [hnone] at h2
    exact absurd h2 (by simp)
  | cons file rest ih =>
    rw [fileSecretData_cons] at h
    have hrest : ∀ sd', GoMap.get sd' k = none →
        GoMap.get (fileSecretData rest sd') k = some v →
        ∃ g ∈ file :: rest, g.Name = k ∧ g.Content = .ok (some v) := by
      intro sd' h1 h2
      obtain ⟨g, hg, hk, hcont⟩ := ih sd' h1 h2
      exact ⟨g, List.mem_cons_of_mem _ hg, hk, hcont⟩
    cases hc : file.Content with
    | error e =>
      rw [hc] at h
      exact hrest sd hnone h
    | ok content =>
      rw [hc] at h
      cases content with
      | none => exact hrest sd hnone h
      | some bytes =>
        simp only [] at h
        by_cases hname : file.Name = k
        · have hin : (GoMap.get sd file.Name).isNone = true := by
            rw [hname, hnone]; rfl
          rw [if_pos hin] at h
          have hset : GoMap.get (GoMap.set sd file.Name bytes) k = some bytes := by
            rw [hname]; exact GoMap.get_set_self _ _ _
          have hfin := get_fileSecretData_of_some rest _ k bytes hset
          rw [hfin] at h
          have hbv : bytes = v := Option.some.inj h
          exact ⟨file, List.mem_cons_self _ _, hname, by rw [hc, hbv]⟩
        · apply hrest _ _ h
          split
          · rw [GoMap.get_set_of_ne _ _ _ _ hname]; exact hnone
          · exact hnone

theorem get_fieldSecretData_of_not_mem (fields : List ItemField) (k : String)
    (h : ∀ g ∈ fields, formatSecretDataName g.Label ≠ k) :
    GoMap.get (fieldSecretData fields []) k = none := by
  unfold fieldSecretData
  rw [GoMap.get_foldl_set_of_not_mem (fun x : ItemField => formatSecretDataName x.Label)
    (fun x => stringToBytes x.Value) fields [] k h]
  rfl

end Files

/-! ## The template context -/

section Context

theorem exists_last_satisfying {α : Type} (p : α → Prop) (l : List α)
    (h : ∃ a ∈ l, p a) :
    ∃ pre g post, l = pre ++ g :: post ∧ p g ∧ ∀ b ∈ post, ¬ p b := by
  induction l with
  | nil => obtain ⟨a, ha, _⟩ := h; simp at ha
  | cons a as ih =>
    by_cases hex : ∃ b ∈ as, p b
    · obtain ⟨pre, g, post, h1, h2, h3⟩ := ih hex
      exact ⟨a :: pre, g, post, by rw [h1]; rfl, h2, h3⟩
    · obtain ⟨b, hb, hp⟩ := h
      have hba : b = a := by
        rcases List.mem_cons.mp hb with hb | hb
        · exact hb
        · exact absurd ⟨b, hb, hp⟩ hex
      subst hba
      exact ⟨[], b, as, rfl, hp, fun c hc hpc => hex ⟨c, hc, hpc⟩⟩

theorem addFieldToContext_fields (sm : GoMap String) (ctx : TemplateContext) (f : ItemField) :
    (addFieldToContext sm ctx f).Fields = GoMap.set ctx.Fields f.Label f.Value := rfl

theorem addFieldToContext_sections (sm : GoMap String) (ctx : TemplateContext)
    (f : ItemField) :
    (addFieldToContext sm ctx f).Sections
      = setInSection ctx.Sections (sectionBucket sm f) f.Label f.Value := by
  unfold addFieldToContext sectionBucket
  simp only []
  by_cases h : f.SectionID ≠ ""
  · rw [if_pos h, if_pos h]
  · rw [if_neg h, if_neg h]

theorem foldl_addFieldToContext_fields (sm : GoMap String) (fields : List ItemField)
    (ctx : TemplateContext) :
    (fields.foldl (addFieldToContext sm) ctx).Fields
      = fields.foldl (fun m f => GoMap.set m f.Label f.Value) ctx.Fields := by
  induction fields generalizing ctx with
  | nil => rfl
  | cons f rest ih => rw [List.foldl_cons, List.foldl_cons, ih, addFieldToContext_fields]

theorem foldl_addFieldToContext_sections (sm : GoMap String) (fields : List ItemField)
    (ctx : TemplateContext) :
    (fields.foldl (addFieldToContext sm) ctx).Sections
      = fields.foldl (fun b f => setInSection b (sectionBucket sm f) f.Label f.Value)
          ctx.Sections := by
  induction fields generalizing ctx with
  | nil => rfl
  | cons f rest ih => rw [List.foldl_cons, List.foldl_cons, ih, addFieldToContext_sections]

theorem context_fields_eq (item : Item) :
    (BuildTemplateContext item).Fields
      = item.Fields.foldl (fun m f => GoMap.set m f.Label f.Value) [] := by
  unfold BuildTemplateContext
  simp only []
  rw [foldl_addFieldToContext_fields]

theorem context_sections_eq (item : Item) :
    (BuildTemplateContext item).Sections
      = item.Fields.foldl
          (fun b f => setInSection b (sectionBucket (buildSectionMaps item.Sections).1 f)
            f.Label f.Value)
          (buildSectionMaps item.Sections).2 := by
  unfold BuildTemplateContext
  simp only []
  rw [foldl_addFieldToContext_sections]

theorem get_setInSection (b : GoMap (GoMap String)) (t l v T : String) :
    GoMap.get (setInSection b t l v) T
      = if t = T then some (GoMap.set ((GoMap.get b t).getD []) l v) else GoMap.get b T := by
  unfold setInSection
  simp only []
  cases hb : GoMap.get b t with
  | none =>
    simp only [if_true, Option.getD_none]
    rw [GoMap.get_set, GoMap.get_set_self]
    by_cases htT : t = T
    · simp [htT]
    · simp only [htT, if_false]
      exact GoMap.get_set_of_ne _ _ _ _ htT
  | some bucket =>
    have hne : ¬ (some bucket = (none : Option (GoMap String))) := by simp
    simp only [hne, if_false, hb, Option.getD_some]
    rw [GoMap.get_set]

theorem bucketGet_setInSection (b : GoMap (GoMap String)) (t l v T l' : String) :
    bucketGet (setInSection b t l v) T l'
      = if t = T ∧ l = l' then some v else bucketGet b T l' := by
  unfold bucketGet
  rw [get_setInSection]
  by_cases htT : t = T
  · subst htT
    simp only [if_true, Option.bind, true_and]
    rw [GoMap.get_set]
    by_cases hl : l = l'
    · simp [hl]
    · simp only [hl, if_false]
      cases hb : GoMap.get b t with
      | none => simp [GoMap.get]
      | some bucket => simp
  · simp [htT]

/-- Last-wins inside a bucket: the entry of a label in a bucket holds the value
of the last field with that label that was placed in the bucket. -/
theorem bucketGet_foldl_last (sm : GoMap String) (pre post : List ItemField) (g : ItemField)
    (b0 : GoMap (GoMap String)) (T l : String)
    (hg : sectionBucket sm g = T ∧ g.Label = l)
    (hpost : ∀ h ∈ post, ¬ (sectionBucket sm h = T ∧ h.Label = l)) :
    bucketGet ((pre ++ g :: post).foldl
        (fun b f => setInSection b (sectionBucket sm f) f.Label f.Value) b0) T l
      = some g.Value := by
  rw [List.foldl_append, List.foldl_cons]
  generalize hm : setInSection (List.foldl
    (fun b f => setInSection b (sectionBucket sm f) f.Label f.Value) b0 pre)
    (sectionBucket sm g) g.Label g.Value = b1
  have h1 : bucketGet b1 T l = some g.Value := by
    rw [← hm, bucketGet_setInSection, if_pos hg]
  clear hm
  induction post generalizing b1 with
  | nil => exact h1
  | cons a as ih =>
    rw [List.foldl_cons]
    apply ih (fun h hh => hpost h (List.mem_cons_of_mem _ hh))
    rw [bucketGet_setInSection, if_neg (hpost a (List.mem_cons_self _ _))]
    exact h1

theorem foldl_sectionMaps_fst (sections : List ItemSection) (m0 : GoMap String)
    (b0 : GoMap (GoMap String)) :
    (sections.foldl
        (fun (acc : GoMap String × GoMap (GoMap String)) (sec : ItemSection) =>
          let sectionMap := GoMap.set acc.1 sec.ID sec.Title
          let buckets :=
            if GoMap.get acc.2 sec.Title = none then GoMap.set acc.2 sec.Title []
            else acc.2
          (sectionMap, buckets))
        (m0, b0)).1
      = sections.foldl (fun m s => GoMap.set m s.ID s.Title) m0 := by
  induction sections generalizing m0 b0 with
  | nil => rfl
  | cons s rest ih =>
    rw [List.foldl_cons, List.foldl_cons]
    exact ih _ _

theorem buildSectionMaps_fst (sections : List ItemSection) :
    (buildSectionMaps sections).1 = sections.foldl (fun m s => GoMap.set m s.ID s.Title) [] :=
  foldl_sectionMaps_fst sections [] []

theorem sectionBucket_of_undeclared (sections : List ItemSection) (f : ItemField)
    (hsid : f.SectionID ≠ "") (hundeclared : ∀ s ∈ sections, s.ID ≠ f.SectionID) :
    sectionBucket (buildSectionMaps sections).1 f = f.SectionID := by
  have hget : GoMap.getString (buildSectionMaps sections).1 f.SectionID = "" := by
    unfold GoMap.getString
    rw [buildSectionMaps_fst,
      GoMap.get_foldl_set_of_not_mem (fun s : ItemSection => s.ID) (fun s => s.Title)
        sections [] f.SectionID hundeclared]
    rfl
  unfold sectionBucket
  rw [if_pos hsid]
  simp only [hget, if_true]

end Context

/-! ## The reconciler -/

section Reconciler

theorem annotation_keys_distinct :
    VersionAnnotation ≠ ItemPathAnnotation ∧ VersionAnnotation ≠ RestartDeploymentsAnnotation ∧
      ItemPathAnnotation ≠ RestartDeploymentsAnnotation := by
  decide

theorem secretAnnotationsOf_of_empty (secretName : String) (item : Item)
    (secretAnnotations : Option (GoMap String)) :
    secretAnnotationsOf secretName item "" secretAnnotations
      = .ok (GoMap.set (GoMap.set (secretAnnotations.getD []) VersionAnnotation
          (toString item.Version)) ItemPathAnnotation
          ("vaults/" ++ item.VaultID ++ "/items/" ++ item.ID)) := by
  unfold secretAnnotationsOf
  simp

theorem secretAnnotationsOf_of_ok (secretName : String) (item : Item) (autoRestart : String)
    (secretAnnotations : Option (GoMap String)) (hne : autoRestart ≠ "") (b : Bool)
    (hparse : StringToBool autoRestart = .ok b) :
    secretAnnotationsOf secretName item autoRestart secretAnnotations
      = .ok (GoMap.set (GoMap.set (GoMap.set (secretAnnotations.getD []) VersionAnnotation
          (toString item.Version)) ItemPathAnnotation
          ("vaults/" ++ item.VaultID ++ "/items/" ++ item.ID))
          RestartDeploymentsAnnotation autoRestart) := by
  unfold secretAnnotationsOf
  simp only [hne, ne_eq, not_false_eq_true, if_true, hparse]

theorem secretAnnotationsOf_of_error (secretName : String) (item : Item) (autoRestart : String)
    (secretAnnotations : Option (GoMap String)) (hne : autoRestart ≠ "") (e : String)
    (hparse : StringToBool autoRestart = .error e) :
    secretAnnotationsOf secretName item autoRestart secretAnnotations
      = .error (.errorf ("error parsing " ++ RestartDeploymentsAnnotation ++
          " annotation on Secret " ++ secretName ++
          ". Must be true or false. Defaulting to false")) := by
  unfold secretAnnotationsOf
  simp only [hne, ne_eq, not_false_eq_true, if_true, hparse]

theorem secretAnnotationsOf_valid (secretName : String) (item : Item) (autoRestart : String)
    (secretAnnotations : Option (GoMap String)) (anns : GoMap String)
    (h : secretAnnotationsOf secretName item autoRestart secretAnnotations = .ok anns) :
    autoRestart = "" ∨ ∃ b, StringToBool autoRestart = .ok b := by
  by_cases hne : autoRestart = ""
  · exact Or.inl hne
  · right
    cases hparse : StringToBool autoRestart with
    | ok b => exact ⟨b, rfl⟩
    | error e =>
      rw [secretAnnotationsOf_of_error secretName item autoRestart secretAnnotations hne e
        hparse] at h
      cases h

theorem secretAnnotationsOf_get (secretName : String) (item : Item) (autoRestart : String)
    (secretAnnotations : Option (GoMap String)) (anns : GoMap String)
    (h : secretAnnotationsOf secretName item autoRestart secretAnnotations = .ok anns)
    (k : String) :
    GoMap.get anns k =
      if k = VersionAnnotation then some (toString item.Version)
      else if k = ItemPathAnnotation then
        some ("vaults/" ++ item.VaultID ++ "/items/" ++ item.ID)
      else if k = RestartDeploymentsAnnotation ∧ autoRestart ≠ "" then some autoRestart
      else GoMap.get (secretAnnotations.getD []) k := by
  obtain ⟨h1, h2, h3⟩ := annotation_keys_distinct
  by_cases hne : autoRestart = ""
  · subst hne
    rw [secretAnnotationsOf_of_empty] at h
    have hanns := Except.ok.inj h
    rw [← hanns, GoMap.get_set, GoMap.get_set]
    by_cases hk1 : k = VersionAnnotation
    · subst hk1
      simp [h1.symm]
    · by_cases hk2 : k = ItemPathAnnotation
      · subst hk2
        simp [hk1]
      · have hk1' : ¬ VersionAnnotation = k := fun hh => hk1 hh.symm
        have hk2' : ¬ ItemPathAnnotation = k := fun hh => hk2 hh.symm
        simp [hk1, hk2, hk1', hk2']
  · obtain hv | ⟨b, hb⟩ := secretAnnotationsOf_valid _ _ _ _ _ h
    · exact absurd hv hne
    · rw [secretAnnotationsOf_of_ok secretName item autoRestart secretAnnotations hne b hb] at h
      have hanns := Except.ok.inj h
      rw [← hanns, GoMap.get_set, GoMap.get_set, GoMap.get_set]
      by_cases hk1 : k = VersionAnnotation
      · subst hk1
        simp [h1.symm, h2.symm]
      · by_cases hk2 : k = ItemPathAnnotation
        · subst hk2
          simp [h3.symm, hk1]
        · have hk1' : ¬ VersionAnnotation = k := fun hh => hk1 hh.symm
          have hk2' : ¬ ItemPathAnnotation = k := fun hh => hk2 hh.symm
          by_cases hk3 : k = RestartDeploymentsAnnotation
          · subst hk3
            simp [hne, hk1, hk2]
          · have hk3' : ¬ RestartDeploymentsAnnotation = k := fun hh => hk3 hh.symm
            simp [hk1, hk2, hk3, hk1', hk2', hk3']

theorem mapsEqual_get (a b : GoMap String) (h : mapsEqual a b = true) (k : String) :
    GoMap.get a k = GoMap.get b k := by
  unfold mapsEqual at h
  rw [Bool.and_eq_true, List.all_eq_true, List.all_eq_true] at h
  by_cases ha : k ∈ GoMap.keys a
  · exact of_decide_eq_true (h.1 k ha)
  · by_cases hb : k ∈ GoMap.keys b
    · exact (of_decide_eq_true (h.2 k hb)).symm
    · have hna : GoMap.get a k = none := by
        cases hg : GoMap.get a k with
        | none => rfl
        | some v => exact absurd ((GoMap.mem_keys_iff a k).mpr ⟨v, hg⟩) ha
      have hnb : GoMap.get b k = none := by
        cases hg : GoMap.get b k with
        | none => rfl
        | some v => exact absurd ((GoMap.mem_keys_iff b k).mpr ⟨v, hg⟩) hb
      rw [hna, hnb]

theorem DeepEqual_get (a b : Option (GoMap String)) (h : DeepEqual a b = true) (k : String) :
    GoMap.get (a.getD []) k = GoMap.get (b.getD []) k := by
  cases a with
  | none =>
    cases b with
    | none => rfl
    | some y => simp [DeepEqual] at h
  | some x =>
    cases b with
    | none => simp [DeepEqual] at h
    | some y => exact mapsEqual_get x y h k

theorem defaultedType_eq (secretType : String) :
    (if secretType = "" then SecretTypeOpaque else secretType) = defaultedType secretType := rfl

theorem CreateKubernetesSecretFromItem_of_error (lib : TextTemplate) (kubeClient : KubeClient)
    (store : kubeClient.State) (secretName namespaceName : String) (item : Item)
    (autoRestart : String) (labels secretAnnotations : Option (GoMap String))
    (secretType : String) (ownerRef : Option OwnerReference)
    (secretTemplate : Option SecretTemplate) (imagePullSecret : Option ImagePullSecretConfig)
    (err : GoError)
    (hanns : secretAnnotationsOf secretName item autoRestart secretAnnotations = .error err) :
    CreateKubernetesSecretFromItem lib kubeClient store secretName namespaceName item
        autoRestart labels secretAnnotations secretType ownerRef secretTemplate imagePullSecret
      = { err := some err, calls := [], state := store } := by
  unfold CreateKubernetesSecretFromItem
  rw [hanns]

theorem CreateKubernetesSecretFromItem_of_fetch_error (lib : TextTemplate)
    (kubeClient : KubeClient) (store : kubeClient.State) (secretName namespaceName : String)
    (item : Item) (autoRestart : String) (labels secretAnnotations : Option (GoMap String))
    (secretType : String) (ownerRef : Option OwnerReference)
    (secretTemplate : Option SecretTemplate) (imagePullSecret : Option ImagePullSecretConfig)
    (anns : GoMap String)
    (hanns : secretAnnotationsOf secretName item autoRestart secretAnnotations = .ok anns)
    (e : StoreError)
    (hget : kubeClient.Get store namespaceName (formatSecretName secretName) = .error e) :
    CreateKubernetesSecretFromItem lib kubeClient store secretName namespaceName item
        autoRestart labels secretAnnotations secretType ownerRef secretTemplate imagePullSecret
      = if e.NotFound then
          { err := (kubeClient.Create store
                (BuildKubernetesSecretFromOnePasswordItem lib secretName namespaceName
                  (some anns) labels secretType item ownerRef secretTemplate
                  imagePullSecret)).1.map GoError.store
            calls := [.get namespaceName (formatSecretName secretName) (.error e),
              .create (BuildKubernetesSecretFromOnePasswordItem lib secretName namespaceName
                  (some anns) labels secretType item ownerRef secretTemplate imagePullSecret)
                (kubeClient.Create store
                  (BuildKubernetesSecretFromOnePasswordItem lib secretName namespaceName
                    (some anns) labels secretType item ownerRef secretTemplate
                    imagePullSecret)).1]
            state := (kubeClient.Create store
                (BuildKubernetesSecretFromOnePasswordItem lib secretName namespaceName
                  (some anns) labels secretType item ownerRef secretTemplate
                  imagePullSecret)).2 }
        else
          { err := some (.store e)
            calls := [.get namespaceName (formatSecretName secretName) (.error e)]
            state := store } := by
  unfold CreateKubernetesSecretFromItem
  rw [hanns]
  simp only [BuildKubernetesSecretFromOnePasswordItem, hget]

theorem CreateKubernetesSecretFromItem_of_present (lib : TextTemplate)
    (kubeClient : KubeClient) (store : kubeClient.State) (secretName namespaceName : String)
    (item : Item) (autoRestart : String) (labels secretAnnotations : Option (GoMap String))
    (secretType : String) (ownerRef : Option OwnerReference)
    (secretTemplate : Option SecretTemplate) (imagePullSecret : Option ImagePullSecretConfig)
    (anns : GoMap String)
    (hanns : secretAnnotationsOf secretName item autoRestart secretAnnotations = .ok anns)
    (current : Secret)
    (hget : kubeClient.Get store namespaceName (formatSecretName secretName) = .ok current) :
    CreateKubernetesSecretFromItem lib kubeClient store secretName namespaceName item
        autoRestart labels secretAnnotations secretType ownerRef secretTemplate imagePullSecret
      = if defaultedType current.Type_ ≠ defaultedType secretType then
          { err := some .ErrCannotUpdateSecretType
            calls := [.get namespaceName (formatSecretName secretName) (.ok current)]
            state := store }
        else if (!DeepEqual current.Annotations (some anns) ||
            !DeepEqual current.Labels labels) = true then
          { err := (kubeClient.Update store
                { current with
                  Annotations := some anns, Labels := labels,
                  Data := BuildKubernetesSecretData lib item secretTemplate
                    imagePullSecret }).1.map
                (fun e => GoError.wrap "kubernetes secret update failed" (.store e))
            calls := [.get namespaceName (formatSecretName secretName) (.ok current),
              .update
                { current with
                  Annotations := some anns, Labels := labels,
                  Data := BuildKubernetesSecretData lib item secretTemplate imagePullSecret }
                (kubeClient.Update store
                  { current with
                    Annotations := some anns, Labels := labels,
                    Data := BuildKubernetesSecretData lib item secretTemplate
                      imagePullSecret }).1]
            state := (kubeClient.Update store
                { current with
                  Annotations := some anns, Labels := labels,
                  Data := BuildKubernetesSecretData lib item secretTemplate
                    imagePullSecret }).2 }
        else
          { err := none
            calls := [.get namespaceName (formatSecretName secretName) (.ok current)]
            state := store } := by
  unfold CreateKubernetesSecretFromItem
  rw [hanns]
  simp only [BuildKubernetesSecretFromOnePasswordItem, hget, defaultedType_eq]

theorem present_inv (lib : TextTemplate) (kubeClient : KubeClient)
    (store : kubeClient.State) (secretName namespaceName : String) (item : Item)
    (autoRestart : String) (labels secretAnnotations : Option (GoMap String))
    (secretType : String) (ownerRef : Option OwnerReference)
    (secretTemplate : Option SecretTemplate) (imagePullSecret : Option ImagePullSecretConfig)
    (ns name : String) (current : Secret)
    (hpresent : (CreateKubernetesSecretFromItem lib kubeClient store secretName namespaceName
        item autoRestart labels secretAnnotations secretType ownerRef secretTemplate
        imagePullSecret).calls.head? = some (.get ns name (.ok current))) :
    (∃ anns, secretAnnotationsOf secretName item autoRestart secretAnnotations = .ok anns) ∧
      ns = namespaceName ∧ name = formatSecretName secretName ∧
      kubeClient.Get store namespaceName (formatSecretName secretName) = .ok current := by
  cases hanns : secretAnnotationsOf secretName item autoRestart secretAnnotations with
  | error err =>
    rw [CreateKubernetesSecretFromItem_of_error lib kubeClient store secretName namespaceName
      item autoRestart labels secretAnnotations secretType ownerRef secretTemplate
      imagePullSecret err hanns] at hpresent
    simp at hpresent
  | ok anns =>
    cases hget : kubeClient.Get store namespaceName (formatSecretName secretName) with
    | error e =>
      rw [CreateKubernetesSecretFromItem_of_fetch_error lib kubeClient store secretName
        namespaceName item autoRestart labels secretAnnotations secretType ownerRef
        secretTemplate imagePullSecret anns hanns e hget] at hpresent
      split at hpresent <;> simp at hpresent
    | ok cur =>
      rw [CreateKubernetesSecretFromItem_of_present lib kubeClient store secretName
        namespaceName item autoRestart labels secretAnnotations secretType ownerRef
        secretTemplate imagePullSecret anns hanns cur hget] at hpresent
      have hhead : some (StoreCall.get namespaceName (formatSecretName secretName) (.ok cur))
          = some (StoreCall.get ns name (.ok current)) := by
        split at hpresent
        · exact hpresent
        · split at hpresent
          · exact hpresent
          · exact hpresent
      have hinj := Option.some.inj hhead
      injection hinj with h1 h2 h3
      injection h3 with h4
      exact ⟨⟨anns, rfl⟩, h1.symm, h2.symm, by rw [h4]⟩

end Reconciler

/-! ## Decoding what `encoding/json` wrote -/

section JsonRoundTrip

theorem scanString_quote (acc tail : List Char) :
    scanString none acc (Char.ofNat 34 :: tail) = some (⟨acc.reverse⟩, tail) := by
  rw [scanString.eq_def]
  simp

theorem scanString_simple_escape (acc tail : List Char) :
    scanString none acc (Char.ofNat 92 :: Char.ofNat 34 :: tail)
        = scanString none (Char.ofNat 34 :: acc) tail ∧
      scanString none acc (Char.ofNat 92 :: Char.ofNat 92 :: tail)
        = scanString none (Char.ofNat 92 :: acc) tail ∧
      scanString none acc (Char.ofNat 92 :: 'b' :: tail)
        = scanString none (Char.ofNat 8 :: acc) tail ∧
      scanString none acc (Char.ofNat 92 :: 'f' :: tail)
        = scanString none (Char.ofNat 12 :: acc) tail ∧
      scanString none acc (Char.ofNat 92 :: 'n' :: tail)
        = scanString none (Char.ofNat 10 :: acc) tail ∧
      scanString none acc (Char.ofNat 92 :: 'r' :: tail)
        = scanString none (Char.ofNat 13 :: acc) tail ∧
      scanString none acc (Char.ofNat 92 :: 't' :: tail)
        = scanString none (Char.ofNat 9 :: acc) tail := by
  refine ⟨?_, ?_, ?_, ?_, ?_, ?_, ?_⟩ <;>
  · rw [scanString.eq_def]
    simp [unescapeRune]

theorem hex4_low :
    ∀ n : Nat, n < 64 → hex4 '0' '0' (hexDigit (n / 16)) (hexDigit (n % 16)) = some n := by
  decide

theorem hex4_separator :
    ∀ n : Nat, n < 16 → hex4 '2' '0' '2' (hexDigit n) = some (0x2020 + n) := by
  decide

theorem scanString_unicode_escape (h1 h2 h3 h4 : Char) (v : Nat) (acc tail : List Char)
    (hv : hex4 h1 h2 h3 h4 = some v) (hlow : v < 0xD800) :
    scanString none acc (Char.ofNat 92 :: 'u' :: h1 :: h2 :: h3 :: h4 :: tail)
      = scanString none (Char.ofNat v :: acc) tail := by
  rw [scanString.eq_def]
  simp only [hv]
  have h5 : ¬ (0xD800 ≤ v ∧ v < 0xDC00) := by omega
  have h6 : ¬ (0xDC00 ≤ v ∧ v < 0xE000) := by omega
  simp [h5, h6]

theorem scanString_plain (c : Char) (acc tail : List Char) (h1 : c.toNat ≠ 34)
    (h2 : c.toNat ≠ 92) (h3 : ¬ c.toNat < 32) :
    scanString none acc (c :: tail) = scanString none (c :: acc) tail := by
  rw [scanString.eq_def]
  simp [h1, h2, h3]

theorem scanString_escape (c : Char) (acc tail : List Char) :
    scanString none acc (jsonEscapeRune c ++ tail) = scanString none (c :: acc) tail := by
  obtain ⟨e1, e2, e3, e4, e5, e6, e7⟩ := scanString_simple_escape acc tail
  have hc : Char.ofNat c.toNat = c := Char.ofNat_toNat c
  unfold jsonEscapeRune
  simp only []
  split_ifs with k1 k2 k3 k4 k5 k6 k7 k8 k9
  · rw [← hc, k1]; exact e1
  · rw [← hc, k2]; exact e2
  · rw [← hc, k3]; exact e3
  · rw [← hc, k4]; exact e4
  · rw [← hc, k5]; exact e5
  · rw [← hc, k6]; exact e6
  · rw [← hc, k7]; exact e7
  · have hlt : c.toNat < 64 := by omega
    have := scanString_unicode_escape '0' '0' (hexDigit (c.toNat / 16))
      (hexDigit (c.toNat % 16)) c.toNat acc tail (hex4_low c.toNat hlt) (by omega)
    rw [hc] at this
    exact this
  · have hmod : c.toNat % 16 < 16 := Nat.mod_lt _ (by decide)
    have hval : 0x2020 + c.toNat % 16 = c.toNat := by omega
    have := scanString_unicode_escape '2' '0' '2' (hexDigit (c.toNat % 16))
      (0x2020 + c.toNat % 16) acc tail (hex4_separator _ hmod) (by omega)
    rw [hval, hc] at this
    exact this
  · exact scanString_plain c acc tail k1 k2 (by omega)

theorem scanString_escaped (s acc rest : List Char) :
    scanString none acc (s.flatMap jsonEscapeRune ++ Char.ofNat 34 :: rest)
      = some (⟨acc.reverse ++ s⟩, rest) := by
  induction s generalizing acc with
  | nil => exact (scanString_quote acc rest).trans (by simp)
  | cons c cs ih =>
    rw [List.flatMap_cons, List.append_assoc, scanString_escape, ih]
    simp

theorem skipSpace_cons (c : Char) (rest : List Char) (h : jsonIsSpace c = false) :
    skipSpace (c :: rest) = c :: rest := by
  simp [skipSpace, List.dropWhile, h]

theorem parseAt_string (fuel : Nat) (s rest : List Char) :
    parseAt (fuel + 1) none
        (Char.ofNat 34 :: (s.flatMap jsonEscapeRune ++ Char.ofNat 34 :: rest))
      = some (.str ⟨s⟩, rest) := by
  rw [parseAt, skipSpace_cons _ _ (by decide)]
  simp [scanString_escaped]

theorem parseAt_open (fuel : Nat) (rest : List Char) :
    parseAt (fuel + 1) none (Char.ofNat 123 :: Char.ofNat 34 :: rest)
      = parseAt fuel (some []) (Char.ofNat 34 :: rest) := by
  rw [parseAt, skipSpace_cons _ _ (by decide)]
  simp only []
  rw [if_neg (by decide), if_pos (by decide), skipSpace_cons _ _ (by decide)]
  simp only []
  rw [if_neg (by decide)]

theorem parseAt_member_comma (fuel : Nat) (acc : List (String × Json)) (k value : List Char)
    (v : Json) (rest : List Char)
    (hv : parseAt fuel none value = some (v, Char.ofNat 44 :: rest)) :
    parseAt (fuel + 1) (some acc)
        (Char.ofNat 34 :: (k.flatMap jsonEscapeRune ++ Char.ofNat 34 :: Char.ofNat 58 :: value))
      = parseAt fuel (some (acc ++ [(⟨k⟩, v)])) rest := by
  rw [parseAt, skipSpace_cons _ _ (by decide)]
  simp only []
  rw [if_pos (by decide), scanString_escaped]
  simp only []
  rw [skipSpace_cons _ _ (by decide)]
  simp only []
  rw [if_pos (by decide), hv]
  simp only []
  rw [skipSpace_cons _ _ (by decide)]
  simp only []
  rw [if_pos (by decide)]
  simp

theorem parseAt_member_close (fuel : Nat) (acc : List (String × Json)) (k value : List Char)
    (v : Json) (rest : List Char)
    (hv : parseAt fuel none value = some (v, Char.ofNat 125 :: rest)) :
    parseAt (fuel + 1) (some acc)
        (Char.ofNat 34 :: (k.flatMap jsonEscapeRune ++ Char.ofNat 34 :: Char.ofNat 58 :: value))
      = some (.obj (acc ++ [(⟨k⟩, v)]), rest) := by
  rw [parseAt, skipSpace_cons _ _ (by decide)]
  simp only []
  rw [if_pos (by decide), scanString_escaped]
  simp only []
  rw [skipSpace_cons _ _ (by decide)]
  simp only []
  rw [if_pos (by decide), hv]
  simp only []
  rw [skipSpace_cons _ _ (by decide)]
  simp only []
  rw [if_neg (by decide), if_pos (by decide)]
  simp

theorem parseAt_entry_three (fuel : Nat) (k1 v1 k2 v2 k3 v3 rest : List Char) :
    parseAt (fuel + 5) none
        (Char.ofNat 123 :: Char.ofNat 34 :: (k1.flatMap jsonEscapeRune ++ Char.ofNat 34 ::
          Char.ofNat 58 :: Char.ofNat 34 :: (v1.flatMap jsonEscapeRune ++ Char.ofNat 34 ::
          Char.ofNat 44 :: Char.ofNat 34 :: (k2.flatMap jsonEscapeRune ++ Char.ofNat 34 ::
          Char.ofNat 58 :: Char.ofNat 34 :: (v2.flatMap jsonEscapeRune ++ Char.ofNat 34 ::
          Char.ofNat 44 :: Char.ofNat 34 :: (k3.flatMap jsonEscapeRune ++ Char.ofNat 34 ::
          Char.ofNat 58 :: Char.ofNat 34 :: (v3.flatMap jsonEscapeRune ++ Char.ofNat 34 ::
          Char.ofNat 125 :: rest)))))))
      = some (.obj [(⟨k1⟩, .str ⟨v1⟩), (⟨k2⟩, .str ⟨v2⟩), (⟨k3⟩, .str ⟨v3⟩)], rest) := by
  rw [parseAt_open,
    parseAt_member_comma (fuel + 3) [] k1 _ (.str ⟨v1⟩) _ (parseAt_string (fuel + 2) v1 _),
    parseAt_member_comma (fuel + 2) _ k2 _ (.str ⟨v2⟩) _ (parseAt_string (fuel + 1) v2 _),
    parseAt_member_close (fuel + 1) _ k3 _ (.str ⟨v3⟩) _ (parseAt_string fuel v3 _)]
  rfl

theorem parseAt_entry_four (fuel : Nat) (k1 v1 k2 v2 k3 v3 k4 v4 rest : List Char) :
    parseAt (fuel + 6) none
        (Char.ofNat 123 :: Char.ofNat 34 :: (k1.flatMap jsonEscapeRune ++ Char.ofNat 34 ::
          Char.ofNat 58 :: Char.ofNat 34 :: (v1.flatMap jsonEscapeRune ++ Char.ofNat 34 ::
          Char.ofNat 44 :: Char.ofNat 34 :: (k2.flatMap jsonEscapeRune ++ Char.ofNat 34 ::
          Char.ofNat 58 :: Char.ofNat 34 :: (v2.flatMap jsonEscapeRune ++ Char.ofNat 34 ::
          Char.ofNat 44 :: Char.ofNat 34 :: (k3.flatMap jsonEscapeRune ++ Char.ofNat 34 ::
          Char.ofNat 58 :: Char.ofNat 34 :: (v3.flatMap jsonEscapeRune ++ Char.ofNat 34 ::
          Char.ofNat 44 :: Char.ofNat 34 :: (k4.flatMap jsonEscapeRune ++ Char.ofNat 34 ::
          Char.ofNat 58 :: Char.ofNat 34 :: (v4.flatMap jsonEscapeRune ++ Char.ofNat 34 ::
          Char.ofNat 125 :: rest)))))))))
      = some (.obj [(⟨k1⟩, .str ⟨v1⟩), (⟨k2⟩, .str ⟨v2⟩), (⟨k3⟩, .str ⟨v3⟩),
          (⟨k4⟩, .str ⟨v4⟩)], rest) := by
  rw [parseAt_open,
    parseAt_member_comma (fuel + 4) [] k1 _ (.str ⟨v1⟩) _ (parseAt_string (fuel + 3) v1 _),
    parseAt_member_comma (fuel + 3) _ k2 _ (.str ⟨v2⟩) _ (parseAt_string (fuel + 2) v2 _),
    parseAt_member_comma (fuel + 2) _ k3 _ (.str ⟨v3⟩) _ (parseAt_string (fuel + 1) v3 _),
    parseAt_member_close (fuel + 1) _ k4 _ (.str ⟨v4⟩) _ (parseAt_string fuel v4 _)]
  rfl

/-- A document `{"k1":{"k2":entry}}` decodes to the two nested one-member
objects around what `entry` decodes to. -/
theorem parseAt_nested (fuel : Nat) (k1 k2 entry : List Char) (v : Json)
    (hentry : ∀ rest, parseAt (fuel + 1) none (entry ++ rest) = some (v, rest)) :
    parseAt (fuel + 5) none
        (Char.ofNat 123 :: Char.ofNat 34 :: (k1.flatMap jsonEscapeRune ++ Char.ofNat 34 ::
          Char.ofNat 58 :: Char.ofNat 123 :: Char.ofNat 34 ::
          (k2.flatMap jsonEscapeRune ++ Char.ofNat 34 :: Char.ofNat 58 ::
            (entry ++ [Char.ofNat 125, Char.ofNat 125]))))
      = some (.obj [(⟨k1⟩, .obj [(⟨k2⟩, v)])], []) := by
  have hinner : parseAt (fuel + 3) none
      (Char.ofNat 123 :: Char.ofNat 34 :: (k2.flatMap jsonEscapeRune ++ Char.ofNat 34 ::
        Char.ofNat 58 :: (entry ++ [Char.ofNat 125, Char.ofNat 125])))
      = some (.obj [(⟨k2⟩, v)], [Char.ofNat 125]) := by
    rw [parseAt_open,
      parseAt_member_close (fuel + 1) [] k2 _ v [Char.ofNat 125] (hentry _)]
    rfl
  rw [parseAt_open, parseAt_member_close (fuel + 3) [] k1 _ _ [] hinner]
  rfl

theorem jsonString_data (s : String) :
    (jsonString s).data
      = Char.ofNat 34 :: (s.data.flatMap jsonEscapeRune ++ [Char.ofNat 34]) := rfl

theorem dockerConfigJSONText_data (registry : String) (entry : DockerConfigEntry) :
    (dockerConfigJSONText { Auths := [(registry, entry)] }).data
      = Char.ofNat 123 :: Char.ofNat 34 :: ("auths".data.flatMap jsonEscapeRune ++
          Char.ofNat 34 :: Char.ofNat 58 :: Char.ofNat 123 :: Char.ofNat 34 ::
          (registry.data.flatMap jsonEscapeRune ++ Char.ofNat 34 :: Char.ofNat 58 ::
            ((marshalDockerConfigEntry entry).data ++ [Char.ofNat 125, Char.ofNat 125]))) := by
  simp [dockerConfigJSONText, jsonObject, String.intercalate, String.intercalate.go,
    jsonString_data]

theorem marshalDockerConfigEntry_data_three (entry : DockerConfigEntry)
    (hu : entry.Username ≠ "") (hp : entry.Password ≠ "") (he : entry.Email = "")
    (ha : entry.Auth ≠ "") (rest : List Char) :
    (marshalDockerConfigEntry entry).data ++ rest
      = Char.ofNat 123 :: Char.ofNat 34 :: ("username".data.flatMap jsonEscapeRune ++
          Char.ofNat 34 :: Char.ofNat 58 :: Char.ofNat 34 ::
          (entry.Username.data.flatMap jsonEscapeRune ++ Char.ofNat 34 ::
          Char.ofNat 44 :: Char.ofNat 34 :: ("password".data.flatMap jsonEscapeRune ++
          Char.ofNat 34 :: Char.ofNat 58 :: Char.ofNat 34 ::
          (entry.Password.data.flatMap jsonEscapeRune ++ Char.ofNat 34 ::
          Char.ofNat 44 :: Char.ofNat 34 :: ("auth".data.flatMap jsonEscapeRune ++
          Char.ofNat 34 :: Char.ofNat 58 :: Char.ofNat 34 ::
          (entry.Auth.data.flatMap jsonEscapeRune ++ Char.ofNat 34 ::
          Char.ofNat 125 :: rest)))))) := by
  simp [marshalDockerConfigEntry, List.filter, hu, hp, he, ha, jsonObject, String.intercalate,
    String.intercalate.go, jsonString_data]

theorem marshalDockerConfigEntry_data_four (entry : DockerConfigEntry)
    (hu : entry.Username ≠ "") (hp : entry.Password ≠ "") (he : entry.Email ≠ "")
    (ha : entry.Auth ≠ "") (rest : List Char) :
    (marshalDockerConfigEntry entry).data ++ rest
      = Char.ofNat 123 :: Char.ofNat 34 :: ("username".data.flatMap jsonEscapeRune ++
          Char.ofNat 34 :: Char.ofNat 58 :: Char.ofNat 34 ::
          (entry.Username.data.flatMap jsonEscapeRune ++ Char.ofNat 34 ::
          Char.ofNat 44 :: Char.ofNat 34 :: ("password".data.flatMap jsonEscapeRune ++
          Char.ofNat 34 :: Char.ofNat 58 :: Char.ofNat 34 ::
          (entry.Password.data.flatMap jsonEscapeRune ++ Char.ofNat 34 ::
          Char.ofNat 44 :: Char.ofNat 34 :: ("email".data.flatMap jsonEscapeRune ++
          Char.ofNat 34 :: Char.ofNat 58 :: Char.ofNat 34 ::
          (entry.Email.data.flatMap jsonEscapeRune ++ Char.ofNat 34 ::
          Char.ofNat 44 :: Char.ofNat 34 :: ("auth".data.flatMap jsonEscapeRune ++
          Char.ofNat 34 :: Char.ofNat 58 :: Char.ofNat 34 ::
          (entry.Auth.data.flatMap jsonEscapeRune ++ Char.ofNat 34 ::
          Char.ofNat 125 :: rest)))))))) := by
  simp [marshalDockerConfigEntry, List.filter, hu, hp, he, ha, jsonObject, String.intercalate,
    String.intercalate.go, jsonString_data]

theorem base64Encode_ne_nil (bs : Bytes) (h : bs ≠ []) : base64Encode bs ≠ [] := by
  match bs, h with
  | [a], _ => simp [base64Encode]
  | [a, b], _ => simp [base64Encode]
  | a :: b :: c :: rest, _ => simp [base64Encode]

theorem stringToBytes_ne_nil (s : String) (h : s ≠ "") : stringToBytes s ≠ [] := by
  unfold stringToBytes
  cases hs : s.data with
  | nil =>
    exfalso
    apply h
    have : s = ⟨s.data⟩ := rfl
    rw [this, hs]
  | cons c cs =>
    intro hnil
    have hlen := congrArg List.length hnil
    rw [List.flatMap_cons, List.length_append, String.length_utf8EncodeChar] at hlen
    have := Char.utf8Size_pos c
    simp at hlen
    omega

theorem auth_ne_empty (username password : String) (hu : username ≠ "") :
    (⟨base64Encode (stringToBytes (username ++ ":" ++ password))⟩ : String) ≠ "" := by
  have hne : username ++ ":" ++ password ≠ "" := by
    intro h
    have hdata := congrArg String.data h
    simp only [String.data_append] at hdata
    have hud : username.data = [] := by
      have h1 := congrArg List.length hdata
      simp at h1
    apply hu
    have : username = ⟨username.data⟩ := rfl
    rw [this, hud]
  intro h
  exact base64Encode_ne_nil _ (stringToBytes_ne_nil _ hne) (congrArg String.data h)

theorem jsonDecode_of_parse (text : String) (fuel : Nat) (v : Json)
    (hfuel : text.data.length + 1 = fuel)
    (hparse : parseAt fuel none text.data = some (v, [])) : jsonDecode text = some v := by
  unfold jsonDecode
  rw [hfuel, hparse]
  rfl

theorem jsonDecode_dockerConfig (registry : String) (entry : DockerConfigEntry)
    (hu : entry.Username ≠ "") (hp : entry.Password ≠ "") (ha : entry.Auth ≠ "") :
    jsonDecode (dockerConfigJSONText { Auths := [(registry, entry)] })
      = some (.obj [("auths", .obj [(registry, .obj
          ([("username", .str entry.Username), ("password", .str entry.Password)] ++
            (if entry.Email = "" then [] else [("email", .str entry.Email)]) ++
            [("auth", .str entry.Auth)]))])]) := by
  have hlen : ∃ g, (dockerConfigJSONText { Auths := [(registry, entry)] }).data.length + 1
      = g + 10 := by
    rw [dockerConfigJSONText_data]
    refine ⟨(registry.data.flatMap jsonEscapeRune ++ Char.ofNat 34 :: Char.ofNat 58 ::
      ((marshalDockerConfigEntry entry).data ++ [Char.ofNat 125, Char.ofNat 125])).length + 2,
      ?_⟩
    have h5 : ("auths".data.flatMap jsonEscapeRune).length = 5 := by decide
    simp only [List.length_cons, List.length_append, List.length_nil, h5]
    omega
  obtain ⟨g, hg⟩ := hlen
  apply jsonDecode_of_parse _ (g + 10) _ hg
  rw [dockerConfigJSONText_data]
  by_cases he : entry.Email = ""
  · rw [if_pos he]
    exact parseAt_nested (g + 5) "auths".data registry.data _ _ (fun rest => by
      rw [marshalDockerConfigEntry_data_three entry hu hp he ha rest]
      exact parseAt_entry_three (g + 1) _ _ _ _ _ _ rest)
  · rw [if_neg he]
    exact parseAt_nested (g + 5) "auths".data registry.data _ _ (fun rest => by
      rw [marshalDockerConfigEntry_data_four entry hu hp he ha rest]
      exact parseAt_entry_four g _ _ _ _ _ _ _ _ rest)

end JsonRoundTrip

/-! ## Names that are valid already -/

section ValidNames

theorem dns1123SubdomainRun_chars (s : List Char) :
    ∀ st : SubdomainState, dns1123SubdomainRun st s = true →
      ∀ c ∈ s, invalidDNS1123Char c = false := by
  induction s with
  | nil => intro st _ c hc; simp at hc
  | cons a as ih =>
    intro st hrun c hc
    have hstep : invalidDNS1123Char a = false ∧
        ∃ st', dns1123SubdomainRun st' as = true := by
      cases st with
      | labelStart =>
        simp only [dns1123SubdomainRun] at hrun
        by_cases h1 : isLowerAlnum a = true
        · rw [if_pos h1] at hrun
          exact ⟨by simp [invalidDNS1123Char, h1], _, hrun⟩
        · rw [if_neg h1] at hrun
          exact absurd hrun (by simp)
      | afterAlnum =>
        simp only [dns1123SubdomainRun] at hrun
        by_cases h1 : isLowerAlnum a = true
        · rw [if_pos h1] at hrun
          exact ⟨by simp [invalidDNS1123Char, h1], _, hrun⟩
        · rw [if_neg h1] at hrun
          by_cases h2 : a = '-'
          · rw [if_pos h2] at hrun
            exact ⟨by simp [invalidDNS1123Char, h2], _, hrun⟩
          · rw [if_neg h2] at hrun
            by_cases h3 : a = '.'
            · rw [if_pos h3] at hrun
              exact ⟨by simp [invalidDNS1123Char, h3], _, hrun⟩
            · rw [if_neg h3] at hrun
              exact absurd hrun (by simp)
      | afterDash =>
        simp only [dns1123SubdomainRun] at hrun
        by_cases h1 : isLowerAlnum a = true
        · rw [if_pos h1] at hrun
          exact ⟨by simp [invalidDNS1123Char, h1], _, hrun⟩
        · rw [if_neg h1] at hrun
          by_cases h2 : a = '-'
          · rw [if_pos h2] at hrun
            exact ⟨by simp [invalidDNS1123Char, h2], _, hrun⟩
          · rw [if_neg h2] at hrun
            exact absurd hrun (by simp)
    rcases List.mem_cons.mp hc with h | h
    · rw [h]; exact hstep.1
    · obtain ⟨st', hst'⟩ := hstep.2
      exact ih st' hst' c h

theorem dns1123SubdomainRun_head (s : List Char)
    (hrun : dns1123SubdomainRun .labelStart s = true) :
    ∀ c ∈ s.head?, isLowerAlnum c = true := by
  cases s with
  | nil => intro c hc; simp at hc
  | cons a as =>
    intro c hc
    simp only [List.head?_cons, Option.mem_def, Option.some.injEq] at hc
    subst hc
    simp only [dns1123SubdomainRun] at hrun
    by_cases h1 : isLowerAlnum a = true
    · exact h1
    · rw [if_neg h1] at hrun
      exact absurd hrun (by simp)

/-- One step of the automaton: the run goes on in some state, and that state is
`afterAlnum` only after an alphanumeric. -/
theorem dns1123SubdomainRun_step (st : SubdomainState) (a : Char) (as : List Char)
    (hrun : dns1123SubdomainRun st (a :: as) = true) :
    ∃ st', dns1123SubdomainRun st' as = true ∧
      (st' = SubdomainState.afterAlnum → isLowerAlnum a = true) := by
  cases st with
  | labelStart =>
    simp only [dns1123SubdomainRun] at hrun
    by_cases h1 : isLowerAlnum a = true
    · rw [if_pos h1] at hrun
      exact ⟨_, hrun, fun _ => h1⟩
    · rw [if_neg h1] at hrun
      exact absurd hrun (by simp)
  | afterAlnum =>
    simp only [dns1123SubdomainRun] at hrun
    by_cases h1 : isLowerAlnum a = true
    · rw [if_pos h1] at hrun
      exact ⟨_, hrun, fun _ => h1⟩
    · rw [if_neg h1] at hrun
      by_cases h2 : a = '-'
      · rw [if_pos h2] at hrun
        exact ⟨_, hrun, fun h => by cases h⟩
      · rw [if_neg h2] at hrun
        by_cases h3 : a = '.'
        · rw [if_pos h3] at hrun
          exact ⟨_, hrun, fun h => by cases h⟩
        · rw [if_neg h3] at hrun
          exact absurd hrun (by simp)
  | afterDash =>
    simp only [dns1123SubdomainRun] at hrun
    by_cases h1 : isLowerAlnum a = true
    · rw [if_pos h1] at hrun
      exact ⟨_, hrun, fun _ => h1⟩
    · rw [if_neg h1] at hrun
      by_cases h2 : a = '-'
      · rw [if_pos h2] at hrun
        exact ⟨_, hrun, fun h => by cases h⟩
      · rw [if_neg h2] at hrun
        exact absurd hrun (by simp)

/-- The automaton accepts in the state `afterAlnum` only, which it enters on an
alphanumeric only: the last character of an accepted text is alphanumeric. -/
theorem dns1123SubdomainRun_getLast (s : List Char) :
    ∀ st : SubdomainState, dns1123SubdomainRun st s = true →
      ∀ c ∈ s.getLast?, isLowerAlnum c = true := by
  induction s with
  | nil => intro st _ c hc; simp at hc
  | cons a as ih =>
    intro st hrun c hc
    obtain ⟨st', hst', halnum⟩ := dns1123SubdomainRun_step st a as hrun
    cases as with
    | nil =>
      simp only [List.getLast?_singleton, Option.mem_def, Option.some.injEq] at hc
      subst hc
      apply halnum
      cases st' with
      | afterAlnum => rfl
      | labelStart => simp [dns1123SubdomainRun] at hst'
      | afterDash => simp [dns1123SubdomainRun] at hst'
    | cons b bs =>
      have hlast : (a :: b :: bs).getLast? = (b :: bs).getLast? := by
        simp [List.getLast?_cons_cons]
      rw [hlast] at hc
      exact ih st' hst' c hc

theorem valid_of_isDNS1123Subdomain (value : String)
    (h : (IsDNS1123Subdomain value).length = 0) :
    goLen value.data ≤ DNS1123SubdomainMaxLength ∧ dns1123SubdomainMatch value.data = true := by
  unfold IsDNS1123Subdomain at h
  simp only [List.length_append, Nat.add_eq_zero_iff, List.length_eq_zero] at h
  obtain ⟨h1, h2⟩ := h
  constructor
  · by_cases hl : goLen value.data > DNS1123SubdomainMaxLength
    · simp [hl] at h1
    · omega
  · by_cases hm : dns1123SubdomainMatch value.data = true
    · exact hm
    · simp [hm] at h2

theorem alnum_of_not_cutset (c : Char) (hvalid : invalidDNS1123Char c = false)
    (hcut : ['-', '.'].elem c = false) : isLowerAlnum c = true := by
  simp only [invalidDNS1123Char, Bool.not_eq_false', Bool.or_eq_true, beq_iff_eq] at hvalid
  rcases hvalid with (h | h) | h
  · exact h
  · subst h; simp at hcut
  · subst h; simp at hcut

theorem not_cutset_of_alnum (c : Char) (h : isLowerAlnum c = true) : c ≠ '-' ∧ c ≠ '.' := by
  constructor
  · intro hc; subst hc; revert h; decide
  · intro hc; subst hc; revert h; decide

end ValidNames

section NameShape

theorem valid_char_cases (c : Char) (h : invalidDNS1123Char c = false) :
    isLowerLetter c = true ∨ isDigit c = true ∨ c = '-' ∨ c = '.' := by
  simp only [invalidDNS1123Char, isLowerAlnum, Bool.not_eq_false', Bool.or_eq_true,
    beq_iff_eq] at h
  tauto

theorem not_cutset_of_elem (c : Char) (h : ['-', '.'].elem c = false) : c ≠ '-' ∧ c ≠ '.' := by
  constructor
  · intro hc; subst hc; simp at h
  · intro hc; subst hc; simp at h

/-- The shape of a valid name, from the four facts both branches of
`formatSecretName` provide. -/
theorem name_shape (y : List Char)
    (hchars : ∀ c ∈ y, invalidDNS1123Char c = false)
    (hlen : y.length ≤ DNS1123SubdomainMaxLength)
    (hhead : ∀ c ∈ y.head?, c ≠ '-' ∧ c ≠ '.')
    (hlast : ∀ c ∈ y.getLast?, c ≠ '-' ∧ c ≠ '.') :
    (∀ c ∈ y, isLowerLetter c = true ∨ isDigit c = true ∨ c = '-' ∨ c = '.') ∧
    y.length ≤ 253 ∧ goLen y ≤ 253 ∧
    (∀ c ∈ y.head?, c ≠ '-' ∧ c ≠ '.') ∧ (∀ c ∈ y.getLast?, c ≠ '-' ∧ c ≠ '.') := by
  have hascii : ∀ c ∈ y, c.toNat < 128 :=
    fun c hc => ascii_of_not_invalidDNS1123Char c (hchars c hc)
  have hgo := goLen_eq_length_of_ascii y hascii
  refine ⟨fun c hc => valid_char_cases c (hchars c hc), hlen, ?_, hhead, hlast⟩
  rw [hgo]; exact hlen

end NameShape

/-! ## Equality of maps and faithful stores -/

section Idempotence

theorem mapsEqual_of_get (a b : GoMap String)
    (h : ∀ k, GoMap.get a k = GoMap.get b k) : mapsEqual a b = true := by
  unfold mapsEqual
  rw [Bool.and_eq_true, List.all_eq_true, List.all_eq_true]
  exact ⟨fun k _ => decide_eq_true (h k), fun k _ => decide_eq_true (h k).symm⟩

theorem DeepEqual_refl (a : Option (GoMap String)) : DeepEqual a a = true := by
  cases a with
  | none => rfl
  | some x => exact mapsEqual_of_get x x (fun _ => rfl)

theorem DeepEqual_of_get (a b : Option (GoMap String)) (hsome : a.isSome = b.isSome)
    (h : ∀ k, GoMap.get (a.getD []) k = GoMap.get (b.getD []) k) : DeepEqual a b = true := by
  cases a with
  | none =>
    cases b with
    | none => rfl
    | some y => simp at hsome
  | some x =>
    cases b with
    | none => simp at hsome
    | some y => exact mapsEqual_of_get x y h

theorem find_append_new (objects : List Secret) (secret : Secret)
    (hnew : objects.any (fun o => o.Namespace = secret.Namespace ∧ o.Name = secret.Name)
      = false) :
    (objects ++ [secret]).find?
        (fun o => o.Namespace = secret.Namespace ∧ o.Name = secret.Name) = some secret := by
  induction objects with
  | nil => simp
  | cons o os ih =>
    simp only [List.any_cons, Bool.or_eq_false_iff] at hnew
    simp only [List.cons_append, List.find?_cons, hnew.1]
    exact ih hnew.2

theorem find_map_replaced (objects : List Secret) (secret : Secret)
    (hold : objects.any (fun o => o.Namespace = secret.Namespace ∧ o.Name = secret.Name)
      = true) :
    (objects.map (fun o =>
        if o.Namespace = secret.Namespace ∧ o.Name = secret.Name then secret else o)).find?
        (fun o => o.Namespace = secret.Namespace ∧ o.Name = secret.Name) = some secret := by
  induction objects with
  | nil => simp at hold
  | cons o os ih =>
    by_cases ho : o.Namespace = secret.Namespace ∧ o.Name = secret.Name
    · simp [List.map_cons, List.find?_cons, ho]
    · have hrest : os.any (fun o => o.Namespace = secret.Namespace ∧ o.Name = secret.Name)
          = true := by
        simp only [List.any_cons, Bool.or_eq_true] at hold
        rcases hold with h | h
        · exact absurd (of_decide_eq_true h) ho
        · exact h
      simp only [List.map_cons, if_neg ho, List.find?_cons, decide_eq_false ho]
      exact ih hrest

theorem memoryStore_faithful : Faithful memoryStore := by
  refine ⟨?_, ?_, ?_⟩
  · intro st namespaceName name s hget
    simp only [memoryStore] at hget
    cases hfind : List.find? (fun o => decide (o.Namespace = namespaceName ∧ o.Name = name)) st with
    | none => rw [hfind] at hget; cases hget
    | some o =>
      rw [hfind] at hget
      have ho := List.find?_some hfind
      cases hget
      exact of_decide_eq_true ho
  · intro st s hcreate
    simp only [memoryStore] at hcreate ⊢
    by_cases hany : st.any (fun o => o.Namespace = s.Namespace ∧ o.Name = s.Name) = true
    · rw [if_pos hany] at hcreate
      cases hcreate
    · rw [if_neg hany]
      rw [Bool.not_eq_true] at hany
      simp only [find_append_new st s hany]
  · intro st s hupdate
    simp only [memoryStore] at hupdate ⊢
    by_cases hany : st.any (fun o => o.Namespace = s.Namespace ∧ o.Name = s.Name) = true
    · rw [if_pos hany]
      simp only [find_map_replaced st s hany]
    · rw [if_neg hany] at hupdate
      cases hupdate

end Idempotence

section SecondInvocation

/-- The reconciler on a store that returns an object of the requested type
whose annotations and labels are the computed and the requested ones: the fetch
is the only call. -/
theorem CreateKubernetesSecretFromItem_of_synced (lib : TextTemplate)
    (kubeClient : KubeClient) (store : kubeClient.State) (secretName namespaceName : String)
    (item : Item) (autoRestart : String) (labels secretAnnotations : Option (GoMap String))
    (secretType : String) (ownerRef : Option OwnerReference)
    (secretTemplate : Option SecretTemplate) (imagePullSecret : Option ImagePullSecretConfig)
    (anns : GoMap String)
    (hanns : secretAnnotationsOf secretName item autoRestart secretAnnotations = .ok anns)
    (current : Secret)
    (hget : kubeClient.Get store namespaceName (formatSecretName secretName) = .ok current)
    (htype : defaultedType current.Type_ = defaultedType secretType)
    (hannotations : current.Annotations = some anns) (hlabels : current.Labels = labels) :
    CreateKubernetesSecretFromItem lib kubeClient store secretName namespaceName item
        autoRestart labels secretAnnotations secretType ownerRef secretTemplate imagePullSecret
      = { err := none
          calls := [.get namespaceName (formatSecretName secretName) (.ok current)]
          state := store } := by
  rw [CreateKubernetesSecretFromItem_of_present lib kubeClient store secretName namespaceName
    item autoRestart labels secretAnnotations secretType ownerRef secretTemplate
    imagePullSecret anns hanns current hget,
    if_neg (fun h => h htype),
    if_neg (by rw [hannotations, hlabels, DeepEqual_refl, DeepEqual_refl]; decide)]

end SecondInvocation

/-! ## The sections of a converted item -/

section ConnectSections

theorem GoMap.keys_set_of_absent {V : Type} (m : GoMap V) (k : String) (v : V)
    (h : GoMap.get m k = none) : GoMap.keys (GoMap.set m k v) = GoMap.keys m ++ [k] := by
  induction m with
  | nil => rfl
  | cons p rest ih =>
    obtain ⟨a, b⟩ := p
    by_cases hk : a = k
    · simp [GoMap.get, hk] at h
    · simp only [GoMap.get, if_neg hk] at h
      have ih2 : List.map Prod.fst (GoMap.set rest k v) = List.map Prod.fst rest ++ [k] := ih h
      simp only [GoMap.set, if_neg hk, GoMap.keys, List.map_cons, List.cons_append, ih2]

/-- With distinct keys, an entry of the list is what the lookup of its key
returns. -/
theorem GoMap.get_of_mem {V : Type} (m : GoMap V) (hnodup : (GoMap.keys m).Nodup)
    (k : String) (v : V) (hmem : (k, v) ∈ m) : GoMap.get m k = some v := by
  induction m with
  | nil => simp at hmem
  | cons p rest ih =>
    obtain ⟨a, b⟩ := p
    have hnd : a ∉ List.map Prod.fst rest ∧ (List.map Prod.fst rest).Nodup := by
      simpa [GoMap.keys] using hnodup
    rcases List.mem_cons.mp hmem with h | h
    · cases h
      simp [GoMap.get]
    · have hk : k ∈ List.map Prod.fst rest := List.mem_map.mpr ⟨(k, v), h, rfl⟩
      have hne : ¬ a = k := fun hak => hnd.1 (hak ▸ hk)
      simp only [GoMap.get, if_neg hne]
      exact ih hnd.2 h

theorem connectSectionMap_eq (fields : List ConnectItemField) :
    connectSectionMap fields = fields.foldl sectionMapStep [] := rfl

theorem sectionMapStep_nodup (m : GoMap ItemSection) (field : ConnectItemField)
    (h : (GoMap.keys m).Nodup) : (GoMap.keys (sectionMapStep m field)).Nodup := by
  unfold sectionMapStep
  cases hsec : field.Section with
  | none => exact h
  | some sec =>
    cases hget : GoMap.get m sec.ID with
    | some v =>
      simp only [hget]
      exact h
    | none =>
      simp only [hget]
      rw [GoMap.keys_set_of_absent m sec.ID _ hget]
      have hnot : sec.ID ∉ GoMap.keys m := by
        intro hmem
        obtain ⟨v, hv⟩ := (GoMap.mem_keys_iff m sec.ID).mp hmem
        rw [hget] at hv
        cases hv
      exact List.Nodup.append h (List.nodup_singleton _)
        (by
          intro a ha hb
          rw [List.mem_singleton] at hb
          exact hnot (hb ▸ ha))

theorem foldl_sectionMapStep_nodup (fields : List ConnectItemField) :
    ∀ m : GoMap ItemSection, (GoMap.keys m).Nodup →
      (GoMap.keys (fields.foldl sectionMapStep m)).Nodup := by
  induction fields with
  | nil => intro m h; exact h
  | cons f fs ih =>
    intro m h
    exact ih (sectionMapStep m f) (sectionMapStep_nodup m f h)

theorem firstSection_cons_none (f : ConnectItemField) (fs : List ConnectItemField)
    (id : String) (h : f.Section = none) : firstSection (f :: fs) id = firstSection fs id := by
  simp [firstSection, List.filterMap_cons, h]

theorem firstSection_cons_some (f : ConnectItemField) (fs : List ConnectItemField)
    (id : String) (sec : ConnectItemSection) (h : f.Section = some sec) :
    firstSection (f :: fs) id = if sec.ID = id then some sec else firstSection fs id := by
  simp only [firstSection, List.filterMap_cons, h, List.find?_cons]
  by_cases hid : sec.ID = id
  · simp [hid]
  · simp [hid]

/-- First-wins: after the first loop, the entry of a section ID is the section
of the first field referring to it, unless the map held an entry before. -/
theorem get_foldl_sectionMapStep (fields : List ConnectItemField) :
    ∀ (m : GoMap ItemSection) (id : String),
      GoMap.get (fields.foldl sectionMapStep m) id =
        match GoMap.get m id with
        | some v => some v
        | none => (firstSection fields id).map (fun sec => { ID := sec.ID, Title := sec.Label }) := by
  induction fields with
  | nil =>
    intro m id
    cases hm : GoMap.get m id <;> simp [firstSection, hm]
  | cons f fs ih =>
    intro m id
    rw [List.foldl_cons, ih (sectionMapStep m f) id]
    cases hsec : f.Section with
    | none =>
      simp only [sectionMapStep, hsec, firstSection_cons_none f fs id hsec]
    | some sec =>
      rw [firstSection_cons_some f fs id sec hsec]
      cases hget : GoMap.get m sec.ID with
      | some v =>
        simp only [sectionMapStep, hsec, hget]
        cases hm : GoMap.get m id with
        | some w => rfl
        | none =>
          have hne : ¬ sec.ID = id := by
            intro h
            rw [h, hm] at hget
            cases hget
          simp only [if_neg hne]
      | none =>
        simp only [sectionMapStep, hsec, hget, GoMap.get_set]
        by_cases hid : sec.ID = id
        · rw [if_pos hid, if_pos hid]
          rw [hid] at hget
          simp [hget]
        · rw [if_neg hid, if_neg hid]

theorem get_connectSectionMap (fields : List ConnectItemField) (id : String) :
    GoMap.get (connectSectionMap fields) id =
      (firstSection fields id).map (fun sec => { ID := sec.ID, Title := sec.Label }) := by
  rw [connectSectionMap_eq, get_foldl_sectionMapStep fields [] id]
  rfl

theorem connectSectionMap_nodup (fields : List ConnectItemField) :
    (GoMap.keys (connectSectionMap fields)).Nodup := by
  rw [connectSectionMap_eq]
  exact foldl_sectionMapStep_nodup fields [] List.nodup_nil

theorem firstSection_id (fields : List ConnectItemField) (id : String)
    (sec : ConnectItemSection) (h : firstSection fields id = some sec) : sec.ID = id := by
  have := List.find?_some h
  exact of_decide_eq_true this

theorem firstSection_isSome_iff (fields : List ConnectItemField) (id : String) :
    (∃ sec, firstSection fields id = some sec) ↔
      ∃ f ∈ fields, ∃ s, f.Section = some s ∧ s.ID = id := by
  constructor
  · rintro ⟨sec, hsec⟩
    have hmem := List.mem_of_find?_eq_some hsec
    obtain ⟨f, hf, hfs⟩ := List.mem_filterMap.mp hmem
    exact ⟨f, hf, sec, hfs, firstSection_id fields id sec hsec⟩
  · rintro ⟨f, hf, s, hs, hid⟩
    cases hfirst : firstSection fields id with
    | some sec => exact ⟨sec, rfl⟩
    | none =>
      have hnone := List.find?_eq_none.mp hfirst s (List.mem_filterMap.mpr ⟨f, hf, hs⟩)
      simp [hid] at hnone

/-- An entry of `sectionMap`: its section carries the key as ID and the label
of the first field referring to that ID as title. -/
theorem connectSectionMap_entry (fields : List ConnectItemField) (k : String)
    (v : ItemSection) (hmem : (k, v) ∈ connectSectionMap fields) :
    v.ID = k ∧ firstSectionLabel fields k = some v.Title := by
  have hget := GoMap.get_of_mem _ (connectSectionMap_nodup fields) k v hmem
  rw [get_connectSectionMap] at hget
  cases hfirst : firstSection fields k with
  | none => rw [hfirst] at hget; cases hget
  | some sec =>
    rw [hfirst] at hget
    simp only [Option.map_some', Option.some.injEq] at hget
    subst hget
    exact ⟨firstSection_id fields k sec hfirst, by simp [firstSectionLabel, hfirst]⟩

end ConnectSections

/-! ## Parsing and executing bare field references -/

section FieldReferences

theorem splitAtLeftDelim_literal (text : List Char) (h : hasLeftDelim text = false) :
    splitAtLeftDelim text = (text, none) := by
  induction text with
  | nil => rfl
  | cons c cs ih =>
    simp only [hasLeftDelim, Bool.or_eq_false_iff, Bool.and_eq_false_iff] at h
    have hno : ¬ (c = leftBrace ∧ cs.head? = some leftBrace) := by
      rintro ⟨h1, h2⟩
      rcases h.1 with h3 | h3
      · simp [h1] at h3
      · simp [h2] at h3
    simp only [splitAtLeftDelim, if_neg hno, ih h.2]

theorem splitAtLeftDelim_before (text rest : List Char) (h : hasLeftDelim text = false)
    (hlast : text.getLast? ≠ some leftBrace) :
    splitAtLeftDelim (text ++ leftBrace :: leftBrace :: rest) = (text, some rest) := by
  induction text with
  | nil => simp [splitAtLeftDelim]
  | cons c cs ih =>
    simp only [hasLeftDelim, Bool.or_eq_false_iff, Bool.and_eq_false_iff] at h
    have hno : ¬ (c = leftBrace ∧ (cs ++ leftBrace :: leftBrace :: rest).head? = some leftBrace) := by
      rintro ⟨h1, h2⟩
      cases cs with
      | nil =>
        apply hlast
        simp [h1]
      | cons d ds =>
        rcases h.1 with h3 | h3
        · simp [h1] at h3
        · simp only [List.cons_append, List.head?_cons] at h2
          simp [h2] at h3
    have hlast2 : cs.getLast? ≠ some leftBrace := by
      cases cs with
      | nil => simp
      | cons d ds =>
        intro hl
        apply hlast
        rw [List.getLast?_cons_cons]
        exact hl
    rw [List.cons_append]
    simp only [splitAtLeftDelim, if_neg hno, ih h.2 hlast2]

theorem lexFieldChain_run (unicodeLetterOrDigit : Char → Bool) (cs : List Char)
    (halnum : ∀ c ∈ cs, isAlphaNumeric unicodeLetterOrDigit c = true) :
    ∀ (chain : List String) (cur tail : List Char),
      lexFieldChain unicodeLetterOrDigit chain cur (cs ++ tail)
        = lexFieldChain unicodeLetterOrDigit chain (cs.reverse ++ cur) tail := by
  induction cs with
  | nil => intro chain cur tail; rfl
  | cons c cs ih =>
    intro chain cur tail
    have hc := halnum c (List.mem_cons_self _ _)
    rw [List.cons_append]
    simp only [lexFieldChain, hc, if_true]
    rw [ih (fun d hd => halnum d (List.mem_cons_of_mem _ hd))]
    simp

end FieldReferences

section ReferenceAction

theorem isAlphaNumeric_of_ascii (unicodeLetterOrDigit : Char → Bool) (c : Char)
    (h : (decide (c.toNat < 128) && (isLowerLetter c || isUpperLetter c || isDigit c)) = true) :
    isAlphaNumeric unicodeLetterOrDigit c = true := by
  rw [Bool.and_eq_true, decide_eq_true_eq] at h
  unfold isAlphaNumeric
  rw [if_pos h.1, h.2]
  simp

theorem not_isAlphaNumeric_of_ascii (unicodeLetterOrDigit : Char → Bool) (c : Char)
    (h : (decide (c.toNat < 128) && !(isLowerLetter c || isUpperLetter c || isDigit c)
      && !decide (c = '_')) = true) :
    isAlphaNumeric unicodeLetterOrDigit c = false := by
  simp only [Bool.and_eq_true, decide_eq_true_eq, Bool.not_eq_true', decide_eq_false_iff_not]
    at h
  unfold isAlphaNumeric
  rw [if_pos h.1.1, h.1.2]
  simp [h.2]

theorem isAlphaNumeric_Fields (unicodeLetterOrDigit : Char → Bool) :
    ∀ c ∈ "Fields".data, isAlphaNumeric unicodeLetterOrDigit c = true := by
  have hall : "Fields".data.all (fun c => decide (c.toNat < 128) &&
      (isLowerLetter c || isUpperLetter c || isDigit c)) = true := by decide
  intro c hc
  exact isAlphaNumeric_of_ascii unicodeLetterOrDigit c (List.all_eq_true.mp hall c hc)

/-- The action of a bare field reference, after its left delimiter: the chain
`Fields`, name, and the input after the right delimiter. -/
theorem parseAction_reference (unicodeLetterOrDigit : Char → Bool) (name : String)
    (rest : List Char) (hname : isFieldName unicodeLetterOrDigit name = true) :
    parseAction unicodeLetterOrDigit
        (' ' :: '.' :: ("Fields".data ++ '.' ::
          (name.data ++ ' ' :: rightBrace :: rightBrace :: rest)))
      = .nodes ("Fields", [name], rest) := by
  simp only [isFieldName, Bool.and_eq_true, decide_eq_true_eq, List.all_eq_true] at hname
  obtain ⟨⟨hne, halnum⟩, hdigit⟩ := hname
  have hdot : isAlphaNumeric unicodeLetterOrDigit '.' = false :=
    not_isAlphaNumeric_of_ascii unicodeLetterOrDigit '.' (by decide)
  have hblank : isAlphaNumeric unicodeLetterOrDigit ' ' = false :=
    not_isAlphaNumeric_of_ascii unicodeLetterOrDigit ' ' (by decide)
  have hspace : isTemplateSpace ' ' = true := by decide
  have hspaceDot : isTemplateSpace '.' = false := by decide
  have hspaceBrace : isTemplateSpace rightBrace = false := by decide
  have hblankDot : ¬ ' ' = '.' := by decide
  have hhead : (name.data ++ ' ' :: rightBrace :: rightBrace :: rest).head?.map isDigit
      ≠ some true := by
    cases hd : name.data with
    | nil => exact absurd hd hne
    | cons a as =>
      rw [hd] at hdigit
      simpa using hdigit
  have hcur : ¬ name.data.reverse ++ [] = [] := by
    simpa using hne
  have hchain : lexFieldChain unicodeLetterOrDigit [] [] ("Fields".data ++ '.' ::
      (name.data ++ ' ' :: rightBrace :: rightBrace :: rest))
      = .nodes (["Fields", name], ' ' :: rightBrace :: rightBrace :: rest) := by
    rw [lexFieldChain_run unicodeLetterOrDigit "Fields".data
      (isAlphaNumeric_Fields unicodeLetterOrDigit)]
    rw [lexFieldChain]
    simp only [hdot, Bool.false_eq_true, if_false]
    rw [if_neg (by decide)]
    simp only [if_true, if_neg hhead]
    rw [lexFieldChain_run unicodeLetterOrDigit name.data halnum]
    rw [lexFieldChain]
    simp only [hblank, Bool.false_eq_true, if_false]
    rw [if_neg hcur, if_neg hblankDot, if_pos (Or.inl hspace)]
    simp
  have hskip : skipSpaces (' ' :: '.' :: ("Fields".data ++ '.' ::
      (name.data ++ ' ' :: rightBrace :: rightBrace :: rest)))
      = '.' :: ("Fields".data ++ '.' ::
          (name.data ++ ' ' :: rightBrace :: rightBrace :: rest)) := by
    simp only [skipSpaces, hspace, hspaceDot, if_true, Bool.false_eq_true, if_false]
  have hskip2 : skipSpaces (' ' :: rightBrace :: rightBrace :: rest)
      = rightBrace :: rightBrace :: rest := by
    simp only [skipSpaces, hspace, hspaceBrace, if_true, Bool.false_eq_true, if_false]
  have hfirst : ("Fields".data ++ '.' ::
      (name.data ++ ' ' :: rightBrace :: rightBrace :: rest)).head?.map isDigit ≠ some true := by
    have hF : ("Fields".data ++ '.' ::
        (name.data ++ ' ' :: rightBrace :: rightBrace :: rest)).head? = some 'F' := rfl
    rw [hF]
    decide
  unfold parseAction
  rw [hskip]
  simp only [hfirst, ne_eq, not_false_eq_true, and_self, if_true, hchain, hskip2]

end ReferenceAction

section TemplateFragment

theorem templateSource_cons_data (piece : String × String) (pieces : List (String × String))
    ( final : String) :
    (templateSource (piece :: pieces) final).data
      = piece.1.data ++ leftBrace :: leftBrace :: ' ' :: '.' :: ("Fields".data ++ '.' ::
          (piece.2.data ++ ' ' :: rightBrace :: rightBrace ::
            (templateSource pieces final).data)) := by
  have hopen : "\x7b\x7b .Fields.".data
      = leftBrace :: leftBrace :: ' ' :: '.' :: ("Fields".data ++ ['.']) := by decide
  have hclose : " \x7d\x7d".data = [' ', rightBrace, rightBrace] := by decide
  show (piece.1 ++ fieldReference piece.2 ++ templateSource pieces final).data = _
  simp only [fieldReference, String.data_append, hopen, hclose, List.append_assoc,
    List.cons_append, List.nil_append]
  rfl

theorem templateRendering_cons_data (ctx : TemplateContext) (piece : String × String)
    (pieces : List (String × String)) ( final : String) :
    (templateRendering ctx (piece :: pieces) final).data
      = piece.1.data ++ ((referenceText ctx piece.2).data ++
          (templateRendering ctx pieces final).data) := by
  show (piece.1 ++ referenceText ctx piece.2
    ++ templateRendering ctx pieces final).data = _
  simp only [String.data_append, List.append_assoc]

theorem length_le_templateSource (pieces : List (String × String)) ( final : String) :
    pieces.length ≤ (templateSource pieces final).data.length := by
  induction pieces with
  | nil => exact Nat.zero_le _
  | cons piece rest ih =>
    rw [templateSource_cons_data]
    simp only [List.length_append, List.length_cons]
    omega

theorem execNodes_text (ctx : TemplateContext) (text : List Char) (nodes : List TemplateNode)
    (out : List Char) (h : execNodes ctx nodes = .ok out) :
    execNodes ctx ((if text = [] then [] else [TemplateNode.text text]) ++ nodes)
      = .ok (text ++ out) := by
  by_cases ht : text = []
  · rw [if_pos ht, ht]
    exact h
  · rw [if_neg ht]
    rw [List.singleton_append]
    simp only [execNodes, h]

/-- The template of pieces is parsed with any fuel above the number of its
references, and the nodes it gives are executed to the rendering. -/
theorem parse_exec_templateSource (unicodeLetterOrDigit : Char → Bool)
    (ctx : TemplateContext) ( final : String) (hfinal : hasLeftDelim final.data = false)
    (pieces : List (String × String)) :
    (∀ piece ∈ pieces, isLiteralBefore piece.1 = true) →
    (∀ piece ∈ pieces, isFieldName unicodeLetterOrDigit piece.2 = true) →
    ∀ fuel : Nat, pieces.length < fuel →
      ∃ nodes, parseNodes unicodeLetterOrDigit fuel (templateSource pieces final).data
          = .nodes nodes ∧
        execNodes ctx nodes = .ok (templateRendering ctx pieces final).data := by
  induction pieces with
  | nil =>
    intro _ _ fuel hfuel
    cases fuel with
    | zero => omega
    | succ f =>
      refine ⟨if final.data = [] then [] else [.text final.data], ?_, ?_⟩
      · show parseNodes unicodeLetterOrDigit (f + 1) final.data = _
        simp only [parseNodes, splitAtLeftDelim_literal final.data hfinal]
      · have h := execNodes_text ctx final.data [] [] rfl
        simpa using h
  | cons piece rest ih =>
    intro htext hname fuel hfuel
    cases fuel with
    | zero => omega
    | succ f =>
      have hlit := htext piece (List.mem_cons_self _ _)
      simp only [isLiteralBefore, Bool.and_eq_true, Bool.not_eq_true', decide_eq_true_eq]
        at hlit
      obtain ⟨nodes, hparse, hexec⟩ := ih
        (fun q hq => htext q (List.mem_cons_of_mem _ hq))
        (fun q hq => hname q (List.mem_cons_of_mem _ hq)) f
        (by simp only [List.length_cons] at hfuel; omega)
      refine ⟨(if piece.1.data = [] then [] else [.text piece.1.data]) ++
        .field "Fields" [piece.2] :: nodes, ?_, ?_⟩
      · rw [templateSource_cons_data]
        simp only [parseNodes, splitAtLeftDelim_before piece.1.data _ hlit.1 hlit.2,
          parseAction_reference unicodeLetterOrDigit piece.2 _
            (hname piece (List.mem_cons_self _ _)), hparse]
      · rw [templateRendering_cons_data]
        apply execNodes_text
        have hvalue : evalFieldChain ctx "Fields" [piece.2]
            = .ok (match GoMap.get ctx.Fields piece.2 with
              | some value => TemplateValue.text value
              | none => TemplateValue.invalid) := by
          simp only [evalFieldChain, if_true, evalKeys, evalField]
          cases GoMap.get ctx.Fields piece.2 <;> rfl
        have hprint : printValue (match GoMap.get ctx.Fields piece.2 with
              | some value => TemplateValue.text value
              | none => TemplateValue.invalid) = referenceText ctx piece.2 := by
          unfold referenceText
          cases GoMap.get ctx.Fields piece.2 <;> rfl
        simp only [execNodes, hvalue, hexec, hprint]

end TemplateFragment

/-! ## Stores that persist up to empty maps -/

section PersistingStores

theorem find_append_stored (objects : List Secret) (namespaceName name : String)
    (stored : Secret) (hstored : stored.Namespace = namespaceName ∧ stored.Name = name)
    (hnew : objects.any (fun o => o.Namespace = namespaceName ∧ o.Name = name) = false) :
    (objects ++ [stored]).find? (fun o => o.Namespace = namespaceName ∧ o.Name = name)
      = some stored := by
  induction objects with
  | nil => simp [hstored]
  | cons o os ih =>
    simp only [List.any_cons, Bool.or_eq_false_iff] at hnew
    simp only [List.cons_append, List.find?_cons, hnew.1]
    exact ih hnew.2

theorem find_map_stored (objects : List Secret) (namespaceName name : String)
    (stored : Secret) (hstored : stored.Namespace = namespaceName ∧ stored.Name = name)
    (hold : objects.any (fun o => o.Namespace = namespaceName ∧ o.Name = name) = true) :
    (objects.map (fun o =>
        if o.Namespace = namespaceName ∧ o.Name = name then stored else o)).find?
        (fun o => o.Namespace = namespaceName ∧ o.Name = name) = some stored := by
  induction objects with
  | nil => simp at hold
  | cons o os ih =>
    by_cases ho : o.Namespace = namespaceName ∧ o.Name = name
    · simp [List.map_cons, List.find?_cons, ho, hstored]
    · have hrest : os.any (fun o => o.Namespace = namespaceName ∧ o.Name = name) = true := by
        simp only [List.any_cons, Bool.or_eq_true] at hold
        rcases hold with h | h
        · exact absurd (of_decide_eq_true h) ho
        · exact h
      simp only [List.map_cons, if_neg ho, List.find?_cons, decide_eq_false ho]
      exact ih hrest

theorem defaultedType_idem (secretType : String) :
    defaultedType (defaultedType secretType) = defaultedType secretType := by
  unfold defaultedType
  by_cases h : secretType = ""
  · simp [h]
  · simp [h]

theorem persistedAs_storedObject (s : Secret) : PersistedAs s (storedObject s) :=
  ⟨defaultedType_idem s.Type_, Or.inr rfl, Or.inr rfl⟩

theorem apiStore_persists : Persists apiStore := by
  refine ⟨?_, ?_, ?_⟩
  · intro st namespaceName name s hget
    simp only [apiStore] at hget
    cases hfind : List.find? (fun o => decide (o.Namespace = namespaceName ∧ o.Name = name)) st with
    | none => rw [hfind] at hget; cases hget
    | some o =>
      rw [hfind] at hget
      have ho := List.find?_some hfind
      cases hget
      exact of_decide_eq_true ho
  · intro st s hcreate
    refine ⟨storedObject s, ?_, persistedAs_storedObject s⟩
    simp only [apiStore] at hcreate ⊢
    by_cases hany : st.any (fun o => o.Namespace = s.Namespace ∧ o.Name = s.Name) = true
    · rw [if_pos hany] at hcreate
      cases hcreate
    · rw [if_neg hany]
      rw [Bool.not_eq_true] at hany
      simp only [find_append_stored st s.Namespace s.Name (storedObject s) ⟨rfl, rfl⟩ hany]
  · intro st s hupdate
    refine ⟨storedObject s, ?_, persistedAs_storedObject s⟩
    simp only [apiStore] at hupdate ⊢
    by_cases hany : st.any (fun o => o.Namespace = s.Namespace ∧ o.Name = s.Name) = true
    · rw [if_pos hany]
      simp only [find_map_stored st s.Namespace s.Name (storedObject s) ⟨rfl, rfl⟩ hany]
    · rw [if_neg hany] at hupdate
      cases hupdate

/-- A store that hands objects back unchanged persists them. -/
theorem persists_of_faithful (client : KubeClient) (h : Faithful client) : Persists client :=
  ⟨h.1,
    fun st s hok => ⟨s, h.2.1 st s hok, rfl, Or.inl rfl, Or.inl rfl⟩,
    fun st s hok => ⟨s, h.2.2 st s hok, rfl, Or.inl rfl, Or.inl rfl⟩⟩

theorem secretAnnotationsOf_ne_nil (secretName : String) (item : Item) (autoRestart : String)
    (secretAnnotations : Option (GoMap String)) (anns : GoMap String)
    (h : secretAnnotationsOf secretName item autoRestart secretAnnotations = .ok anns) :
    anns ≠ [] := by
  intro hnil
  have hget := secretAnnotationsOf_get secretName item autoRestart secretAnnotations anns h
    VersionAnnotation
  rw [hnil, if_pos rfl] at hget
  cases hget

theorem storedMap_of_ne (m : Option (GoMap String)) (h : m ≠ some []) : storedMap m = m := by
  cases m with
  | none => rfl
  | some x =>
    cases x with
    | nil => exact absurd rfl h
    | cons e es => rfl

/-- What a persisting store hands back for an object whose annotations hold an
entry and whose labels the store returns as given: an object of the same
defaulted type with the same annotations and labels. -/
theorem persisted_maps (given got : Secret) (anns : GoMap String)
    (hanns : given.Annotations = some anns) (hne : anns ≠ [])
    (hlabels : given.Labels ≠ some []) (h : PersistedAs given got) :
    defaultedType got.Type_ = defaultedType given.Type_ ∧
      got.Annotations = some anns ∧ got.Labels = given.Labels := by
  obtain ⟨htype, hA, hL⟩ := h
  have hA2 : storedMap given.Annotations = given.Annotations :=
    storedMap_of_ne _ (by rw [hanns]; intro hc; exact hne (List.eq_nil_of_length_eq_zero
      (by rw [Option.some.inj hc]; rfl)))
  have hL2 : storedMap given.Labels = given.Labels := storedMap_of_ne _ hlabels
  refine ⟨htype, ?_, ?_⟩
  · rcases hA with h1 | h1
    · rw [h1, hanns]
    · rw [h1, hA2, hanns]
  · rcases hL with h1 | h1
    · exact h1
    · rw [h1, hL2]

end PersistingStores

/-! ## Theorems -/

/-- C2: `formatSecretName` is idempotent: applying it to its own result gives
that result again, for every input text (empty, over-long, with upper-case or
non-ASCII characters, or with a sanitised form that is still not a valid
subdomain name). -/
theorem formatSecretName_idempotent (x : String) :
    formatSecretName (formatSecretName x) = formatSecretName x := by
  by_cases hx : (IsDNS1123Subdomain x).length = 0
  · have h : formatSecretName x = x := by simp [formatSecretName, hx]
    rw [h, h]
  · have h : formatSecretName x = createValidSecretName x := by simp [formatSecretName, hx]
    rw [h]
    have hfix := createValidSecretName_fixed (createValidSecretName x)
      (createValidSecretName_chars x) (createValidSecretName_length x)
      (createValidSecretName_head x) (createValidSecretName_getLast x)
    unfold formatSecretName
    split
    · rfl
    · exact hfix

/-- C1 (failing input): the payload built by `BuildKubernetesSecretData` can
hold keys that the data-key validation rejects.  A field with the empty label
gives the empty key, a file named `my file.txt` gives that name as it is, and a
template key `***` gives the empty key as well. -/
theorem BuildKubernetesSecretData_invalid_keys :
    GoMap.keys (BuildKubernetesSecretData literalTemplates
        (itemOf [fieldOf "" "hunter2"]
          [{ ID := "file-1", Name := "my file.txt", Size := 2, content := .ok (some [104, 105]) }])
        none none) = ["", "my file.txt"] ∧
      IsConfigMapKey "" ≠ [] ∧ IsConfigMapKey "my file.txt" ≠ [] ∧
      GoMap.keys (BuildKubernetesSecretData literalTemplates (itemOf [] [])
        (some ⟨some [("***", "text")]⟩) none) = [""] := by
  decide

/-- C3 (failing input): `formatSecretName` can return a name that the DNS-1123
subdomain validation rejects: `prod_.db` becomes `prod-.db`, whose first label
has `-` as its last character, and this is the name of the Secret that
`BuildKubernetesSecretFromOnePasswordItem` builds. -/
theorem formatSecretName_not_subdomain :
    formatSecretName "prod_.db" = "prod-.db" ∧ IsDNS1123Subdomain "prod-.db" ≠ [] ∧
      (BuildKubernetesSecretFromOnePasswordItem literalTemplates "prod_.db" "default" none none
        "Opaque" (itemOf [] []) none none none).Name = "prod-.db" := by
  decide

/-- C4: `formatSecretDataName` equals the reference definition
`formatSecretDataNameSpec` on every input, and it never changes the case of a
character: apart from the `-` it inserts, the characters of its result are
characters of the input, in their order. -/
theorem formatSecretDataName_eq_reference (value : String) :
    formatSecretDataName value = formatSecretDataNameSpec value ∧
      ((formatSecretDataName value).data.filter (fun c => c ≠ '-')).Sublist value.data := by
  by_cases hkey : (IsConfigMapKey value).length = 0
  · have hv := valid_of_isConfigMapKey value hkey
    have h1 : formatSecretDataName value = value := by simp [formatSecretDataName, hkey]
    constructor
    · have hc : (value.data.all isDataKeyChar && decide (value.data.length ≤ 253)) = true := by
        rw [Bool.and_eq_true]; exact ⟨hv.1, decide_eq_true hv.2⟩
      rw [h1]
      unfold formatSecretDataNameSpec
      rw [if_pos hc]
    · rw [h1]
      exact List.filter_sublist _
  · have h1 : formatSecretDataName value = createValidSecretDataName value := by
      simp [formatSecretDataName, hkey]
    constructor
    · rw [h1]
      by_cases hspec : value.data.all isDataKeyChar = true ∧ value.data.length ≤ 253
      · have hc : (value.data.all isDataKeyChar && decide (value.data.length ≤ 253)) = true := by
          rw [Bool.and_eq_true]; exact ⟨hspec.1, decide_eq_true hspec.2⟩
        rw [createValidSecretDataName_of_valid value hspec.1 hspec.2]
        unfold formatSecretDataNameSpec
        rw [if_pos hc]
      · rw [createValidSecretDataName_eq_spec]
        unfold formatSecretDataNameSpec
        rw [if_neg]
        intro hc
        rw [Bool.and_eq_true] at hc
        exact hspec ⟨hc.1, of_decide_eq_true hc.2⟩
    · rw [h1]
      exact createValidSecretDataName_filter_sublist value

/-- C5 (counterexample): with an image-pull configuration and a template both
given, the payload is not always the single key `.dockerconfigjson`: for an
item without a registry field the image-pull build fails and the template key
`config.yaml` is produced instead. -/
theorem imagePull_and_template_counterexample :
    GoMap.keys (BuildKubernetesSecretData literalTemplates
        (itemOf [fieldOf "username" "alice", fieldOf "password" "s3cret"] [])
        (some ⟨some [("config.yaml", "mode: dev")]⟩) (some plainImagePullConfig))
        ≠ [".dockerconfigjson"] ∧
      GoMap.keys (BuildKubernetesSecretData literalTemplates
        (itemOf [fieldOf "username" "alice", fieldOf "password" "s3cret"] [])
        (some ⟨some [("config.yaml", "mode: dev")]⟩) (some plainImagePullConfig))
        = ["config.yaml"] := by
  decide

/-- C5 (amended): when an image-pull configuration and a template are both
given and the item's last-wins values of the configured registry, username and
password labels are all non-empty, the payload has exactly one key,
`.dockerconfigjson`. -/
theorem imagePull_wins_over_template (lib : TextTemplate) (item : Item)
    (secretTemplate : SecretTemplate) (cfg : ImagePullSecretConfig)
    (hr : lastFieldValue item.Fields cfg.RegistryField ≠ "")
    (hu : lastFieldValue item.Fields cfg.UsernameField ≠ "")
    (hp : lastFieldValue item.Fields cfg.PasswordField ≠ "") :
    GoMap.keys (BuildKubernetesSecretData lib item (some secretTemplate) (some cfg))
      = [".dockerconfigjson"] := by
  obtain ⟨doc, hdoc⟩ := BuildDockerConfigJSON_ok _ _ _
    (lastFieldValue item.Fields cfg.EmailField) hr hu hp
  simp only [BuildKubernetesSecretData, Option.bind, imagePullSecretData_eq, hdoc]
  rfl

/-- C5 (amended), at an item that carries the three required fields. -/
theorem imagePull_wins_over_template_witness :
    lastFieldValue [fieldOf "registry" "docker.io", fieldOf "username" "alice",
        fieldOf "password" "s3cret"] "registry" ≠ "" ∧
      GoMap.keys (BuildKubernetesSecretData literalTemplates
        (itemOf [fieldOf "registry" "docker.io", fieldOf "username" "alice",
          fieldOf "password" "s3cret"] [])
        (some ⟨some [("config.yaml", "mode: dev")]⟩) (some plainImagePullConfig))
        = [".dockerconfigjson"] :=
  ⟨by decide, imagePull_wins_over_template literalTemplates
    (itemOf [fieldOf "registry" "docker.io", fieldOf "username" "alice",
      fieldOf "password" "s3cret"] [])
    ⟨some [("config.yaml", "mode: dev")]⟩ plainImagePullConfig
    (by decide) (by decide) (by decide)⟩

/-- C6: when an image-pull configuration is given and the last-wins values of
the configured registry, username and password labels are non-empty,
`BuildDockerConfigJSON` succeeds on the four last-wins values and the payload
is the single entry `.dockerconfigjson` holding its document, whatever the
template library, the template and the item's files are. -/
theorem imagePull_payload (item : Item) (cfg : ImagePullSecretConfig)
    (hr : lastFieldValue item.Fields cfg.RegistryField ≠ "")
    (hu : lastFieldValue item.Fields cfg.UsernameField ≠ "")
    (hp : lastFieldValue item.Fields cfg.PasswordField ≠ "") :
    ∃ doc,
      BuildDockerConfigJSON (lastFieldValue item.Fields cfg.RegistryField)
        (lastFieldValue item.Fields cfg.UsernameField)
        (lastFieldValue item.Fields cfg.PasswordField)
        (lastFieldValue item.Fields cfg.EmailField) = .ok doc ∧
      ∀ (lib : TextTemplate) (secretTemplate : Option SecretTemplate) (files : List File),
        BuildKubernetesSecretData lib { item with Files := files } secretTemplate (some cfg)
          = [(".dockerconfigjson", doc)] := by
  obtain ⟨doc, hdoc⟩ := BuildDockerConfigJSON_ok _ _ _
    (lastFieldValue item.Fields cfg.EmailField) hr hu hp
  refine ⟨doc, hdoc, ?_⟩
  intro lib secretTemplate files
  simp only [BuildKubernetesSecretData, Option.bind, imagePullSecretData_eq, hdoc]
  rfl

/-- C6, at an item with two `password` fields: the later one is used. -/
theorem imagePull_payload_witness :
    lastFieldValue [fieldOf "registry" "docker.io", fieldOf "username" "alice",
        fieldOf "password" "first", fieldOf "password" "second"] "password" = "second" ∧
      ∃ doc,
        BuildDockerConfigJSON "docker.io" "alice" "second" "" = .ok doc ∧
        ∀ (lib : TextTemplate) (secretTemplate : Option SecretTemplate) (files : List File),
          BuildKubernetesSecretData lib
            (itemOf [fieldOf "registry" "docker.io", fieldOf "username" "alice",
              fieldOf "password" "first", fieldOf "password" "second"] files)
            secretTemplate (some plainImagePullConfig) = [(".dockerconfigjson", doc)] :=
  ⟨by decide, imagePull_payload
    (itemOf [fieldOf "registry" "docker.io", fieldOf "username" "alice",
      fieldOf "password" "first", fieldOf "password" "second"] [])
    plainImagePullConfig (by decide) (by decide) (by decide)⟩

/-- C7: when an image-pull configuration is given but the last-wins value of the
configured registry, username or password label is empty, `BuildDockerConfigJSON`
fails, the image-pull strategy produces no payload, and
`BuildKubernetesSecretData` returns what it returns without the
configuration. -/
theorem imagePull_failure_falls_through (lib : TextTemplate) (item : Item)
    (secretTemplate : Option SecretTemplate) (cfg : ImagePullSecretConfig)
    (h : lastFieldValue item.Fields cfg.RegistryField = "" ∨
      lastFieldValue item.Fields cfg.UsernameField = "" ∨
      lastFieldValue item.Fields cfg.PasswordField = "") :
    (∃ msg, BuildDockerConfigJSON (lastFieldValue item.Fields cfg.RegistryField)
        (lastFieldValue item.Fields cfg.UsernameField)
        (lastFieldValue item.Fields cfg.PasswordField)
        (lastFieldValue item.Fields cfg.EmailField) = .error msg) ∧
      imagePullSecretData item cfg [] = none ∧
      BuildKubernetesSecretData lib item secretTemplate (some cfg)
        = BuildKubernetesSecretData lib item secretTemplate none := by
  obtain ⟨msg, hmsg⟩ := BuildDockerConfigJSON_error _ _ _
    (lastFieldValue item.Fields cfg.EmailField) h
  refine ⟨⟨msg, hmsg⟩, ?_, ?_⟩
  · rw [imagePullSecretData_eq, hmsg]
  · simp only [BuildKubernetesSecretData, Option.bind, imagePullSecretData_eq, hmsg]

/-- C7, at an item without a registry field and with a template. -/
theorem imagePull_failure_falls_through_witness :
    (lastFieldValue [fieldOf "username" "alice", fieldOf "password" "s3cret"] "registry" = "" ∨
        lastFieldValue [fieldOf "username" "alice", fieldOf "password" "s3cret"] "username" = "" ∨
        lastFieldValue [fieldOf "username" "alice", fieldOf "password" "s3cret"] "password" = "") ∧
      BuildKubernetesSecretData literalTemplates
          (itemOf [fieldOf "username" "alice", fieldOf "password" "s3cret"] [])
          (some ⟨some [("config.yaml", "mode: dev")]⟩) (some plainImagePullConfig)
        = BuildKubernetesSecretData literalTemplates
          (itemOf [fieldOf "username" "alice", fieldOf "password" "s3cret"] [])
          (some ⟨some [("config.yaml", "mode: dev")]⟩) none :=
  ⟨by decide, (imagePull_failure_falls_through literalTemplates
    (itemOf [fieldOf "username" "alice", fieldOf "password" "s3cret"] [])
    (some ⟨some [("config.yaml", "mode: dev")]⟩) plainImagePullConfig (by decide)).2.2⟩

/-- C8 (counterexample): a template that is given but declares no pairs does
not make `BuildKubernetesSecretData` return the default field mapping: its
`Data` map is not nil, the template strategy runs over no pair and the payload
is empty, while the default mapping of the item has the key `password`. -/
theorem empty_template_counterexample :
    BuildKubernetesSecretData literalTemplates (itemOf [fieldOf "password" "s3cret"] [])
        (some ⟨some []⟩) none = [] ∧
      BuildKubernetesSecretData literalTemplates (itemOf [fieldOf "password" "s3cret"] [])
        none none = [("password", stringToBytes "s3cret")] ∧
      BuildKubernetesSecretData literalTemplates (itemOf [fieldOf "password" "s3cret"] [])
          (some ⟨some []⟩) none
        ≠ BuildKubernetesSecretData literalTemplates (itemOf [fieldOf "password" "s3cret"] [])
          none none := by
  decide

/-- C8 (amended): with no image-pull configuration the template strategy is
active exactly when a template with a non-nil `Data` map is given.  A template
with a nil `Data` gives the payload of no template, the default field mapping:
every formatted field label is a key of it, and each of its keys is a formatted
field label or a file name.  A template with a non-nil `Data` gives
template-derived keys only, and none at all when `Data` has no pair. -/
theorem template_strategy_gate (lib : TextTemplate) (item : Item) :
    BuildKubernetesSecretData lib item (some ⟨none⟩) none
        = BuildKubernetesSecretData lib item none none ∧
      (∀ f ∈ item.Fields,
        formatSecretDataName f.Label ∈ GoMap.keys (BuildKubernetesSecretData lib item none none)) ∧
      (∀ k ∈ GoMap.keys (BuildKubernetesSecretData lib item none none),
        (∃ f ∈ item.Fields, formatSecretDataName f.Label = k) ∨
          ∃ file ∈ item.Files, file.Name = k) ∧
      (∀ (data : GoMap String),
        ∀ k ∈ GoMap.keys (BuildKubernetesSecretData lib item (some ⟨some data⟩) none),
          ∃ kv ∈ data, formatSecretDataName kv.1 = k ∧
            ∃ v, ProcessTemplate lib kv.2 (BuildTemplateContext item) = .ok v) ∧
      BuildKubernetesSecretData lib item (some ⟨some []⟩) none = [] := by
  refine ⟨rfl, ?_, ?_, ?_, rfl⟩
  · intro f hf
    obtain ⟨pre, g, post, h1, h2, h3⟩ := exists_last_with_key
      (fun x : ItemField => formatSecretDataName x.Label) item.Fields
      (formatSecretDataName f.Label) ⟨f, hf, rfl⟩
    refine (GoMap.mem_keys_iff _ _).mpr ⟨stringToBytes g.Value, ?_⟩
    rw [default_payload_eq, h1]
    exact get_fileSecretData_of_some _ _ _ _ (get_fieldSecretData_last pre post g _ h2 h3)
  · intro k hk
    obtain ⟨v, hv⟩ := (GoMap.mem_keys_iff _ _).mp hk
    rw [default_payload_eq] at hv
    rcases get_fileSecretData_source _ _ _ _ hv with h1 | h1
    · exact Or.inl (get_fieldSecretData_source _ _ _ h1)
    · exact Or.inr h1
  · intro data k hk
    obtain ⟨v, hv⟩ := (GoMap.mem_keys_iff _ _).mp hk
    have hv2 : GoMap.get (templateSecretData lib item data []) k = some v := hv
    rcases templateSecretData_source lib item data [] k v hv2 with h1 | ⟨kv, hkv, hk1, hk2⟩
    · simp [GoMap.get] at h1
    · exact ⟨kv, hkv, hk1, v, hk2⟩

/-- C8 (amended), at an item with a field `db password` and a file. -/
theorem template_strategy_gate_witness :
    fieldOf "db password" "s3cret" ∈ (itemOf [fieldOf "db password" "s3cret"]
        [{ ID := "file-1", Name := "ca.pem", Size := 2, content := .ok (some [104, 105]) }]).Fields ∧
      formatSecretDataName (fieldOf "db password" "s3cret").Label ∈
        GoMap.keys (BuildKubernetesSecretData literalTemplates
          (itemOf [fieldOf "db password" "s3cret"]
            [{ ID := "file-1", Name := "ca.pem", Size := 2, content := .ok (some [104, 105]) }])
          none none) ∧
      GoMap.keys (BuildKubernetesSecretData literalTemplates
          (itemOf [fieldOf "db password" "s3cret"]
            [{ ID := "file-1", Name := "ca.pem", Size := 2, content := .ok (some [104, 105]) }])
          none none) = ["db-password", "ca.pem"] :=
  ⟨by decide,
    (template_strategy_gate literalTemplates
      (itemOf [fieldOf "db password" "s3cret"]
        [{ ID := "file-1", Name := "ca.pem", Size := 2, content := .ok (some [104, 105]) }])).2.1
      (fieldOf "db password" "s3cret") (by decide),
    by decide⟩

/-- C9: under the template strategy (no image-pull configuration, a template
with a non-nil `Data`), when the keys of the template have pairwise distinct
`formatSecretDataName` images, the payload has an entry `k ↦ v` exactly when
some pair `(key, template)` has `formatSecretDataName key = k` and
`ProcessTemplate` renders the template to `v` against the context of the item;
a pair whose template fails contributes nothing, no default entry is added, and
the payload is empty when every template fails. -/
theorem template_payload (lib : TextTemplate) (item : Item) (data : GoMap String)
    (hnd : (data.map (fun kv => formatSecretDataName kv.1)).Nodup) :
    (∀ (k : String) (v : Bytes),
        GoMap.get (BuildKubernetesSecretData lib item (some ⟨some data⟩) none) k = some v ↔
          ∃ kv ∈ data, formatSecretDataName kv.1 = k ∧
            ProcessTemplate lib kv.2 (BuildTemplateContext item) = .ok v) ∧
      ((∀ kv ∈ data, ∃ msg,
          ProcessTemplate lib kv.2 (BuildTemplateContext item) = .error msg) →
        BuildKubernetesSecretData lib item (some ⟨some data⟩) none = []) := by
  have hbuild : BuildKubernetesSecretData lib item (some ⟨some data⟩) none
      = templateSecretData lib item data [] := rfl
  rw [hbuild]
  constructor
  · intro k v
    constructor
    · intro h
      rcases templateSecretData_source lib item data [] k v h with h1 | h1
      · simp [GoMap.get] at h1
      · exact h1
    · rintro ⟨kv, hkv, hk, hv⟩
      rw [← hk]
      exact templateSecretData_of_ok lib item data hnd [] kv hkv v hv
  · intro hall
    exact templateSecretData_all_fail lib item data [] hall

/-- C9, at a template with one literal text and one malformed template: only
the first key is in the payload. -/
theorem template_payload_witness :
    ([("app config", "mode: dev"), ("broken", "\x7b\x7b")].map
        (fun kv => formatSecretDataName kv.1)).Nodup ∧
      BuildKubernetesSecretData literalTemplates (itemOf [fieldOf "password" "s3cret"] [])
        (some ⟨some [("app config", "mode: dev"), ("broken", "\x7b\x7b")]⟩) none
        = [("app-config", stringToBytes "mode: dev")] ∧
      (GoMap.get (BuildKubernetesSecretData literalTemplates
          (itemOf [fieldOf "password" "s3cret"] [])
          (some ⟨some [("app config", "mode: dev"), ("broken", "\x7b\x7b")]⟩) none) "app-config"
          = some (stringToBytes "mode: dev") ↔
        ∃ kv ∈ [("app config", "mode: dev"), ("broken", "\x7b\x7b")],
          formatSecretDataName kv.1 = "app-config" ∧
            ProcessTemplate literalTemplates kv.2
              (BuildTemplateContext (itemOf [fieldOf "password" "s3cret"] []))
              = .ok (stringToBytes "mode: dev")) :=
  ⟨by decide, by decide,
    (template_payload literalTemplates (itemOf [fieldOf "password" "s3cret"] [])
      [("app config", "mode: dev"), ("broken", "\x7b\x7b")] (by decide)).1 "app-config"
      (stringToBytes "mode: dev")⟩

/-- C10: under the default strategy (no image-pull configuration, no template),
for every field `f` of the item the payload has the key
`formatSecretDataName f.Label`, and its value is the bytes of the value of the
last field, in field order, whose label is formatted to that key. -/
theorem default_payload_last_wins (lib : TextTemplate) (item : Item) (f : ItemField)
    (hf : f ∈ item.Fields) :
    ∃ pre g post, item.Fields = pre ++ g :: post ∧
      formatSecretDataName g.Label = formatSecretDataName f.Label ∧
      (∀ h ∈ post, formatSecretDataName h.Label ≠ formatSecretDataName f.Label) ∧
      GoMap.get (BuildKubernetesSecretData lib item none none) (formatSecretDataName f.Label)
        = some (stringToBytes g.Value) := by
  -- the last field whose formatted label is the key of `f`
  obtain ⟨pre, g, post, h1, h2, h3⟩ := exists_last_with_key
    (fun x : ItemField => formatSecretDataName x.Label) item.Fields
    (formatSecretDataName f.Label) ⟨f, hf, rfl⟩
  refine ⟨pre, g, post, h1, h2, h3, ?_⟩
  -- the field loop leaves its value under the key, the file loop keeps it
  rw [default_payload_eq, h1]
  exact get_fileSecretData_of_some _ _ _ _ (get_fieldSecretData_last pre post g _ h2 h3)

/-- C10, at two fields labelled `password` with the values `first` and
`second`: the payload has `password ↦ second`. -/
theorem default_payload_last_wins_witness :
    fieldOf "password" "first" ∈
        (itemOf [fieldOf "password" "first", fieldOf "password" "second"] []).Fields ∧
      (∃ pre g post,
        (itemOf [fieldOf "password" "first", fieldOf "password" "second"] []).Fields
          = pre ++ g :: post ∧
        formatSecretDataName g.Label = formatSecretDataName (fieldOf "password" "first").Label ∧
        (∀ h ∈ post,
          formatSecretDataName h.Label ≠ formatSecretDataName (fieldOf "password" "first").Label) ∧
        GoMap.get (BuildKubernetesSecretData literalTemplates
            (itemOf [fieldOf "password" "first", fieldOf "password" "second"] []) none none)
            (formatSecretDataName (fieldOf "password" "first").Label)
          = some (stringToBytes g.Value)) ∧
      GoMap.get (BuildKubernetesSecretData literalTemplates
          (itemOf [fieldOf "password" "first", fieldOf "password" "second"] []) none none)
          "password" = some (stringToBytes "second") :=
  ⟨by decide,
    default_payload_last_wins literalTemplates
      (itemOf [fieldOf "password" "first", fieldOf "password" "second"] [])
      (fieldOf "password" "first") (by decide),
    by decide⟩

/-- C11: under the default strategy files never override fields and never abort
the synthesis.  An entry left by the field loop is in the payload as it is (an
empty value too); an entry under a key that no field produced holds the content
of a file of exactly that name; the first file of a name that no field produced,
when its content loads, is inserted; and a file whose content fails to load is
skipped: the payload is the one of the item without that file. -/
theorem default_payload_files (lib : TextTemplate) (item : Item) :
    (∀ (k : String) (v : Bytes), GoMap.get (fieldSecretData item.Fields []) k = some v →
        GoMap.get (BuildKubernetesSecretData lib item none none) k = some v) ∧
      (∀ (k : String) (v : Bytes), (∀ g ∈ item.Fields, formatSecretDataName g.Label ≠ k) →
        GoMap.get (BuildKubernetesSecretData lib item none none) k = some v →
        ∃ file ∈ item.Files, file.Name = k ∧ file.Content = .ok (some v)) ∧
      (∀ (pre : List File) (f : File) (post : List File) (c : Bytes),
        item.Files = pre ++ f :: post → f.Content = .ok (some c) →
        (∀ g ∈ item.Fields, formatSecretDataName g.Label ≠ f.Name) →
        (∀ h ∈ pre, h.Name ≠ f.Name) →
        GoMap.get (BuildKubernetesSecretData lib item none none) f.Name = some c) ∧
      (∀ (pre : List File) (f : File) (post : List File) (e : String),
        item.Files = pre ++ f :: post → f.Content = .error e →
        BuildKubernetesSecretData lib item none none
          = BuildKubernetesSecretData lib { item with Files := pre ++ post } none none) := by
  refine ⟨?_, ?_, ?_, ?_⟩
  · intro k v hfield
    rw [default_payload_eq]
    exact get_fileSecretData_of_some _ _ _ _ hfield
  · intro k v hno hget
    rw [default_payload_eq] at hget
    exact get_fileSecretData_inserted _ _ _ _ (get_fieldSecretData_of_not_mem _ _ hno) hget
  · intro pre f post c hfiles hcontent hno hpre
    rw [default_payload_eq, hfiles, fileSecretData_append, fileSecretData_cons, hcontent]
    apply get_fileSecretData_of_some
    have hbefore : GoMap.get (fileSecretData pre (fieldSecretData item.Fields [])) f.Name
        = none := by
      rw [get_fileSecretData_of_not_mem _ _ _ hpre]
      exact get_fieldSecretData_of_not_mem _ _ hno
    simp only [hbefore, Option.isNone_none, if_true]
    exact GoMap.get_set_self _ _ _
  · intro pre f post e hfiles hcontent
    rw [default_payload_eq, default_payload_eq, hfiles]
    simp only []
    rw [fileSecretData_append, fileSecretData_cons, hcontent, fileSecretData_append]

/-- C11, at an item with a field `ca.pem` of empty value, a file `ca.pem`, a
file `tls.key` that fails to load and a file `tls.crt`: the field keeps its empty
value, the failing file is skipped and `tls.crt` is inserted. -/
theorem default_payload_files_witness :
    BuildKubernetesSecretData literalTemplates
        (itemOf [fieldOf "ca.pem" ""]
          [{ ID := "file-1", Name := "ca.pem", Size := 2, content := .ok (some [104, 105]) },
            { ID := "file-2", Name := "tls.key", Size := 9, content := .error "not found" },
            { ID := "file-3", Name := "tls.crt", Size := 1, content := .ok (some [120]) }])
        none none = [("ca.pem", []), ("tls.crt", [120])] ∧
      BuildKubernetesSecretData literalTemplates
        (itemOf [fieldOf "ca.pem" ""]
          [{ ID := "file-1", Name := "ca.pem", Size := 2, content := .ok (some [104, 105]) },
            { ID := "file-2", Name := "tls.key", Size := 9, content := .error "not found" },
            { ID := "file-3", Name := "tls.crt", Size := 1, content := .ok (some [120]) }])
        none none
        = BuildKubernetesSecretData literalTemplates
          { itemOf [fieldOf "ca.pem" ""]
              [{ ID := "file-1", Name := "ca.pem", Size := 2, content := .ok (some [104, 105]) },
                { ID := "file-2", Name := "tls.key", Size := 9, content := .error "not found" },
                { ID := "file-3", Name := "tls.crt", Size := 1, content := .ok (some [120]) }]
            with Files :=
              [{ ID := "file-1", Name := "ca.pem", Size := 2, content := .ok (some [104, 105]) }]
                ++ [{ ID := "file-3", Name := "tls.crt", Size := 1, content := .ok (some [120]) }] }
          none none :=
  ⟨by decide,
    (default_payload_files literalTemplates
      (itemOf [fieldOf "ca.pem" ""]
        [{ ID := "file-1", Name := "ca.pem", Size := 2, content := .ok (some [104, 105]) },
          { ID := "file-2", Name := "tls.key", Size := 9, content := .error "not found" },
          { ID := "file-3", Name := "tls.crt", Size := 1, content := .ok (some [120]) }])).2.2.2
      [{ ID := "file-1", Name := "ca.pem", Size := 2, content := .ok (some [104, 105]) }]
      { ID := "file-2", Name := "tls.key", Size := 9, content := .error "not found" }
      [{ ID := "file-3", Name := "tls.crt", Size := 1, content := .ok (some [120]) }]
      "not found" rfl rfl⟩

/-- C12: `BuildDockerConfigJSON` fails exactly when the registry, the username
or the password is empty; a failure carries no bytes and its error names the
first empty argument in the order registry, username, password, with three
distinct messages; the email never decides between success and failure. -/
theorem BuildDockerConfigJSON_fails_iff (registry username password email : String) :
    ((∃ msg, BuildDockerConfigJSON registry username password email = .error msg) ↔
        (registry = "" ∨ username = "" ∨ password = "")) ∧
      (registry = "" →
        BuildDockerConfigJSON registry username password email
          = .error "registry cannot be empty") ∧
      (registry ≠ "" → username = "" →
        BuildDockerConfigJSON registry username password email
          = .error "username cannot be empty") ∧
      (registry ≠ "" → username ≠ "" → password = "" →
        BuildDockerConfigJSON registry username password email
          = .error "password cannot be empty") ∧
      ("registry cannot be empty" ≠ "username cannot be empty" ∧
        "registry cannot be empty" ≠ "password cannot be empty" ∧
        "username cannot be empty" ≠ "password cannot be empty") ∧
      (∀ email' : String,
        (∃ doc, BuildDockerConfigJSON registry username password email = .ok doc) ↔
          (∃ doc, BuildDockerConfigJSON registry username password email' = .ok doc)) := by
  refine ⟨⟨?_, BuildDockerConfigJSON_error _ _ _ _⟩, ?_, ?_, ?_, by decide, ?_⟩
  · rintro ⟨msg, hmsg⟩
    by_cases hr : registry = ""
    · exact Or.inl hr
    · by_cases hu : username = ""
      · exact Or.inr (Or.inl hu)
      · by_cases hp : password = ""
        · exact Or.inr (Or.inr hp)
        · obtain ⟨doc, hdoc⟩ := BuildDockerConfigJSON_ok registry username password email hr hu hp
          rw [hdoc] at hmsg
          cases hmsg
  · intro hr
    unfold BuildDockerConfigJSON
    rw [if_pos hr]
  · intro hr hu
    unfold BuildDockerConfigJSON
    rw [if_neg hr, if_pos hu]
  · intro hr hu hp
    unfold BuildDockerConfigJSON
    rw [if_neg hr, if_neg hu, if_pos hp]
  · intro email'
    have key : ∀ e1 e2 : String,
        (∃ doc, BuildDockerConfigJSON registry username password e1 = .ok doc) →
          ∃ doc, BuildDockerConfigJSON registry username password e2 = .ok doc := by
      rintro e1 e2 ⟨doc, hdoc⟩
      by_cases hempty : registry = "" ∨ username = "" ∨ password = ""
      · obtain ⟨msg, hmsg⟩ := BuildDockerConfigJSON_error registry username password e1 hempty
        rw [hmsg] at hdoc
        cases hdoc
      · simp only [not_or] at hempty
        exact BuildDockerConfigJSON_ok registry username password e2 hempty.1 hempty.2.1
          hempty.2.2
    exact ⟨key email email', key email' email⟩

/-- C12, at an empty username next to an empty password: the error names the
username. -/
theorem BuildDockerConfigJSON_fails_iff_witness :
    "docker.io" ≠ "" ∧ ("" : String) = "" ∧
      BuildDockerConfigJSON "docker.io" "" "" "user@example.com"
        = .error "username cannot be empty" :=
  ⟨by decide, rfl,
    (BuildDockerConfigJSON_fails_iff "docker.io" "" "" "user@example.com").2.2.1
      (by decide) rfl⟩

/-- C14: the `Fields` view of `BuildTemplateContext` has exactly the labels of
the item's fields as its keys, and maps each label to the value of the last
field, in field order, that carries it; it depends on nothing but the sequence
of labels and values, so not on the sections of the item or of its fields. -/
theorem context_fields_last_wins (item : Item) :
    (∀ k : String, k ∈ GoMap.keys (BuildTemplateContext item).Fields ↔
        ∃ f ∈ item.Fields, f.Label = k) ∧
      (∀ f ∈ item.Fields, ∃ pre g post, item.Fields = pre ++ g :: post ∧
        g.Label = f.Label ∧ (∀ h ∈ post, h.Label ≠ f.Label) ∧
        GoMap.get (BuildTemplateContext item).Fields f.Label = some g.Value) ∧
      (∀ item' : Item,
        item'.Fields.map (fun f => (f.Label, f.Value))
          = item.Fields.map (fun f => (f.Label, f.Value)) →
        (BuildTemplateContext item').Fields = (BuildTemplateContext item).Fields) := by
  have hlast : ∀ f ∈ item.Fields, ∃ pre g post, item.Fields = pre ++ g :: post ∧
      g.Label = f.Label ∧ (∀ h ∈ post, h.Label ≠ f.Label) ∧
      GoMap.get (BuildTemplateContext item).Fields f.Label = some g.Value := by
    intro f hf
    obtain ⟨pre, g, post, h1, h2, h3⟩ := exists_last_with_key (fun x : ItemField => x.Label)
      item.Fields f.Label ⟨f, hf, rfl⟩
    refine ⟨pre, g, post, h1, h2, h3, ?_⟩
    rw [context_fields_eq, h1]
    exact GoMap.get_foldl_set_last (fun x : ItemField => x.Label) (fun x => x.Value)
      pre post g [] f.Label h2 h3
  refine ⟨?_, hlast, ?_⟩
  · intro k
    constructor
    · intro hk
      obtain ⟨v, hv⟩ := (GoMap.mem_keys_iff _ _).mp hk
      rw [context_fields_eq] at hv
      rcases GoMap.get_foldl_set_source (fun x : ItemField => x.Label) (fun x => x.Value)
        item.Fields [] k v hv with h | h
      · simp [GoMap.get] at h
      · exact h
    · rintro ⟨f, hf, hk⟩
      obtain ⟨_, g, _, _, _, _, hget⟩ := hlast f hf
      rw [hk] at hget
      exact (GoMap.mem_keys_iff _ _).mpr ⟨g.Value, hget⟩
  · intro item' hsame
    have hfold : ∀ fields : List ItemField,
        fields.foldl (fun m f => GoMap.set m f.Label f.Value) ([] : GoMap String)
          = (fields.map (fun f => (f.Label, f.Value))).foldl
              (fun m p => GoMap.set m p.1 p.2) [] := by
      intro fields
      rw [List.foldl_map]
    rw [context_fields_eq, context_fields_eq, hfold, hfold, hsame]

/-- C14, at two fields labelled `password` that lie in different sections: the
later value is the one in the `Fields` view. -/
theorem context_fields_last_wins_witness :
    fieldIn "section-1" "password" "first" ∈
        (itemOf [fieldIn "section-1" "password" "first", fieldOf "password" "second"] []).Fields ∧
      (BuildTemplateContext
        (itemOf [fieldIn "section-1" "password" "first", fieldOf "password" "second"] [])).Fields
        = [("password", "second")] ∧
      ∃ pre g post,
        (itemOf [fieldIn "section-1" "password" "first", fieldOf "password" "second"] []).Fields
          = pre ++ g :: post ∧
        g.Label = (fieldIn "section-1" "password" "first").Label ∧
        (∀ h ∈ post, h.Label ≠ (fieldIn "section-1" "password" "first").Label) ∧
        GoMap.get (BuildTemplateContext
          (itemOf [fieldIn "section-1" "password" "first", fieldOf "password" "second"] [])).Fields
          (fieldIn "section-1" "password" "first").Label = some g.Value :=
  ⟨by decide, by decide,
    (context_fields_last_wins
      (itemOf [fieldIn "section-1" "password" "first", fieldOf "password" "second"] [])).2.1
      (fieldIn "section-1" "password" "first") (by decide)⟩

/-- C15 (failing input): a field whose section ID is the ID of a declared
section is not always placed under the title of that section.  When the section
`section-1` has the empty title, the field `username` is placed in a bucket
keyed by `section-1`, and the bucket of the empty title, created for the
section, stays empty. -/
theorem empty_title_section_bucket :
    (BuildTemplateContext
        (sectionedItemOf [fieldIn "section-1" "username" "alice"]
          [{ ID := "section-1", Title := "" }])).Sections
        = [("", []), ("section-1", [("username", "alice")])] ∧
      bucketGet (BuildTemplateContext
        (sectionedItemOf [fieldIn "section-1" "username" "alice"]
          [{ ID := "section-1", Title := "" }])).Sections "" "username" = none := by
  decide

/-- C16: a field whose non-empty section ID is the ID of no declared section is
placed in a bucket of the `Sections` view keyed by that section ID: the bucket
exists and maps the field's label to the value of the last field with that
label that `BuildTemplateContext` places in this bucket. -/
theorem undeclared_section_bucket (item : Item) (f : ItemField) (hf : f ∈ item.Fields)
    (hsid : f.SectionID ≠ "") (hundeclared : ∀ s ∈ item.Sections, s.ID ≠ f.SectionID) :
    ∃ bucket, GoMap.get (BuildTemplateContext item).Sections f.SectionID = some bucket ∧
      ∃ pre g post, item.Fields = pre ++ g :: post ∧
        (sectionBucket (buildSectionMaps item.Sections).1 g = f.SectionID ∧
          g.Label = f.Label) ∧
        (∀ h ∈ post, ¬ (sectionBucket (buildSectionMaps item.Sections).1 h = f.SectionID ∧
          h.Label = f.Label)) ∧
        GoMap.get bucket f.Label = some g.Value := by
  have hbucket := sectionBucket_of_undeclared item.Sections f hsid hundeclared
  obtain ⟨pre, g, post, h1, h2, h3⟩ := exists_last_satisfying
    (fun x : ItemField => sectionBucket (buildSectionMaps item.Sections).1 x = f.SectionID ∧
      x.Label = f.Label) item.Fields ⟨f, hf, hbucket, rfl⟩
  have hget : bucketGet (BuildTemplateContext item).Sections f.SectionID f.Label
      = some g.Value := by
    rw [context_sections_eq, h1]
    exact bucketGet_foldl_last _ pre post g _ _ _ h2 h3
  unfold bucketGet at hget
  cases hb : GoMap.get (BuildTemplateContext item).Sections f.SectionID with
  | none => rw [hb] at hget; simp at hget
  | some bucket =>
    rw [hb] at hget
    exact ⟨bucket, rfl, pre, g, post, h1, h2, h3, hget⟩

/-- C16, at a field of the undeclared section `orphan` next to a field of a
declared section. -/
theorem undeclared_section_bucket_witness :
    (fieldIn "orphan" "token" "t0k3n").SectionID ≠ "" ∧
      GoMap.get (BuildTemplateContext
        (sectionedItemOf [fieldIn "section-1" "username" "alice", fieldIn "orphan" "token" "t0k3n"]
          [{ ID := "section-1", Title := "Credentials" }])).Sections "orphan"
        = some [("token", "t0k3n")] ∧
      ∃ bucket, GoMap.get (BuildTemplateContext
          (sectionedItemOf
            [fieldIn "section-1" "username" "alice", fieldIn "orphan" "token" "t0k3n"]
            [{ ID := "section-1", Title := "Credentials" }])).Sections
          (fieldIn "orphan" "token" "t0k3n").SectionID = some bucket ∧
        ∃ pre g post,
          (sectionedItemOf
            [fieldIn "section-1" "username" "alice", fieldIn "orphan" "token" "t0k3n"]
            [{ ID := "section-1", Title := "Credentials" }]).Fields = pre ++ g :: post ∧
          (sectionBucket (buildSectionMaps (sectionedItemOf
              [fieldIn "section-1" "username" "alice", fieldIn "orphan" "token" "t0k3n"]
              [{ ID := "section-1", Title := "Credentials" }]).Sections).1 g
              = (fieldIn "orphan" "token" "t0k3n").SectionID ∧
            g.Label = (fieldIn "orphan" "token" "t0k3n").Label) ∧
          (∀ h ∈ post,
            ¬ (sectionBucket (buildSectionMaps (sectionedItemOf
                [fieldIn "section-1" "username" "alice", fieldIn "orphan" "token" "t0k3n"]
                [{ ID := "section-1", Title := "Credentials" }]).Sections).1 h
                = (fieldIn "orphan" "token" "t0k3n").SectionID ∧
              h.Label = (fieldIn "orphan" "token" "t0k3n").Label)) ∧
          GoMap.get bucket (fieldIn "orphan" "token" "t0k3n").Label = some g.Value :=
  ⟨by decide, by decide,
    undeclared_section_bucket
      (sectionedItemOf
        [fieldIn "section-1" "username" "alice", fieldIn "orphan" "token" "t0k3n"]
        [{ ID := "section-1", Title := "Credentials" }])
      (fieldIn "orphan" "token" "t0k3n") (by decide) (by decide) (by decide)⟩

/-- C17: for a non-empty auto-restart value that does not parse as a boolean,
`CreateKubernetesSecretFromItem` returns the parse error and issues no store
call, whatever the item, the other arguments and the store are; the state of
the store is the one it was given. -/
theorem invalid_autoRestart_aborts (lib : TextTemplate) (kubeClient : KubeClient)
    (store : kubeClient.State) (secretName namespaceName : String) (item : Item)
    (autoRestart : String) (labels secretAnnotations : Option (GoMap String))
    (secretType : String) (ownerRef : Option OwnerReference)
    (secretTemplate : Option SecretTemplate) (imagePullSecret : Option ImagePullSecretConfig)
    (hne : autoRestart ≠ "") (e : String) (hparse : StringToBool autoRestart = .error e) :
    CreateKubernetesSecretFromItem lib kubeClient store secretName namespaceName item
        autoRestart labels secretAnnotations secretType ownerRef secretTemplate imagePullSecret
      = { err := some (.errorf ("error parsing " ++ RestartDeploymentsAnnotation ++
            " annotation on Secret " ++ secretName ++
            ". Must be true or false. Defaulting to false"))
          calls := []
          state := store } :=
  CreateKubernetesSecretFromItem_of_error lib kubeClient store secretName namespaceName item
    autoRestart labels secretAnnotations secretType ownerRef secretTemplate imagePullSecret _
    (secretAnnotationsOf_of_error secretName item autoRestart secretAnnotations hne e hparse)

/-- C17, at the auto-restart value `maybe` against a store that holds the
object. -/
theorem invalid_autoRestart_aborts_witness :
    "maybe" ≠ "" ∧
      StringToBool "maybe" = .error "strconv.ParseBool: parsing maybe: invalid syntax" ∧
      (CreateKubernetesSecretFromItem literalTemplates memoryStore [storedSecret "" none]
        "db" "default" (itemOf [fieldOf "password" "s3cret"] []) "maybe" none none ""
        none none none).calls = [] ∧
      (CreateKubernetesSecretFromItem literalTemplates memoryStore [storedSecret "" none]
        "db" "default" (itemOf [fieldOf "password" "s3cret"] []) "maybe" none none ""
        none none none).err ≠ none :=
  ⟨by decide, by decide,
    congrArg Outcome.calls
      (invalid_autoRestart_aborts literalTemplates memoryStore [storedSecret "" none]
        "db" "default" (itemOf [fieldOf "password" "s3cret"] []) "maybe" none none ""
        none none none (by decide) "strconv.ParseBool: parsing maybe: invalid syntax"
        (by decide)),
    by decide⟩

/-- C18: when the fetch reports NotFound and the auto-restart value is empty or
parses as a boolean, `CreateKubernetesSecretFromItem` issues the fetch and then
exactly one `Create`, no `Update`, and returns the result of that `Create`.
The created object has the name `formatSecretName secretName`, the given
namespace, labels and type, the payload of `BuildKubernetesSecretData`, the
supplied owner reference if there is one and no other, and the caller's
annotations overridden with the item version, the item path and, exactly when
the auto-restart value is non-empty, that value. -/
theorem absent_creates (lib : TextTemplate) (kubeClient : KubeClient)
    (store : kubeClient.State) (secretName namespaceName : String) (item : Item)
    (autoRestart : String) (labels secretAnnotations : Option (GoMap String))
    (secretType : String) (ownerRef : Option OwnerReference)
    (secretTemplate : Option SecretTemplate) (imagePullSecret : Option ImagePullSecretConfig)
    (hvalid : autoRestart = "" ∨ ∃ b, StringToBool autoRestart = .ok b)
    (e : StoreError)
    (hget : kubeClient.Get store namespaceName (formatSecretName secretName) = .error e)
    (hnotFound : e.NotFound = true) :
    ∃ (created : Secret) (anns : GoMap String),
      CreateKubernetesSecretFromItem lib kubeClient store secretName namespaceName item
          autoRestart labels secretAnnotations secretType ownerRef secretTemplate
          imagePullSecret
        = { err := (kubeClient.Create store created).1.map GoError.store
            calls := [.get namespaceName (formatSecretName secretName) (.error e),
              .create created (kubeClient.Create store created).1]
            state := (kubeClient.Create store created).2 } ∧
      created.Name = formatSecretName secretName ∧
      created.Namespace = namespaceName ∧
      created.Labels = labels ∧
      created.Type_ = secretType ∧
      created.Data = BuildKubernetesSecretData lib item secretTemplate imagePullSecret ∧
      created.OwnerReferences = ownerRef.toList ∧
      created.Annotations = some anns ∧
      ∀ k : String, GoMap.get anns k =
        if k = VersionAnnotation then some (toString item.Version)
        else if k = ItemPathAnnotation then
          some ("vaults/" ++ item.VaultID ++ "/items/" ++ item.ID)
        else if k = RestartDeploymentsAnnotation ∧ autoRestart ≠ "" then some autoRestart
        else GoMap.get (secretAnnotations.getD []) k := by
  have hanns : ∃ anns, secretAnnotationsOf secretName item autoRestart secretAnnotations
      = .ok anns := by
    rcases hvalid with h | ⟨b, hb⟩
    · subst h
      exact ⟨_, secretAnnotationsOf_of_empty secretName item secretAnnotations⟩
    · by_cases hne : autoRestart = ""
      · subst hne
        exact ⟨_, secretAnnotationsOf_of_empty secretName item secretAnnotations⟩
      · exact ⟨_, secretAnnotationsOf_of_ok secretName item autoRestart secretAnnotations
          hne b hb⟩
  obtain ⟨anns, hanns⟩ := hanns
  refine ⟨BuildKubernetesSecretFromOnePasswordItem lib secretName namespaceName (some anns)
    labels secretType item ownerRef secretTemplate imagePullSecret, anns, ?_, rfl, rfl, rfl,
    rfl, rfl, ?_, rfl, secretAnnotationsOf_get secretName item autoRestart secretAnnotations
      anns hanns⟩
  · rw [CreateKubernetesSecretFromItem_of_fetch_error lib kubeClient store secretName
      namespaceName item autoRestart labels secretAnnotations secretType ownerRef
      secretTemplate imagePullSecret anns hanns e hget, if_pos hnotFound]
  · cases ownerRef <;> rfl

/-- C18, at an empty store and the auto-restart value `true`: the object is
created with the three computed annotations next to the caller's. -/
theorem absent_creates_witness :
    (StringToBool "true" = .ok true) ∧
      CreateKubernetesSecretFromItem literalTemplates memoryStore [] "My DB" "default"
          (itemOf [fieldOf "password" "s3cret"] []) "true" (some [("app", "db")])
          (some [("example.com/owner", "team-a")]) "Opaque" none none none
        = { err := none
            calls := [.get "default" "my-db"
                (.error { NotFound := true, Message := "secrets \"my-db\" not found" }),
              .create
                { Name := "my-db", Namespace := "default",
                  Annotations := some [("example.com/owner", "team-a"),
                    ("operator.1password.io/item-version", "1"),
                    ("operator.1password.io/item-path", "vaults/vault-1/items/item-1"),
                    ("operator.1password.io/auto-restart", "true")],
                  Labels := some [("app", "db")], OwnerReferences := [],
                  Data := [("password", stringToBytes "s3cret")], Type_ := "Opaque" }
                none]
            state :=
              [{ Name := "my-db", Namespace := "default",
                 Annotations := some [("example.com/owner", "team-a"),
                   ("operator.1password.io/item-version", "1"),
                   ("operator.1password.io/item-path", "vaults/vault-1/items/item-1"),
                   ("operator.1password.io/auto-restart", "true")],
                 Labels := some [("app", "db")], OwnerReferences := [],
                 Data := [("password", stringToBytes "s3cret")], Type_ := "Opaque" }] } ∧
      ∃ (created : Secret) (anns : GoMap String),
        CreateKubernetesSecretFromItem literalTemplates memoryStore [] "My DB" "default"
            (itemOf [fieldOf "password" "s3cret"] []) "true" (some [("app", "db")])
            (some [("example.com/owner", "team-a")]) "Opaque" none none none
          = { err := (memoryStore.Create [] created).1.map GoError.store
              calls := [.get "default" (formatSecretName "My DB")
                  (.error { NotFound := true, Message := "secrets \"my-db\" not found" }),
                .create created (memoryStore.Create [] created).1]
              state := (memoryStore.Create [] created).2 } ∧
        created.Name = formatSecretName "My DB" ∧
        created.Namespace = "default" ∧
        created.Labels = some [("app", "db")] ∧
        created.Type_ = "Opaque" ∧
        created.Data = BuildKubernetesSecretData literalTemplates
          (itemOf [fieldOf "password" "s3cret"] []) none none ∧
        created.OwnerReferences = (none : Option OwnerReference).toList ∧
        created.Annotations = some anns ∧
        ∀ k : String, GoMap.get anns k =
          if k = VersionAnnotation then
            some (toString (itemOf [fieldOf "password" "s3cret"] []).Version)
          else if k = ItemPathAnnotation then
            some ("vaults/" ++ (itemOf [fieldOf "password" "s3cret"] []).VaultID ++
              "/items/" ++ (itemOf [fieldOf "password" "s3cret"] []).ID)
          else if k = RestartDeploymentsAnnotation ∧ "true" ≠ "" then some "true"
          else GoMap.get ((some [("example.com/owner", "team-a")] :
            Option (GoMap String)).getD []) k :=
  ⟨by decide, rfl,
    absent_creates literalTemplates memoryStore [] "My DB" "default"
      (itemOf [fieldOf "password" "s3cret"] []) "true" (some [("app", "db")])
      (some [("example.com/owner", "team-a")]) "Opaque" none none none
      (Or.inr ⟨true, by decide⟩)
      { NotFound := true, Message := "secrets \"my-db\" not found" } (by decide) rfl⟩

/-- C19: when the object is Present (the fetch of the invocation returns it),
`CreateKubernetesSecretFromItem` returns `ErrCannotUpdateSecretType` exactly when
the requested and the persisted type differ after the empty type has been
mapped to `Opaque` on both sides.  Whenever it returns that error the fetch is
its only store call, so no `Create` or `Update` is issued and the state of the
store is unchanged.  A requested empty type against a persisted `Opaque`, and
the converse, do not give the error; a persisted empty type against a requested
type other than the default gives it. -/
theorem type_change_rejected (lib : TextTemplate) (kubeClient : KubeClient)
    (store : kubeClient.State) (secretName namespaceName : String) (item : Item)
    (autoRestart : String) (labels secretAnnotations : Option (GoMap String))
    (secretType : String) (ownerRef : Option OwnerReference)
    (secretTemplate : Option SecretTemplate) (imagePullSecret : Option ImagePullSecretConfig)
    (ns name : String) (current : Secret)
    (hpresent : (CreateKubernetesSecretFromItem lib kubeClient store secretName namespaceName
        item autoRestart labels secretAnnotations secretType ownerRef secretTemplate
        imagePullSecret).calls.head? = some (.get ns name (.ok current))) :
    ((CreateKubernetesSecretFromItem lib kubeClient store secretName namespaceName
          item autoRestart labels secretAnnotations secretType ownerRef secretTemplate
          imagePullSecret).err = some .ErrCannotUpdateSecretType ↔
        defaultedType secretType ≠ defaultedType current.Type_) ∧
      ((CreateKubernetesSecretFromItem lib kubeClient store secretName namespaceName
          item autoRestart labels secretAnnotations secretType ownerRef secretTemplate
          imagePullSecret).err = some .ErrCannotUpdateSecretType →
        (CreateKubernetesSecretFromItem lib kubeClient store secretName namespaceName
          item autoRestart labels secretAnnotations secretType ownerRef secretTemplate
          imagePullSecret).calls = [.get ns name (.ok current)] ∧
        (CreateKubernetesSecretFromItem lib kubeClient store secretName namespaceName
          item autoRestart labels secretAnnotations secretType ownerRef secretTemplate
          imagePullSecret).state = store) ∧
      (secretType = "" → current.Type_ = "Opaque" →
        (CreateKubernetesSecretFromItem lib kubeClient store secretName namespaceName
          item autoRestart labels secretAnnotations secretType ownerRef secretTemplate
          imagePullSecret).err ≠ some .ErrCannotUpdateSecretType) ∧
      (secretType = "Opaque" → current.Type_ = "" →
        (CreateKubernetesSecretFromItem lib kubeClient store secretName namespaceName
          item autoRestart labels secretAnnotations secretType ownerRef secretTemplate
          imagePullSecret).err ≠ some .ErrCannotUpdateSecretType) ∧
      (current.Type_ = "" → secretType ≠ "" → secretType ≠ "Opaque" →
        (CreateKubernetesSecretFromItem lib kubeClient store secretName namespaceName
          item autoRestart labels secretAnnotations secretType ownerRef secretTemplate
          imagePullSecret).err = some .ErrCannotUpdateSecretType) := by
  obtain ⟨⟨anns, hanns⟩, hns, hname, hget⟩ := present_inv lib kubeClient store secretName
    namespaceName item autoRestart labels secretAnnotations secretType ownerRef secretTemplate
    imagePullSecret ns name current hpresent
  subst hns hname
  have hout := CreateKubernetesSecretFromItem_of_present lib kubeClient store secretName ns
    item autoRestart labels secretAnnotations secretType ownerRef secretTemplate
    imagePullSecret anns hanns current hget
  have hiff : (CreateKubernetesSecretFromItem lib kubeClient store secretName ns
        item autoRestart labels secretAnnotations secretType ownerRef secretTemplate
        imagePullSecret).err = some .ErrCannotUpdateSecretType ↔
      defaultedType secretType ≠ defaultedType current.Type_ := by
    rw [hout]
    by_cases htype : defaultedType current.Type_ ≠ defaultedType secretType
    · rw [if_pos htype]
      exact ⟨fun _ => fun h => htype h.symm, fun _ => rfl⟩
    · rw [if_neg htype]
      have heq : defaultedType secretType = defaultedType current.Type_ :=
        (not_not.mp htype).symm
      constructor
      · intro herr
        exfalso
        split at herr
        · simp only [] at herr
          cases hup : (kubeClient.Update store
              { current with
                Annotations := some anns, Labels := labels,
                Data := BuildKubernetesSecretData lib item secretTemplate
                  imagePullSecret }).1 with
          | none => rw [hup] at herr; simp at herr
          | some e => rw [hup] at herr; simp at herr
        · simp at herr
      · intro hne
        exact absurd heq hne
  refine ⟨hiff, ?_, ?_, ?_, ?_⟩
  · intro herr
    have hne := hiff.mp herr
    rw [hout, if_pos (fun h => hne h.symm)]
    exact ⟨rfl, rfl⟩
  · intro h1 h2 herr
    apply hiff.mp herr
    rw [h1, h2]
    rfl
  · intro h1 h2 herr
    apply hiff.mp herr
    rw [h1, h2]
    rfl
  · intro h1 h2 h3
    apply hiff.mpr
    rw [h1]
    unfold defaultedType
    rw [if_neg h2, if_pos rfl]
    exact h3

/-- C19, at a persisted object of empty type and the requested type
`kubernetes.io/tls`: the error is returned after the fetch alone. -/
theorem type_change_rejected_witness :
    (CreateKubernetesSecretFromItem literalTemplates memoryStore [storedSecret "" none]
        "db" "default" (itemOf [fieldOf "password" "s3cret"] []) "" none none
        "kubernetes.io/tls" none none none).calls.head?
        = some (.get "default" "db" (.ok (storedSecret "" none))) ∧
      (CreateKubernetesSecretFromItem literalTemplates memoryStore [storedSecret "" none]
        "db" "default" (itemOf [fieldOf "password" "s3cret"] []) "" none none
        "kubernetes.io/tls" none none none).err = some .ErrCannotUpdateSecretType ∧
      (CreateKubernetesSecretFromItem literalTemplates memoryStore [storedSecret "" none]
        "db" "default" (itemOf [fieldOf "password" "s3cret"] []) "" none none
        "kubernetes.io/tls" none none none).state = [storedSecret "" none] :=
  ⟨by decide,
    (type_change_rejected literalTemplates memoryStore [storedSecret "" none]
      "db" "default" (itemOf [fieldOf "password" "s3cret"] []) "" none none
      "kubernetes.io/tls" none none none "default" "db" (storedSecret "" none)
      (by decide)).2.2.2.2 rfl (by decide) (by decide),
    rfl⟩

/-- C20: when the object is Present with a matching type (after the empty type
has been mapped to `Opaque`) and the persisted annotations or labels do not hold
the same key-value pairs as the requested ones,
`CreateKubernetesSecretFromItem` issues the fetch and then exactly one `Update`,
no `Create`.  The object passed to `Update` is the fetched object with its
annotations, labels and data replaced by the freshly computed annotations, the
supplied labels and the freshly synthesized payload; its name, namespace, type
and owner references are those of the fetched object. -/
theorem present_updates (lib : TextTemplate) (kubeClient : KubeClient)
    (store : kubeClient.State) (secretName namespaceName : String) (item : Item)
    (autoRestart : String) (labels secretAnnotations : Option (GoMap String))
    (secretType : String) (ownerRef : Option OwnerReference)
    (secretTemplate : Option SecretTemplate) (imagePullSecret : Option ImagePullSecretConfig)
    (ns name : String) (current : Secret)
    (hpresent : (CreateKubernetesSecretFromItem lib kubeClient store secretName namespaceName
        item autoRestart labels secretAnnotations secretType ownerRef secretTemplate
        imagePullSecret).calls.head? = some (.get ns name (.ok current)))
    (htype : defaultedType secretType = defaultedType current.Type_) :
    ∃ anns : GoMap String,
      (∀ k : String, GoMap.get anns k =
        if k = VersionAnnotation then some (toString item.Version)
        else if k = ItemPathAnnotation then
          some ("vaults/" ++ item.VaultID ++ "/items/" ++ item.ID)
        else if k = RestartDeploymentsAnnotation ∧ autoRestart ≠ "" then some autoRestart
        else GoMap.get (secretAnnotations.getD []) k) ∧
      (((∃ k, GoMap.get (current.Annotations.getD []) k ≠ GoMap.get anns k) ∨
          (∃ k, GoMap.get (current.Labels.getD []) k ≠ GoMap.get (labels.getD []) k)) →
        ∃ updated : Secret,
          CreateKubernetesSecretFromItem lib kubeClient store secretName namespaceName item
              autoRestart labels secretAnnotations secretType ownerRef secretTemplate
              imagePullSecret
            = { err := (kubeClient.Update store updated).1.map
                  (fun e => GoError.wrap "kubernetes secret update failed" (.store e))
                calls := [.get ns name (.ok current),
                  .update updated (kubeClient.Update store updated).1]
                state := (kubeClient.Update store updated).2 } ∧
          updated.Annotations = some anns ∧
          updated.Labels = labels ∧
          updated.Data = BuildKubernetesSecretData lib item secretTemplate imagePullSecret ∧
          updated.Name = current.Name ∧
          updated.Namespace = current.Namespace ∧
          updated.Type_ = current.Type_ ∧
          updated.OwnerReferences = current.OwnerReferences) := by
  obtain ⟨⟨anns, hanns⟩, hns, hname, hget⟩ := present_inv lib kubeClient store secretName
    namespaceName item autoRestart labels secretAnnotations secretType ownerRef secretTemplate
    imagePullSecret ns name current hpresent
  subst hns hname
  refine ⟨anns, secretAnnotationsOf_get secretName item autoRestart secretAnnotations anns
    hanns, ?_⟩
  intro hdiff
  have hdeep : (!DeepEqual current.Annotations (some anns) ||
      !DeepEqual current.Labels labels) = true := by
    rcases hdiff with ⟨k, hk⟩ | ⟨k, hk⟩
    · have hfalse : DeepEqual current.Annotations (some anns) = false := by
        cases hd : DeepEqual current.Annotations (some anns) with
        | false => rfl
        | true => exact absurd (DeepEqual_get _ _ hd k) hk
      rw [hfalse]
      rfl
    · have hfalse : DeepEqual current.Labels labels = false := by
        cases hd : DeepEqual current.Labels labels with
        | false => rfl
        | true => exact absurd (DeepEqual_get _ _ hd k) hk
      rw [hfalse]
      simp
  refine ⟨{ current with
    Annotations := some anns, Labels := labels,
    Data := BuildKubernetesSecretData lib item secretTemplate imagePullSecret },
    ?_, rfl, rfl, rfl, rfl, rfl, rfl, rfl⟩
  rw [CreateKubernetesSecretFromItem_of_present lib kubeClient store secretName ns
    item autoRestart labels secretAnnotations secretType ownerRef secretTemplate
    imagePullSecret anns hanns current hget,
    if_neg (fun h => h htype.symm), if_pos hdeep]

/-- C20, at a persisted object whose label `app` differs from the requested
one: the update carries the computed annotations, the supplied labels and the
fresh payload, so the annotation `example.com/owner` and the data key `stale`
of the persisted object are gone. -/
theorem present_updates_witness :
    (CreateKubernetesSecretFromItem literalTemplates memoryStore
        [storedSecret "" (some [("app", "old")])] "db" "default"
        (itemOf [fieldOf "password" "s3cret"] []) "" (some [("app", "db")]) none "Opaque"
        none none none).calls
        = [.get "default" "db" (.ok (storedSecret "" (some [("app", "old")]))),
          .update
            { Name := "db", Namespace := "default",
              Annotations := some [("operator.1password.io/item-version", "1"),
                ("operator.1password.io/item-path", "vaults/vault-1/items/item-1")],
              Labels := some [("app", "db")], OwnerReferences := [],
              Data := [("password", stringToBytes "s3cret")], Type_ := "" }
            none] ∧
      ∃ anns : GoMap String,
        (∀ k : String, GoMap.get anns k =
          if k = VersionAnnotation then
            some (toString (itemOf [fieldOf "password" "s3cret"] []).Version)
          else if k = ItemPathAnnotation then
            some ("vaults/" ++ (itemOf [fieldOf "password" "s3cret"] []).VaultID ++
              "/items/" ++ (itemOf [fieldOf "password" "s3cret"] []).ID)
          else if k = RestartDeploymentsAnnotation ∧ "" ≠ "" then some ""
          else GoMap.get ((none : Option (GoMap String)).getD []) k) ∧
        (((∃ k, GoMap.get ((storedSecret "" (some [("app", "old")])).Annotations.getD []) k
              ≠ GoMap.get anns k) ∨
            (∃ k, GoMap.get ((storedSecret "" (some [("app", "old")])).Labels.getD []) k
              ≠ GoMap.get ((some [("app", "db")] : Option (GoMap String)).getD []) k)) →
          ∃ updated : Secret,
            CreateKubernetesSecretFromItem literalTemplates memoryStore
                [storedSecret "" (some [("app", "old")])] "db" "default"
                (itemOf [fieldOf "password" "s3cret"] []) "" (some [("app", "db")]) none
                "Opaque" none none none
              = { err := (memoryStore.Update [storedSecret "" (some [("app", "old")])]
                      updated).1.map
                    (fun e => GoError.wrap "kubernetes secret update failed" (.store e))
                  calls := [.get "default" "db"
                      (.ok (storedSecret "" (some [("app", "old")]))),
                    .update updated
                      (memoryStore.Update [storedSecret "" (some [("app", "old")])]
                        updated).1]
                  state := (memoryStore.Update [storedSecret "" (some [("app", "old")])]
                      updated).2 } ∧
            updated.Annotations = some anns ∧
            updated.Labels = some [("app", "db")] ∧
            updated.Data = BuildKubernetesSecretData literalTemplates
              (itemOf [fieldOf "password" "s3cret"] []) none none ∧
            updated.Name = (storedSecret "" (some [("app", "old")])).Name ∧
            updated.Namespace = (storedSecret "" (some [("app", "old")])).Namespace ∧
            updated.Type_ = (storedSecret "" (some [("app", "old")])).Type_ ∧
            updated.OwnerReferences
              = (storedSecret "" (some [("app", "old")])).OwnerReferences) :=
  ⟨by decide,
    present_updates literalTemplates memoryStore [storedSecret "" (some [("app", "old")])]
      "db" "default" (itemOf [fieldOf "password" "s3cret"] []) "" (some [("app", "db")]) none
      "Opaque" none none none "default" "db" (storedSecret "" (some [("app", "old")]))
      (by decide) (by decide)⟩

/-- C13: for a non-empty registry, username and password and every email,
`BuildDockerConfigJSON` returns the UTF-8 encoding of a JSON text that decodes to
an object whose `auths` member is an object with exactly one member, keyed by
the registry; that entry has `username` and `password` equal to the arguments
and `auth` equal to the base64 encoding of `username:password`, and it has an
`email` member, equal to the argument, exactly when the email is non-empty. -/
theorem dockerConfigJSON_decodes (registry username password email : String)
    (hr : registry ≠ "") (hu : username ≠ "") (hp : password ≠ "") :
    ∃ text : String,
      BuildDockerConfigJSON registry username password email = .ok (stringToBytes text) ∧
      jsonDecode text
        = some (.obj [("auths", .obj [(registry, .obj
            ([("username", .str username), ("password", .str password)] ++
              (if email = "" then [] else [("email", .str email)]) ++
              [("auth",
                .str ⟨base64Encode (stringToBytes (username ++ ":" ++ password))⟩)]))])]) := by
  refine ⟨dockerConfigJSONText { Auths := [(registry,
    DockerConfigEntry.mk username password email
      ⟨base64Encode (stringToBytes (username ++ ":" ++ password))⟩)] }, ?_, ?_⟩
  · unfold BuildDockerConfigJSON
    rw [if_neg hr, if_neg hu, if_neg hp]
    by_cases he : email = ""
    · subst he
      rfl
    · simp only [ne_eq, he, not_false_eq_true, if_true]
      rfl
  · exact jsonDecode_dockerConfig registry _ hu hp (auth_ne_empty username password hu)

/-- C13, at the registry `docker.io`, the username `u`, the password `p` and no
email: the entry has the members `username`, `password` and `auth`, the latter
being `dTpw`, and no `email`. -/
theorem dockerConfigJSON_decodes_witness :
    BuildDockerConfigJSON "docker.io" "u" "p" ""
        = .ok (stringToBytes
          "\x7b\"auths\":\x7b\"docker.io\":\x7b\"username\":\"u\",\"password\":\"p\",\"auth\":\"dTpw\"\x7d\x7d\x7d") ∧
      (⟨base64Encode (stringToBytes ("u" ++ ":" ++ "p"))⟩ : String) = "dTpw" ∧
      ∃ text : String,
        BuildDockerConfigJSON "docker.io" "u" "p" "" = .ok (stringToBytes text) ∧
        jsonDecode text
          = some (.obj [("auths", .obj [("docker.io", .obj
              ([("username", .str "u"), ("password", .str "p")] ++
                (if ("" : String) = "" then [] else [("email", .str "")]) ++
                [("auth", .str ⟨base64Encode (stringToBytes ("u" ++ ":" ++ "p"))⟩)]))])]) :=
  ⟨by decide, by decide,
    dockerConfigJSON_decodes "docker.io" "u" "p" "" (by decide) (by decide) (by decide)⟩

/-- C25: for every input, the result of `formatSecretName` contains only
lowercase letters, digits, the dash and the dot, is at most 253 characters
(and as many bytes) long, and neither begins nor ends with a dash or a dot;
this holds on the branch that returns a valid input unchanged and on the
branch that rewrites it, wherever the truncation falls. -/
theorem formatSecretName_shape (x : String) :
    (∀ c ∈ (formatSecretName x).data,
      isLowerLetter c = true ∨ isDigit c = true ∨ c = '-' ∨ c = '.') ∧
    (formatSecretName x).data.length ≤ 253 ∧
    goLen (formatSecretName x).data ≤ 253 ∧
    (∀ c ∈ (formatSecretName x).data.head?, c ≠ '-' ∧ c ≠ '.') ∧
    (∀ c ∈ (formatSecretName x).data.getLast?, c ≠ '-' ∧ c ≠ '.') := by
  unfold formatSecretName
  by_cases hvalid : (IsDNS1123Subdomain x).length = 0
  · rw [if_pos hvalid]
    obtain ⟨hlen, hmatch⟩ := valid_of_isDNS1123Subdomain x hvalid
    exact name_shape x.data
      (dns1123SubdomainRun_chars x.data _ hmatch)
      (Nat.le_trans (length_le_goLen x.data) hlen)
      (fun c hc => not_cutset_of_alnum c (dns1123SubdomainRun_head x.data hmatch c hc))
      (fun c hc => not_cutset_of_alnum c (dns1123SubdomainRun_getLast x.data _ hmatch c hc))
  · rw [if_neg hvalid]
    exact name_shape (createValidSecretName x).data
      (createValidSecretName_chars x)
      (createValidSecretName_length x)
      (fun c hc => not_cutset_of_elem c (createValidSecretName_head x c hc))
      (fun c hc => not_cutset_of_elem c (createValidSecretName_getLast x c hc))

/-- C21 (counterexample): the persisted object `db` has the requested type, the
annotations that the reconciler computes and no label map; the requested labels
are a map with no entries.  Both label maps hold the same key-value pairs, none,
and yet `CreateKubernetesSecretFromItem` issues an `Update`: the comparison of
the code tells an absent map from a map with no entries. -/
theorem empty_labels_counterexample :
    (CreateKubernetesSecretFromItem literalTemplates memoryStore
        [syncedSecret "Opaque" none] "db" "default"
        (itemOf [fieldOf "password" "s3cret"] []) "" (some []) none "Opaque"
        none none none).calls
        = [.get "default" "db" (.ok (syncedSecret "Opaque" none)),
          .update
            { Name := "db", Namespace := "default",
              Annotations := some [("operator.1password.io/item-version", "1"),
                ("operator.1password.io/item-path", "vaults/vault-1/items/item-1")],
              Labels := some [], OwnerReferences := [],
              Data := [("password", stringToBytes "s3cret")], Type_ := "Opaque" }
            none] ∧
      defaultedType "Opaque" = defaultedType (syncedSecret "Opaque" none).Type_ ∧
      (some <$> secretAnnotationsOf "db" (itemOf [fieldOf "password" "s3cret"] []) "" none)
        = .ok (syncedSecret "Opaque" none).Annotations ∧
      (∀ k : String, GoMap.get ((syncedSecret "Opaque" none).Labels.getD []) k
        = GoMap.get ((some [] : Option (GoMap String)).getD []) k) :=
  ⟨by decide, by decide, rfl, fun _ => rfl⟩

/-- C21 (amended): when the object is Present with a matching type (after the
empty type has been mapped to `Opaque`), the persisted annotations hold exactly
the key-value pairs of the requested ones, and the persisted labels hold exactly
the key-value pairs of the requested labels and are absent exactly when the
requested labels are absent (a map with no entries is not equal to an absent
map), `CreateKubernetesSecretFromItem` makes the fetch its only store call, so
it issues no `Create` and no `Update`, returns success and leaves the store as
it was, whatever `Data` the persisted object holds. -/
theorem present_identical_noop (lib : TextTemplate) (kubeClient : KubeClient)
    (store : kubeClient.State) (secretName namespaceName : String) (item : Item)
    (autoRestart : String) (labels secretAnnotations : Option (GoMap String))
    (secretType : String) (ownerRef : Option OwnerReference)
    (secretTemplate : Option SecretTemplate) (imagePullSecret : Option ImagePullSecretConfig)
    (ns name : String) (current : Secret)
    (hpresent : (CreateKubernetesSecretFromItem lib kubeClient store secretName namespaceName
        item autoRestart labels secretAnnotations secretType ownerRef secretTemplate
        imagePullSecret).calls.head? = some (.get ns name (.ok current)))
    (htype : defaultedType secretType = defaultedType current.Type_)
    (hannotations : ∀ k : String, GoMap.get (current.Annotations.getD []) k =
        if k = VersionAnnotation then some (toString item.Version)
        else if k = ItemPathAnnotation then
          some ("vaults/" ++ item.VaultID ++ "/items/" ++ item.ID)
        else if k = RestartDeploymentsAnnotation ∧ autoRestart ≠ "" then some autoRestart
        else GoMap.get (secretAnnotations.getD []) k)
    (hlabels : ∀ k : String,
        GoMap.get (current.Labels.getD []) k = GoMap.get (labels.getD []) k)
    (habsent : current.Labels.isSome = labels.isSome) :
    CreateKubernetesSecretFromItem lib kubeClient store secretName namespaceName item
        autoRestart labels secretAnnotations secretType ownerRef secretTemplate imagePullSecret
      = { err := none, calls := [.get ns name (.ok current)], state := store } := by
  obtain ⟨⟨anns, hanns⟩, hns, hname, hget⟩ := present_inv lib kubeClient store secretName
    namespaceName item autoRestart labels secretAnnotations secretType ownerRef secretTemplate
    imagePullSecret ns name current hpresent
  subst hns hname
  have hcomputed := secretAnnotationsOf_get secretName item autoRestart secretAnnotations anns
    hanns
  have hsame : ∀ k : String, GoMap.get (current.Annotations.getD []) k = GoMap.get anns k :=
    fun k => (hannotations k).trans (hcomputed k).symm
  have hsome : current.Annotations.isSome = (some anns).isSome := by
    cases hcur : current.Annotations with
    | some x => rfl
    | none =>
      have h1 := hannotations VersionAnnotation
      rw [hcur, if_pos rfl] at h1
      cases h1
  have hdeepA : DeepEqual current.Annotations (some anns) = true :=
    DeepEqual_of_get current.Annotations (some anns) hsome hsame
  have hdeepL : DeepEqual current.Labels labels = true :=
    DeepEqual_of_get current.Labels labels habsent hlabels
  rw [CreateKubernetesSecretFromItem_of_present lib kubeClient store secretName ns
    item autoRestart labels secretAnnotations secretType ownerRef secretTemplate
    imagePullSecret anns hanns current hget,
    if_neg (fun h => h htype.symm), if_neg (by rw [hdeepA, hdeepL]; decide)]

/-- C21 (amended), at a persisted object of empty type with the computed
annotations and the requested labels, whose data key `stale` is not in the
fresh payload: the fetch is the only store call. -/
theorem present_identical_noop_witness :
    (CreateKubernetesSecretFromItem literalTemplates memoryStore
        [syncedSecret "" (some [("app", "db")])] "db" "default"
        (itemOf [fieldOf "password" "s3cret"] []) "" (some [("app", "db")]) none "Opaque"
        none none none).calls.head?
        = some (.get "default" "db" (.ok (syncedSecret "" (some [("app", "db")])))) ∧
      (syncedSecret "" (some [("app", "db")])).Data
        ≠ BuildKubernetesSecretData literalTemplates
          (itemOf [fieldOf "password" "s3cret"] []) none none ∧
      CreateKubernetesSecretFromItem literalTemplates memoryStore
        [syncedSecret "" (some [("app", "db")])] "db" "default"
        (itemOf [fieldOf "password" "s3cret"] []) "" (some [("app", "db")]) none "Opaque"
        none none none
        = { err := none,
            calls := [.get "default" "db" (.ok (syncedSecret "" (some [("app", "db")])))],
            state := [syncedSecret "" (some [("app", "db")])] } :=
  ⟨by decide, by decide,
    present_identical_noop literalTemplates memoryStore
      [syncedSecret "" (some [("app", "db")])] "db" "default"
      (itemOf [fieldOf "password" "s3cret"] []) "" (some [("app", "db")]) none "Opaque"
      none none none "default" "db" (syncedSecret "" (some [("app", "db")]))
      (by decide) (by decide)
      (fun k => secretAnnotationsOf_get "db" (itemOf [fieldOf "password" "s3cret"] []) ""
        none _ rfl k)
      (fun _ => rfl) rfl⟩

/-- C23 (counterexample): a fetch that fails with an error other than NotFound,
and a create that fails, make `CreateKubernetesSecretFromItem` return the
store's bare error: the returned error is the store's error itself and wraps
nothing, whatever the message of the wrapping would be. -/
theorem bare_store_error_counterexample :
    (CreateKubernetesSecretFromItem literalTemplates
        (scriptedStore (.error ⟨false, "etcdserver: request timed out"⟩) none none) ()
        "db" "default" (itemOf [fieldOf "password" "s3cret"] []) "" none none "Opaque"
        none none none).err
        = some (.store ⟨false, "etcdserver: request timed out"⟩) ∧
      (∀ msg : String,
        (CreateKubernetesSecretFromItem literalTemplates
          (scriptedStore (.error ⟨false, "etcdserver: request timed out"⟩) none none) ()
          "db" "default" (itemOf [fieldOf "password" "s3cret"] []) "" none none "Opaque"
          none none none).err
          ≠ some (.wrap msg (.store ⟨false, "etcdserver: request timed out"⟩))) ∧
      (CreateKubernetesSecretFromItem literalTemplates
        (scriptedStore (.error ⟨true, "secrets \"db\" not found"⟩)
          (some ⟨false, "admission webhook denied the request"⟩) none) ()
        "db" "default" (itemOf [fieldOf "password" "s3cret"] []) "" none none "Opaque"
        none none none).err
        = some (.store ⟨false, "admission webhook denied the request"⟩) ∧
      (∀ msg : String,
        (CreateKubernetesSecretFromItem literalTemplates
          (scriptedStore (.error ⟨true, "secrets \"db\" not found"⟩)
            (some ⟨false, "admission webhook denied the request"⟩) none) ()
          "db" "default" (itemOf [fieldOf "password" "s3cret"] []) "" none none "Opaque"
          none none none).err
          ≠ some (.wrap msg (.store ⟨false, "admission webhook denied the request"⟩))) := by
  refine ⟨by decide, ?_, by decide, ?_⟩
  · intro msg h
    cases h
  · intro msg h
    cases h

/-- C23 (amended): whenever the `Update` call of
`CreateKubernetesSecretFromItem` fails, the returned error wraps the store's
error under the message `kubernetes secret update failed`, which names the
attempted operation, and is not the store's bare error. -/
theorem update_failure_wrapped (lib : TextTemplate) (kubeClient : KubeClient)
    (store : kubeClient.State) (secretName namespaceName : String) (item : Item)
    (autoRestart : String) (labels secretAnnotations : Option (GoMap String))
    (secretType : String) (ownerRef : Option OwnerReference)
    (secretTemplate : Option SecretTemplate) (imagePullSecret : Option ImagePullSecretConfig)
    (updated : Secret) (e : StoreError)
    (hfail : StoreCall.update updated (some e) ∈
      (CreateKubernetesSecretFromItem lib kubeClient store secretName namespaceName item
        autoRestart labels secretAnnotations secretType ownerRef secretTemplate
        imagePullSecret).calls) :
    (CreateKubernetesSecretFromItem lib kubeClient store secretName namespaceName item
        autoRestart labels secretAnnotations secretType ownerRef secretTemplate
        imagePullSecret).err
        = some (.wrap "kubernetes secret update failed" (.store e)) ∧
      (CreateKubernetesSecretFromItem lib kubeClient store secretName namespaceName item
        autoRestart labels secretAnnotations secretType ownerRef secretTemplate
        imagePullSecret).err ≠ some (.store e) := by
  have hwrapped : (CreateKubernetesSecretFromItem lib kubeClient store secretName
      namespaceName item autoRestart labels secretAnnotations secretType ownerRef
      secretTemplate imagePullSecret).err
        = some (.wrap "kubernetes secret update failed" (.store e)) := by
    cases hanns : secretAnnotationsOf secretName item autoRestart secretAnnotations with
    | error err =>
      rw [CreateKubernetesSecretFromItem_of_error lib kubeClient store secretName
        namespaceName item autoRestart labels secretAnnotations secretType ownerRef
        secretTemplate imagePullSecret err hanns] at hfail
      simp at hfail
    | ok anns =>
      cases hget : kubeClient.Get store namespaceName (formatSecretName secretName) with
      | error e1 =>
        rw [CreateKubernetesSecretFromItem_of_fetch_error lib kubeClient store secretName
          namespaceName item autoRestart labels secretAnnotations secretType ownerRef
          secretTemplate imagePullSecret anns hanns e1 hget] at hfail
        by_cases hnf : e1.NotFound = true
        · rw [if_pos hnf] at hfail
          simp at hfail
        · rw [if_neg hnf] at hfail
          simp at hfail
      | ok current =>
        have hout := CreateKubernetesSecretFromItem_of_present lib kubeClient store
          secretName namespaceName item autoRestart labels secretAnnotations secretType
          ownerRef secretTemplate imagePullSecret anns hanns current hget
        rw [hout] at hfail ⊢
        by_cases htype : defaultedType current.Type_ ≠ defaultedType secretType
        · rw [if_pos htype] at hfail
          simp at hfail
        · rw [if_neg htype] at hfail ⊢
          by_cases hdeep : (!DeepEqual current.Annotations (some anns) ||
              !DeepEqual current.Labels labels) = true
          · rw [if_pos hdeep] at hfail ⊢
            simp only [List.mem_cons, List.mem_singleton, List.not_mem_nil, or_false,
              StoreCall.update.injEq, false_or, reduceCtorEq] at hfail
            rw [← hfail.2]
            rfl
          · rw [if_neg hdeep] at hfail
            simp at hfail
  refine ⟨hwrapped, ?_⟩
  rw [hwrapped]
  intro h
  cases h

/-- C23 (amended), at a store whose `Update` fails with a conflict: the returned
error wraps the conflict under `kubernetes secret update failed`. -/
theorem update_failure_wrapped_witness :
    StoreCall.update
        { Name := "db", Namespace := "default",
          Annotations := some [("operator.1password.io/item-version", "1"),
            ("operator.1password.io/item-path", "vaults/vault-1/items/item-1")],
          Labels := none, OwnerReferences := [],
          Data := [("password", stringToBytes "s3cret")], Type_ := "" }
        (some ⟨false, "the object has been modified"⟩) ∈
      (CreateKubernetesSecretFromItem literalTemplates
        (scriptedStore (.ok (storedSecret "" none)) none
          (some ⟨false, "the object has been modified"⟩)) ()
        "db" "default" (itemOf [fieldOf "password" "s3cret"] []) "" none none "Opaque"
        none none none).calls ∧
      (CreateKubernetesSecretFromItem literalTemplates
        (scriptedStore (.ok (storedSecret "" none)) none
          (some ⟨false, "the object has been modified"⟩)) ()
        "db" "default" (itemOf [fieldOf "password" "s3cret"] []) "" none none "Opaque"
        none none none).err
        = some (.wrap "kubernetes secret update failed"
            (.store ⟨false, "the object has been modified"⟩)) :=
  ⟨by decide,
    (update_failure_wrapped literalTemplates
      (scriptedStore (.ok (storedSecret "" none)) none
        (some ⟨false, "the object has been modified"⟩)) ()
      "db" "default" (itemOf [fieldOf "password" "s3cret"] []) "" none none "Opaque"
      none none none
      { Name := "db", Namespace := "default",
        Annotations := some [("operator.1password.io/item-version", "1"),
          ("operator.1password.io/item-path", "vaults/vault-1/items/item-1")],
        Labels := none, OwnerReferences := [],
        Data := [("password", stringToBytes "s3cret")], Type_ := "" }
      ⟨false, "the object has been modified"⟩ (by decide)).1⟩

/-- C22 (counterexample): the store `apiStore` persists what it is given as the
API server does, handing a map with no entries back as an absent map.  With
requested labels that are a map with no entries, the first invocation on the
empty store creates the object and succeeds, and the following invocation with
the same arguments fetches the object, finds absent labels against the
requested map with no entries, and issues an `Update`. -/
theorem empty_labels_not_idempotent :
    Persists apiStore ∧
      (CreateKubernetesSecretFromItem literalTemplates apiStore [] "db" "default"
        (itemOf [fieldOf "password" "s3cret"] []) "" (some []) none "Opaque" none none
        none).err = none ∧
      (CreateKubernetesSecretFromItem literalTemplates apiStore
        (CreateKubernetesSecretFromItem literalTemplates apiStore [] "db" "default"
          (itemOf [fieldOf "password" "s3cret"] []) "" (some []) none "Opaque" none none
          none).state
        "db" "default" (itemOf [fieldOf "password" "s3cret"] []) "" (some []) none "Opaque"
        none none none).calls
        = [.get "default" "db" (.ok
            { Name := "db", Namespace := "default",
              Annotations := some [("operator.1password.io/item-version", "1"),
                ("operator.1password.io/item-path", "vaults/vault-1/items/item-1")],
              Labels := none, OwnerReferences := [],
              Data := [("password", stringToBytes "s3cret")], Type_ := "Opaque" }),
          .update
            { Name := "db", Namespace := "default",
              Annotations := some [("operator.1password.io/item-version", "1"),
                ("operator.1password.io/item-path", "vaults/vault-1/items/item-1")],
              Labels := some [], OwnerReferences := [],
              Data := [("password", stringToBytes "s3cret")], Type_ := "Opaque" }
            none] :=
  ⟨apiStore_persists, by decide, by decide⟩

/-- C22 (amended): against a store that persists what `Create` and `Update`
are given, possibly handing a map with no entries back as an absent map and the
empty type as `Opaque`, and for requested labels that the store hands back as
given (labels that are absent or hold an entry, or any labels on a store that
hands objects back unchanged): whenever a first invocation of
`CreateKubernetesSecretFromItem` returns success (after a create, an update or
no write), an invocation with the same arguments on the store it leaves makes
the fetch its only store call, so it issues no `Create` and no `Update`,
returns success and leaves the store unchanged. -/
theorem reconcile_idempotent (lib : TextTemplate) (kubeClient : KubeClient)
    (hpersists : Persists kubeClient)
    (store : kubeClient.State) (secretName namespaceName : String) (item : Item)
    (autoRestart : String) (labels secretAnnotations : Option (GoMap String))
    (secretType : String) (ownerRef : Option OwnerReference)
    (secretTemplate : Option SecretTemplate) (imagePullSecret : Option ImagePullSecretConfig)
    (hlabels : labels = some [] → Faithful kubeClient)
    (hfirst : (CreateKubernetesSecretFromItem lib kubeClient store secretName namespaceName
        item autoRestart labels secretAnnotations secretType ownerRef secretTemplate
        imagePullSecret).err = none) :
    ∃ current : Secret,
      CreateKubernetesSecretFromItem lib kubeClient
          (CreateKubernetesSecretFromItem lib kubeClient store secretName namespaceName
            item autoRestart labels secretAnnotations secretType ownerRef secretTemplate
            imagePullSecret).state
          secretName namespaceName item autoRestart labels secretAnnotations secretType
          ownerRef secretTemplate imagePullSecret
        = { err := none
            calls := [.get namespaceName (formatSecretName secretName) (.ok current)]
            state := (CreateKubernetesSecretFromItem lib kubeClient store secretName
              namespaceName item autoRestart labels secretAnnotations secretType ownerRef
              secretTemplate imagePullSecret).state } := by
  obtain ⟨hnamed, hcreated, hupdated⟩ := hpersists
  cases hanns : secretAnnotationsOf secretName item autoRestart secretAnnotations with
  | error err =>
    rw [CreateKubernetesSecretFromItem_of_error lib kubeClient store secretName
      namespaceName item autoRestart labels secretAnnotations secretType ownerRef
      secretTemplate imagePullSecret err hanns] at hfirst
    cases hfirst
  | ok anns =>
    have hne := secretAnnotationsOf_ne_nil secretName item autoRestart secretAnnotations anns
      hanns
    cases hget : kubeClient.Get store namespaceName (formatSecretName secretName) with
    | error e1 =>
      have hout := CreateKubernetesSecretFromItem_of_fetch_error lib kubeClient store
        secretName namespaceName item autoRestart labels secretAnnotations secretType
        ownerRef secretTemplate imagePullSecret anns hanns e1 hget
      by_cases hnf : e1.NotFound = true
      · rw [if_pos hnf] at hout
        rw [hout] at hfirst ⊢
        have hok : (kubeClient.Create store
            (BuildKubernetesSecretFromOnePasswordItem lib secretName namespaceName
              (some anns) labels secretType item ownerRef secretTemplate
              imagePullSecret)).1 = none := by
          cases hc : (kubeClient.Create store
            (BuildKubernetesSecretFromOnePasswordItem lib secretName namespaceName
              (some anns) labels secretType item ownerRef secretTemplate
              imagePullSecret)).1 with
          | none => rfl
          | some e2 =>
            simp only [hc, Option.map_some'] at hfirst
            cases hfirst
        by_cases hl : labels = some []
        · have hstored := (hlabels hl).2.1 store _ hok
          exact ⟨_, CreateKubernetesSecretFromItem_of_synced lib kubeClient _ secretName
            namespaceName item autoRestart labels secretAnnotations secretType ownerRef
            secretTemplate imagePullSecret anns hanns _ hstored rfl rfl rfl⟩
        · obtain ⟨got, hgot, hpa⟩ := hcreated store _ hok
          obtain ⟨ht, hA, hL⟩ := persisted_maps _ got anns rfl hne hl hpa
          exact ⟨got, CreateKubernetesSecretFromItem_of_synced lib kubeClient _ secretName
            namespaceName item autoRestart labels secretAnnotations secretType ownerRef
            secretTemplate imagePullSecret anns hanns got hgot ht hA hL⟩
      · rw [if_neg hnf] at hout
        rw [hout] at hfirst
        cases hfirst
    | ok current =>
      have hout := CreateKubernetesSecretFromItem_of_present lib kubeClient store
        secretName namespaceName item autoRestart labels secretAnnotations secretType
        ownerRef secretTemplate imagePullSecret anns hanns current hget
      obtain ⟨hns, hname⟩ := hnamed store namespaceName (formatSecretName secretName)
        current hget
      by_cases htype : defaultedType current.Type_ ≠ defaultedType secretType
      · rw [if_pos htype] at hout
        rw [hout] at hfirst
        cases hfirst
      · rw [if_neg htype] at hout
        rw [not_not] at htype
        by_cases hdeep : (!DeepEqual current.Annotations (some anns) ||
            !DeepEqual current.Labels labels) = true
        · rw [if_pos hdeep] at hout
          rw [hout] at hfirst ⊢
          have hok : (kubeClient.Update store
              { current with
                Annotations := some anns, Labels := labels,
                Data := BuildKubernetesSecretData lib item secretTemplate
                  imagePullSecret }).1 = none := by
            cases hc : (kubeClient.Update store
              { current with
                Annotations := some anns, Labels := labels,
                Data := BuildKubernetesSecretData lib item secretTemplate
                  imagePullSecret }).1 with
            | none => rfl
            | some e2 =>
              simp only [hc, Option.map_some'] at hfirst
              cases hfirst
          by_cases hl : labels = some []
          · have hstored := (hlabels hl).2.2 store _ hok
            simp only [hns, hname] at hstored ⊢
            exact ⟨_, CreateKubernetesSecretFromItem_of_synced lib kubeClient _ secretName
              namespaceName item autoRestart labels secretAnnotations secretType ownerRef
              secretTemplate imagePullSecret anns hanns _ hstored htype rfl rfl⟩
          · obtain ⟨got, hgot, hpa⟩ := hupdated store _ hok
            obtain ⟨ht, hA, hL⟩ := persisted_maps _ got anns rfl hne hl hpa
            simp only [hns, hname] at hgot ⊢
            exact ⟨got, CreateKubernetesSecretFromItem_of_synced lib kubeClient _ secretName
              namespaceName item autoRestart labels secretAnnotations secretType ownerRef
              secretTemplate imagePullSecret anns hanns got hgot (ht.trans htype) hA hL⟩
        · rw [if_neg hdeep] at hout
          rw [hout]
          exact ⟨current, hout⟩

/-- C22 (amended), on the store that persists as the API server does, empty at
first, with the label `app`: the first invocation creates the object `db`, and
the second one, on the store the first one leaves, only fetches it.  The same
holds with labels that are a map with no entries on the store that hands
objects back unchanged. -/
theorem reconcile_idempotent_witness :
    Persists apiStore ∧
      ((some [("app", "db")] : Option (GoMap String)) = some [] → Faithful apiStore) ∧
      (CreateKubernetesSecretFromItem literalTemplates apiStore [] "db" "default"
        (itemOf [fieldOf "password" "s3cret"] []) "true" (some [("app", "db")]) none ""
        none none none).err = none ∧
      (CreateKubernetesSecretFromItem literalTemplates apiStore [] "db" "default"
        (itemOf [fieldOf "password" "s3cret"] []) "true" (some [("app", "db")]) none ""
        none none none).calls.length = 2 ∧
      (∃ current : Secret,
        CreateKubernetesSecretFromItem literalTemplates apiStore
            (CreateKubernetesSecretFromItem literalTemplates apiStore [] "db" "default"
              (itemOf [fieldOf "password" "s3cret"] []) "true" (some [("app", "db")]) none ""
              none none none).state
            "db" "default" (itemOf [fieldOf "password" "s3cret"] []) "true"
            (some [("app", "db")]) none "" none none none
          = { err := none
              calls := [.get "default" (formatSecretName "db") (.ok current)]
              state := (CreateKubernetesSecretFromItem literalTemplates apiStore []
                "db" "default" (itemOf [fieldOf "password" "s3cret"] []) "true"
                (some [("app", "db")]) none "" none none none).state }) ∧
      Faithful memoryStore ∧
      (CreateKubernetesSecretFromItem literalTemplates memoryStore [] "db" "default"
        (itemOf [fieldOf "password" "s3cret"] []) "" (some []) none "Opaque"
        none none none).err = none ∧
      ∃ current : Secret,
        CreateKubernetesSecretFromItem literalTemplates memoryStore
            (CreateKubernetesSecretFromItem literalTemplates memoryStore [] "db" "default"
              (itemOf [fieldOf "password" "s3cret"] []) "" (some []) none "Opaque"
              none none none).state
            "db" "default" (itemOf [fieldOf "password" "s3cret"] []) ""
            (some []) none "Opaque" none none none
          = { err := none
              calls := [.get "default" (formatSecretName "db") (.ok current)]
              state := (CreateKubernetesSecretFromItem literalTemplates memoryStore []
                "db" "default" (itemOf [fieldOf "password" "s3cret"] []) ""
                (some []) none "Opaque" none none none).state } :=
  ⟨apiStore_persists, fun h => absurd h (by decide), by decide, by decide,
    reconcile_idempotent literalTemplates apiStore apiStore_persists [] "db" "default"
      (itemOf [fieldOf "password" "s3cret"] []) "true" (some [("app", "db")]) none "" none
      none none (fun h => absurd h (by decide)) (by decide),
    memoryStore_faithful, by decide,
    reconcile_idempotent literalTemplates memoryStore
      (persists_of_faithful memoryStore memoryStore_faithful) [] "db" "default"
      (itemOf [fieldOf "password" "s3cret"] []) "" (some []) none "Opaque" none
      none none (fun _ => memoryStore_faithful) (by decide)⟩

/-- C26: for every Connect item converted into a fresh `Item` by
`FromConnectItem`, in whatever order the map of sections is ranged over, the
IDs of the resulting `Sections` are pairwise distinct and are exactly the
section IDs that the fields of the item refer to; each section is titled with
the section label of the first field referring to its ID; and every resulting
field with a non-empty `SectionID` has the ID of one of the sections. -/
theorem FromConnectItem_sections (rangeOrder : GoMap ItemSection → GoMap ItemSection)
    (content : ConnectFile → Except String (Option Bytes))
    (hrange : ∀ m : GoMap ItemSection, (rangeOrder m).Perm m) (item : ConnectItem) :
    ((FromConnectItem rangeOrder content zeroItem item).Sections.map ItemSection.ID).Nodup ∧
      (∀ id : String,
        id ∈ (FromConnectItem rangeOrder content zeroItem item).Sections.map ItemSection.ID ↔
          ∃ f ∈ item.Fields, ∃ s, f.Section = some s ∧ s.ID = id) ∧
      (∀ sec ∈ (FromConnectItem rangeOrder content zeroItem item).Sections,
        firstSectionLabel item.Fields sec.ID = some sec.Title) ∧
      (∀ f ∈ (FromConnectItem rangeOrder content zeroItem item).Fields, f.SectionID ≠ "" →
        f.SectionID ∈
          (FromConnectItem rangeOrder content zeroItem item).Sections.map ItemSection.ID) := by
  have hperm := hrange (connectSectionMap item.Fields)
  have hentry : ∀ e ∈ rangeOrder (connectSectionMap item.Fields),
      e.2.ID = e.1 ∧ firstSectionLabel item.Fields e.1 = some e.2.Title := by
    intro e he
    exact connectSectionMap_entry item.Fields e.1 e.2 (hperm.mem_iff.mp he)
  have hids : (FromConnectItem rangeOrder content zeroItem item).Sections.map ItemSection.ID
      = GoMap.keys (rangeOrder (connectSectionMap item.Fields)) := by
    simp only [FromConnectItem, List.map_map, GoMap.keys]
    exact List.map_congr_left (fun e he => (hentry e he).1)
  have hkeys : (GoMap.keys (rangeOrder (connectSectionMap item.Fields))).Perm
      (GoMap.keys (connectSectionMap item.Fields)) := hperm.map Prod.fst
  have hmem : ∀ id : String,
      id ∈ (FromConnectItem rangeOrder content zeroItem item).Sections.map ItemSection.ID ↔
        ∃ f ∈ item.Fields, ∃ s, f.Section = some s ∧ s.ID = id := by
    intro id
    rw [hids, hkeys.mem_iff, GoMap.mem_keys_iff, ← firstSection_isSome_iff]
    constructor
    · rintro ⟨v, hv⟩
      rw [get_connectSectionMap] at hv
      cases hfirst : firstSection item.Fields id with
      | none => rw [hfirst] at hv; cases hv
      | some sec => exact ⟨sec, rfl⟩
    · rintro ⟨sec, hsec⟩
      rw [get_connectSectionMap, hsec]
      exact ⟨_, rfl⟩
  refine ⟨?_, hmem, ?_, ?_⟩
  · rw [hids]
    exact hkeys.nodup_iff.mpr (connectSectionMap_nodup item.Fields)
  · intro sec hsec
    simp only [FromConnectItem, List.mem_map] at hsec
    obtain ⟨e, he, hsnd⟩ := hsec
    obtain ⟨h1, h2⟩ := hentry e he
    rw [← hsnd, h1]
    exact h2
  · intro f hf hne
    apply (hmem f.SectionID).mpr
    simp only [FromConnectItem, zeroItem, List.nil_append, List.mem_map] at hf
    obtain ⟨cf, hcf, hconv⟩ := hf
    cases hsec : cf.Section with
    | none =>
      rw [hsec] at hconv
      rw [← hconv] at hne
      exact absurd rfl hne
    | some s =>
      rw [hsec] at hconv
      refine ⟨cf, hcf, s, hsec, ?_⟩
      rw [← hconv]

/-- C26, at the item whose two fields refer to the section `section-1` labelled
`Credentials`, ranged over in reverse order: the conversion yields that single
section, and both fields carry its ID. -/
theorem FromConnectItem_sections_witness :
    (∀ m : GoMap ItemSection, (List.reverse m).Perm m) ∧
      (FromConnectItem List.reverse (fun _ => .ok none) zeroItem
        (connectItemOf
          [connectFieldIn "section-1" "Credentials" "field-1" "username" "testuser" "STRING",
            connectFieldIn "section-1" "Credentials" "field-2" "password" "testpass"
              "CONCEALED"])).Sections
        = [{ ID := "section-1", Title := "Credentials" }] ∧
      ((FromConnectItem List.reverse (fun _ => .ok none) zeroItem
        (connectItemOf
          [connectFieldIn "section-1" "Credentials" "field-1" "username" "testuser" "STRING",
            connectFieldIn "section-1" "Credentials" "field-2" "password" "testpass"
              "CONCEALED"])).Fields.map (fun f => f.SectionID))
        = ["section-1", "section-1"] ∧
      ((FromConnectItem List.reverse (fun _ => .ok none) zeroItem
        (connectItemOf
          [connectFieldIn "section-1" "Credentials" "field-1" "username" "testuser" "STRING",
            connectFieldIn "section-1" "Credentials" "field-2" "password" "testpass"
              "CONCEALED"])).Sections.map ItemSection.ID).Nodup :=
  ⟨fun m => List.reverse_perm m, by decide, by decide,
    (FromConnectItem_sections List.reverse (fun _ => .ok none)
      (fun m => List.reverse_perm m)
      (connectItemOf
        [connectFieldIn "section-1" "Credentials" "field-1" "username" "testuser" "STRING",
          connectFieldIn "section-1" "Credentials" "field-2" "password" "testpass"
            "CONCEALED"])).1⟩

/-- C24 (counterexample): the template `token: {{ .Fields.token }}.` consists of
literal text and one bare field reference, and the `Fields` of the context hold
no key `token`.  `ProcessTemplate` succeeds, and what it returns for the
reference is the text `<no value>` of the library, not the empty text: the
result is `token: <no value>.` and differs from `token: .`. -/
theorem missing_key_counterexample :
    templateSource [("token: ", "token")] "." = "token: \x7b\x7b .Fields.token \x7d\x7d." ∧
      GoMap.get (TemplateContext.mk [("username", "testuser")] [] []).Fields "token" = none ∧
      templateRenderingEmpty ⟨[("username", "testuser")], [], []⟩ [("token: ", "token")] "."
        = "token: ." ∧
      ProcessTemplate (goTemplates (fun _ => false) literalTemplates)
          (templateSource [("token: ", "token")] ".") ⟨[("username", "testuser")], [], []⟩
        = .ok (stringToBytes "token: <no value>.") ∧
      ProcessTemplate (goTemplates (fun _ => false) literalTemplates)
          (templateSource [("token: ", "token")] ".") ⟨[("username", "testuser")], [], []⟩
        ≠ .ok (stringToBytes (templateRenderingEmpty ⟨[("username", "testuser")], [], []⟩
            [("token: ", "token")] ".")) := by
  decide

/-- C24 (amended): a template that consists of literal texts and bare field
references `{{ .Fields.name }}` is given by its pieces, each a literal text
followed by the name of a reference, and a last literal text; a literal text
holds no left delimiter and does not end in an opening brace right before a
reference, and a name is a non-empty run of letters, digits and underscores
that does not start with a digit.  For every such template and every context,
`ProcessTemplate` with the library `text/template` succeeds and returns the
bytes of the literal texts with each reference replaced by the value of
`Fields[name]`, and by the text `<no value>` when `Fields` has no such key. -/
theorem ProcessTemplate_field_references (unicodeLetterOrDigit : Char → Bool)
    (beyond : TextTemplate)
    (pieces : List (String × String)) ( final : String) (ctx : TemplateContext)
    (htext : ∀ piece ∈ pieces, isLiteralBefore piece.1 = true)
    (hname : ∀ piece ∈ pieces, isFieldName unicodeLetterOrDigit piece.2 = true)
    (hfinal : hasLeftDelim final.data = false) :
    ProcessTemplate (goTemplates unicodeLetterOrDigit beyond) (templateSource pieces final) ctx
      = .ok (stringToBytes (templateRendering ctx pieces final)) := by
  obtain ⟨nodes, hparse, hexec⟩ := parse_exec_templateSource unicodeLetterOrDigit ctx final
    hfinal pieces htext hname ((templateSource pieces final).data.length + 1)
    (Nat.lt_succ_of_le (length_le_templateSource pieces final))
  simp only [ProcessTemplate, goTemplates, hparse, hexec]

/-- C24 (amended), at the template `username: {{ .Fields.username }}` and a
context whose `Fields` map `username` to `testuser`: the rendering is
`username: testuser`. -/
theorem ProcessTemplate_field_references_witness :
    (∀ piece ∈ [("username: ", "username")], isLiteralBefore piece.1 = true) ∧
      (∀ piece ∈ [("username: ", "username")],
        isFieldName (fun _ => false) piece.2 = true) ∧
      hasLeftDelim "".data = false ∧
      templateSource [("username: ", "username")] ""
        = "username: \x7b\x7b .Fields.username \x7d\x7d" ∧
      templateRendering
          ⟨[("username", "testuser"), ("password", "testpass")], [], []⟩
          [("username: ", "username")] ""
        = "username: testuser" ∧
      ProcessTemplate (goTemplates (fun _ => false) literalTemplates)
          (templateSource [("username: ", "username")] "")
          ⟨[("username", "testuser"), ("password", "testpass")], [], []⟩
        = .ok (stringToBytes (templateRendering
            ⟨[("username", "testuser"), ("password", "testpass")], [], []⟩
            [("username: ", "username")] "")) :=
  ⟨by decide, by decide, by decide, by decide, by decide,
    ProcessTemplate_field_references (fun _ => false) literalTemplates
      [("username: ", "username")] ""
      ⟨[("username", "testuser"), ("password", "testpass")], [], []⟩
      (by decide) (by decide) (by decide)⟩

end OnePasswordOperator
